import Mathlib

/-!
# influx_tsm: shard readers, record decoding and the migration run; HTTP authentication

A shallow embedding of `cmd/influx_tsm/tsdb/types.go`, `cmd/influx_tsm/b1/reader.go`,
`cmd/influx_tsm/main.go`, and of the authentication helpers and of the writer
`AllPointsWriter` of `api/http/api.go`.

Conventions
* A Go `error` result is an `Option String`: `none` is `nil`.
* A Go `[]byte` is a `List Byte`; a slice is taken with capacity equal to length.
* The points of a series are a Go slice with its own length and capacity, a window on a
  backing array in a memory of arrays (`http.Slice`, `http.Memory`).
* Calls that leave the process (the file system, the bolt store, the converter and the
  `bz1` reader, whose sources are not part of this development) are fields of `Env`,
  acting on an arbitrary machine state `σ`.
* Every such call made by `main` is recorded, with its outcome, in a trace of `Event`s.
-/

namespace InfluxTsm

/-! ## Values -/

/-- One byte. -/
abbrev Byte := Fin 256

/-- Modelled from the spec: the value kinds of a ValuePoint
("one of float64, int64, bool, string"); a float is kept as its 64 bit pattern. -/
inductive FieldValue where
  | float (bits : Nat)
  | integer (v : Int)
  | boolean (v : Bool)
  | str (v : String)
  deriving DecidableEq, Repr

/-- Modelled from the spec: `tsm1.Value`, a ValuePoint
("timestamp: signed 64-bit; value: one of float64, int64, bool, string"). -/
structure Value where
  unixNano : Int
  value : FieldValue
  deriving DecidableEq, Repr

/-! ## cmd/influx_tsm/tsdb/types.go -/

namespace tsdb

/-- Conversion `int64(u)` of an unsigned 64 bit number: two's complement reinterpretation. -/
def int64 (u : Nat) : Int :=
  if u % 2 ^ 64 < 2 ^ 63 then (u % 2 ^ 64 : Nat) else ((u % 2 ^ 64 : Nat) : Int) - 2 ^ 64

/-- Go `btou64`: `binary.BigEndian.Uint64(b)`, the big-endian number held in the first eight
bytes of `b`; `none` is the run-time panic on a slice shorter than eight bytes. -/
def btou64 (b : List Byte) : Option Nat :=
  if b.length < 8 then none
  else some ((b.take 8).foldl (fun acc x => acc * 256 + x.val) 0)

/-- The slice expression `k[0:8]`; `none` is the run-time panic when `k` is too short. -/
def slice08 (k : List Byte) : Option (List Byte) :=
  if 8 ≤ k.length then some (k.take 8) else none

/-- Go `DecodeKeyValue(field, dec, k, v)`. The codec method `dec.DecodeByName` is the
parameter `dec`. The result is `none` when the call panics, otherwise the pair of the
timestamp and the decoded value, the value being `none` (Go `nil`) when the codec
returned an error. -/
def DecodeKeyValue {V : Type} (field : String)
    (dec : String → List Byte → Except String V) (k v : List Byte) : Option (Int × Option V) :=
  match slice08 k with
  | none => none
  | some k8 =>
    match btou64 k8 with
    | none => none
    | some u =>
      let key := int64 u
      match dec field v with
      | .error _ => some (key, none)
      | .ok decValue => some (key, some decValue)

end tsdb

/-! ## cmd/influx_tsm/b1/reader.go -/

namespace b1

/-- Go `b1.Reader`: the shard path and the bolt handle, `none` (nil) until `Open` succeeds. -/
structure Reader where
  path : String
  db : Option Nat
  deriving DecidableEq, Repr

/-- Go `NewReader(path)`. -/
def NewReader (path : String) : Reader :=
  { path := path, db := none }

/-- Go `(*Reader).Open`: `bolt.Open(r.path, 0666, timeout 1s)` is the parameter `boltOpen`;
on success the handle is stored in `r.db`. Returns the error, the reader and the state. -/
def Reader.Open {σ : Type} (boltOpen : σ → String → Except String Nat × σ)
    (r : Reader) (s : σ) : Option String × Reader × σ :=
  match boltOpen s r.path with
  | (.error err, s1) => (some err, r, s1)
  | (.ok db, s1) => (none, { r with db := some db }, s1)

/-- Go `(*Reader).Next`: `return false`. -/
def Reader.Next (_r : Reader) : Bool := false

/-- Go `(*Reader).Read`: `return "", nil, nil`. -/
def Reader.Read (_r : Reader) : String × List Value × Option String := ("", [], none)

/-- Go `(*Reader).Close`: `return nil`. The receiver and the machine state are returned as
they were: the body touches neither. -/
def Reader.Close {σ : Type} (r : Reader) (s : σ) : Option String × Reader × σ := (none, r, s)

/-- Result of driving a reader to exhaustion. -/
inductive Drained where
  | records (rs : List (String × List Value))
  | failed (err : String)
  | outOfFuel
  deriving DecidableEq, Repr

/-- The loop `for r.Next() { k, v, err := r.Read(); ... }` with which a `ShardReader` is
driven: each record read is collected, a read error stops the loop. -/
def drive : Nat → Reader → Drained
  | 0, _ => .outOfFuel
  | fuel + 1, r =>
    if r.Next then
      match r.Read with
      | (_, _, some err) => .failed err
      | (k, vs, none) =>
        match drive fuel r with
        | .records rs => .records ((k, vs) :: rs)
        | other => other
    else .records []

/-- Number of points in a list of (series key, values) records. -/
def pointCount (rs : List (String × List Value)) : Nat :=
  (rs.map (fun kv => kv.2.length)).sum

/-- What `Open` followed by the read loop yields for the shard at `path`. -/
def readShard {σ : Type} (boltOpen : σ → String → Except String Nat × σ)
    (path : String) (s : σ) (fuel : Nat) : Option String × Drained :=
  match (NewReader path).Open boltOpen s with
  | (some err, _, _) => (some err, .records [])
  | (none, r, _) => (none, drive fuel r)

end b1

/-! ## cmd/influx_tsm/main.go -/

/-- Go `tsdb.EngineFormat`: the three formats `main` names, and any other tag. -/
inductive EngineFormat where
  | B1
  | BZ1
  | TSM1
  | other (tag : Nat)
  deriving DecidableEq, Repr

/-- Modelled from the spec: `tsdb.ShardInfo`, the ShardDescriptor ("database name,
retention-policy name, filesystem path, detected legacy format tag, on-disk size in
bytes"); its declaration is not among the sources. -/
structure ShardInfo where
  Database : String
  RetentionPolicy : String
  Path : String
  Format : EngineFormat
  Size : Int
  deriving DecidableEq, Repr

/-- The two readers `main` can build behind the `ShardReader` interface: `b1.NewReader(src)`
and `bz1.NewReader(src)` (package `bz1` is not among the sources; its reader is known by
its path only). -/
inductive ShardReader where
  | b1 (r : b1.Reader)
  | bz1 (path : String)
  deriving DecidableEq, Repr

/-- Everything `main` calls that is not defined in the sources, over a machine state `σ`.
Reads return a result only; writes return the error (if any) and the new state. -/
structure Env (σ : Type) where
  /-- Go `strings.ToLower`. -/
  toLower : String → String
  /-- Go `filepath.Join(a, b)`. -/
  join : String → String → String
  /-- Go `(*tsdb.ShardInfo).FullPath(dataPath)`. -/
  fullPath : ShardInfo → String → String
  /-- Go `sort.Sort(tsdb.ShardInfos(shards))`. -/
  sortShards : List ShardInfo → List ShardInfo
  /-- Go `tsdb.ShardInfos.FilterFormat(fmt)`. -/
  filterFormat : List ShardInfo → EngineFormat → List ShardInfo
  /-- Go `tsdb.ShardInfos.FilterDatabases(dbs)`; the nil slice is `[]`. -/
  filterDatabases : List ShardInfo → List String → List ShardInfo
  /-- Go `tsdb.ShardInfos.Databases()`. -/
  databases : List ShardInfo → List String
  /-- Go `ioutil.ReadDir(path)`: the entry names, or the error. -/
  readDir : σ → String → Except String (List String)
  /-- Go `tsdb.NewDatabase(path).Shards()`. -/
  dbShards : σ → String → Except String (List ShardInfo)
  /-- Go `bufio.NewReader(os.Stdin).ReadString(10)`: the line with its delimiter, or the error. -/
  readString : σ → Except String String
  /-- Go `os.IsNotExist(err)` for the `err` of `os.Stat(path)`. -/
  statNotExist : σ → String → Bool
  /-- The run of `copyDir(dest, src)`: a `filepath.Walk` over `src` whose callback consists
  of calls into packages `os` and `io` only. -/
  copyDir : σ → String → String → Option String × σ
  /-- Go `bolt.Open(path, 0666, timeout 1s)`. -/
  boltOpen : σ → String → Except String Nat × σ
  /-- Go `(*bz1.Reader).Open` of the reader on `path`. -/
  bz1Open : σ → String → Option String × σ
  /-- Go `(*bz1.Reader).Close` of the reader on `path`. -/
  bz1Close : σ → String → Option String × σ
  /-- Go `NewConverter(dst, maxSize).Process(reader)`. -/
  process : σ → String → Nat → ShardReader → Option String × σ
  /-- Go `os.RemoveAll(path)`. -/
  removeAll : σ → String → Option String × σ
  /-- Go `os.Rename(oldpath, newpath)`. -/
  rename : σ → String → String → Option String × σ

/-- Go `reader.Open()` through the interface. -/
def ShardReader.Open {σ : Type} (env : Env σ) : ShardReader → σ → Option String × ShardReader × σ
  | .b1 r, s =>
    match r.Open env.boltOpen s with
    | (err, r1, s1) => (err, .b1 r1, s1)
  | .bz1 path, s =>
    match env.bz1Open s path with
    | (err, s1) => (err, .bz1 path, s1)

/-- Go `reader.Close()` through the interface. -/
def ShardReader.Close {σ : Type} (env : Env σ) : ShardReader → σ → Option String × ShardReader × σ
  | .b1 r, s =>
    match r.Close s with
    | (err, r1, s1) => (err, .b1 r1, s1)
  | .bz1 path, s =>
    match env.bz1Close s path with
    | (err, s1) => (err, .bz1 path, s1)

/-- A call `main` makes outside the program, with its outcome (`ok` is "returned no error";
the response at the prompt is the line read, `none` when reading failed). -/
inductive Event where
  | readDir (path : String) (ok : Bool)
  | listShards (dbPath : String) (ok : Bool)
  | prompt (response : Option String)
  | stat (path : String) (notExist : Bool)
  | copyDir (dest src : String) (ok : Bool)
  | openReader (fmt : EngineFormat) (src : String) (ok : Bool)
  | process (src dst : String) (maxSize : Nat) (ok : Bool)
  | closeReader (src : String) (ok : Bool)
  | removeAll (path : String) (ok : Bool)
  | rename (oldpath newpath : String) (ok : Bool)
  deriving DecidableEq, Repr

/-- The calls that create, change or delete something: the backup copy and the
per-shard open, convert, close, remove and rename. -/
def Event.isWrite : Event → Bool
  | .copyDir _ _ _ => true
  | .openReader _ _ _ => true
  | .process _ _ _ _ => true
  | .closeReader _ _ => true
  | .removeAll _ _ => true
  | .rename _ _ _ => true
  | _ => false

/-- The per-shard calls of the conversion loop. -/
def Event.isShardEvent : Event → Bool
  | .openReader _ _ _ => true
  | .process _ _ _ _ => true
  | .closeReader _ _ => true
  | .removeAll _ _ => true
  | .rename _ _ _ => true
  | _ => false

/-- The calls of the discovery: reading the data directory and listing the shards of a
database. -/
def Event.isDiscovery : Event → Bool
  | .readDir _ _ => true
  | .listShards _ _ => true
  | _ => false

/-- Go `backupExt`. -/
def backupExt : String := "bak"

/-- Go `tsmExt`. -/
def tsmExt : String := "tsm"

/-- Go `maxTSMSz = 2 * 1024 * 1024 * 1024`. -/
def maxTSMSz : Nat := 2 * 1024 * 1024 * 1024

/-- A parsed command line: the `-dbs` flag and the `-sz` flag (an unsigned 64 bit number)
when given, and `flag.Args()`. -/
structure CmdLine where
  dbs : Option String
  sz : Option Nat
  args : List String

/-- Value of `ds` after `flag.Parse()`: registered by `init` with default `""`. -/
def CmdLine.ds (cl : CmdLine) : String := cl.dbs.getD ""

/-- Value of `tsmSz` after `flag.Parse()`: registered by `init` with default `maxTSMSz`. -/
def CmdLine.tsmSz (cl : CmdLine) : Nat := cl.sz.getD maxTSMSz

/-- The data directory `flag.Args()[0]`; `main` exits before using it when no argument
was given. -/
def CmdLine.dataPath (cl : CmdLine) : String := cl.args.headD ""

/-- The backup directory of database `db`: `filepath.Join(dataPath, db + "." + backupExt)`. -/
def backupPath {σ : Type} (env : Env σ) (dataPath db : String) : String :=
  env.join dataPath (db ++ "." ++ backupExt)

/-- Go `strings.HasSuffix`. -/
def HasSuffix (s suffix : String) : Bool := suffix.data.isSuffixOf s.data

/-- Go `strings.TrimRight(s, cutset)`: `s` without its trailing characters that are in `cutset`. -/
def TrimRight (s cutset : String) : String :=
  ⟨(s.data.reverse.dropWhile (fun c => cutset.data.contains c)).reverse⟩

/-- Pieces of a character list between the occurrences of `sep`. -/
def splitChars (sep : Char) : List Char → List (List Char)
  | [] => [[]]
  | c :: cs =>
    if c = sep then [] :: splitChars sep cs
    else
      match splitChars sep cs with
      | [] => [[c]]
      | w :: ws => (c :: w) :: ws

/-- Go `strings.Split(s, ",")`. -/
def SplitComma (s : String) : List String := (splitChars ',' s.data).map String.mk

/-- The requested databases: `strings.Split(ds, ",")`, or nil when that is the single
empty string. -/
def requestedDbs (ds : String) : List String :=
  let reqDs := SplitComma ds
  if reqDs.length = 1 ∧ reqDs.head? = some "" then [] else reqDs

/-- The loop "get the list of shards for conversion" over the entries of the data
directory: the shards found (`none` when listing a database failed) and the calls made. -/
def collectShards {σ : Type} (env : Env σ) (s : σ) (dataPath : String) :
    List String → List ShardInfo → Option (List ShardInfo) × List Event
  | [], shards => (some shards, [])
  | db :: dbs, shards =>
    if HasSuffix db backupExt then collectShards env s dataPath dbs shards
    else
      match env.dbShards s (env.join dataPath db) with
      | .error _ => (none, [.listShards (env.join dataPath db) false])
      | .ok shs =>
        match collectShards env s dataPath dbs (shards ++ shs) with
        | (res, tr) => (res, .listShards (env.join dataPath db) true :: tr)

/-- The loop "backup each directory": whether every backup was made, the state reached
and the calls made. -/
def backupLoop {σ : Type} (env : Env σ) (dataPath : String) :
    List String → σ → Bool × σ × List Event
  | [], s => (true, s, [])
  | db :: dbs, s =>
    let dest := env.join dataPath (db ++ "." ++ backupExt)
    let src := env.join dataPath db
    if env.statNotExist s dest then
      match env.copyDir s dest src with
      | (some _, s1) => (false, s1, [.stat dest true, .copyDir dest src false])
      | (none, s1) =>
        match backupLoop env dataPath dbs s1 with
        | (ok, s2, tr) => (ok, s2, .stat dest true :: .copyDir dest src true :: tr)
    else (false, s, [.stat dest false])

/-- The reader chosen by the `switch si.Format`; `none` is the default branch. -/
def newReader (fmt : EngineFormat) (src : String) : Option ShardReader :=
  match fmt with
  | .BZ1 => some (.bz1 src)
  | .B1 => some (.b1 (b1.NewReader src))
  | _ => none

/-- One pass of the loop "convert each shard": whether the pass reached "Success!"
(otherwise the process exits with code 1), the state reached and the calls made. -/
def convertShard {σ : Type} (env : Env σ) (dataPath : String) (tsmSz : Nat) (si : ShardInfo)
    (s : σ) : Bool × σ × List Event :=
  let src := env.fullPath si dataPath
  let dst := src ++ "." ++ tsmExt
  match newReader si.Format src with
  | none => (false, s, [])
  | some reader =>
    match reader.Open env s with
    | (some _, _, s1) => (false, s1, [.openReader si.Format src false])
    | (none, reader1, s1) =>
      match env.process s1 dst (tsmSz % 2 ^ 32) reader1 with
      | (some _, s2) =>
        (false, s2, [.openReader si.Format src true, .process src dst (tsmSz % 2 ^ 32) false])
      | (none, s2) =>
        match reader1.Close env s2 with
        | (some _, _, s3) =>
          (false, s3, [.openReader si.Format src true, .process src dst (tsmSz % 2 ^ 32) true,
            .closeReader src false])
        | (none, _, s3) =>
          match env.removeAll s3 (env.fullPath si dataPath) with
          | (some _, s4) =>
            (false, s4, [.openReader si.Format src true, .process src dst (tsmSz % 2 ^ 32) true,
              .closeReader src true, .removeAll src false])
          | (none, s4) =>
            match env.rename s4 dst src with
            | (some _, s5) =>
              (false, s5, [.openReader si.Format src true, .process src dst (tsmSz % 2 ^ 32) true,
                .closeReader src true, .removeAll src true, .rename dst src false])
            | (none, s5) =>
              (true, s5, [.openReader si.Format src true, .process src dst (tsmSz % 2 ^ 32) true,
                .closeReader src true, .removeAll src true, .rename dst src true])

/-- The loop "convert each shard": whether every shard reached "Success!", the state
reached and the calls made. -/
def convertLoop {σ : Type} (env : Env σ) (dataPath : String) (tsmSz : Nat) :
    List ShardInfo → σ → Bool × σ × List Event
  | [], s => (true, s, [])
  | si :: rest, s =>
    match convertShard env dataPath tsmSz si s with
    | (false, s1, tr) => (false, s1, tr)
    | (true, s1, tr) =>
      match convertLoop env dataPath tsmSz rest s1 with
      | (ok, s2, tr2) => (ok, s2, tr ++ tr2)

/-- Result of a run of `main`: the exit code, the state left and the calls made. -/
structure Run (σ : Type) where
  code : Nat
  state : σ
  trace : List Event

/-- The response as `main` compares it: `strings.TrimRight(strings.ToLower(yn), "\n")`. -/
def normalise {σ : Type} (env : Env σ) (yn : String) : String :=
  TrimRight (env.toLower yn) "\n"

/-- The part of `main` from "Get confirmation from user" to the end, for the shards
selected. -/
def migrate {σ : Type} (env : Env σ) (dataPath : String) (tsmSz : Nat)
    (shards : List ShardInfo) (s : σ) : Run σ :=
  match env.readString s with
  | .error _ => { code := 1, state := s, trace := [.prompt none] }
  | .ok yn =>
    if normalise env yn ≠ "y" then { code := 1, state := s, trace := [.prompt (some yn)] }
    else
      match backupLoop env dataPath (env.databases shards) s with
      | (false, s1, tb) => { code := 1, state := s1, trace := .prompt (some yn) :: tb }
      | (true, s1, tb) =>
        match convertLoop env dataPath tsmSz shards s1 with
        | (false, s2, tc) => { code := 1, state := s2, trace := .prompt (some yn) :: (tb ++ tc) }
        | (true, s2, tc) => { code := 0, state := s2, trace := .prompt (some yn) :: (tb ++ tc) }

/-- The shards `main` selects for conversion once the data directory was read: the shards
of every entry not skipped as a backup, sorted, without those in TSM1 format, restricted to
the requested databases; `none` when listing a database failed. With the calls made. -/
def selectShards {σ : Type} (env : Env σ) (ds : String) (dataPath : String) (dbs : List String)
    (s : σ) : Option (List ShardInfo) × List Event :=
  match collectShards env s dataPath dbs [] with
  | (none, tr) => (none, tr)
  | (some found, tr) =>
    (some (env.filterDatabases (env.filterFormat (env.sortShards found) .TSM1) (requestedDbs ds)),
      tr)

/-- Function `main`, run on a parsed command line from the machine state `s`. -/
def main {σ : Type} (env : Env σ) (cl : CmdLine) (s : σ) : Run σ :=
  match cl.args with
  | [] => { code := 1, state := s, trace := [] }
  | dataPath :: _ =>
    if cl.tsmSz > maxTSMSz then { code := 1, state := s, trace := [] }
    else
      match env.readDir s dataPath with
      | .error _ => { code := 1, state := s, trace := [.readDir dataPath false] }
      | .ok dbs =>
        match selectShards env cl.ds dataPath dbs s with
        | (none, tr) => { code := 1, state := s, trace := .readDir dataPath true :: tr }
        | (some shards, tr) =>
          if shards.length = 0 then
            { code := 0, state := s, trace := .readDir dataPath true :: tr }
          else
            match migrate env dataPath cl.tsmSz shards s with
            | r => { r with trace := .readDir dataPath true :: (tr ++ r.trace) }

/-- The shards selected for conversion in the run of `main` from `s`; empty when the run
ends before the selection is made. -/
def selected {σ : Type} (env : Env σ) (cl : CmdLine) (s : σ) : List ShardInfo :=
  match cl.args with
  | [] => []
  | dataPath :: _ =>
    if cl.tsmSz > maxTSMSz then []
    else
      match env.readDir s dataPath with
      | .error _ => []
      | .ok dbs => ((selectShards env cl.ds dataPath dbs s).1).getD []

/-! ## Concrete machines for the examples -/

/-- A bolt store on disk for the examples: the shard files with their series, and the
paths currently held open. -/
structure BoltStore where
  files : List (String × List (String × List Value))
  held : List String
  deriving DecidableEq, Repr

/-- The series stored at `path` (none when there is no such file). -/
def BoltStore.shardAt (st : BoltStore) (path : String) : List (String × List Value) :=
  match st.files.find? (fun f => f.1 = path) with
  | some f => f.2
  | none => []

/-- Opening a file of the example store: fails when the file is missing or already held,
otherwise hands out handle `1` and records the file as held. -/
def BoltStore.open (st : BoltStore) (path : String) : Except String Nat × BoltStore :=
  if st.held.contains path then (.error "timeout", st)
  else if st.files.any (fun f => f.1 = path) then (.ok 1, { st with held := path :: st.held })
  else (.error "no such file", st)

/-- An example store: one b1 shard holding a single point. -/
def demoStore : BoltStore :=
  { files := [("/data/db0/default/1", [("cpu,host=a", [{ unixNano := 10, value := .integer 7 }])])],
    held := [] }

/-- An example codec that rejects every value. -/
def rejectAll : String → List Byte → Except String FieldValue :=
  fun _ _ => .error "unknown field"

/-- An example key: the timestamp 258 on eight bytes, big-endian. -/
def demoKey : List Byte := [0, 0, 0, 0, 0, 0, 1, 2]

/-- The calls of a pass of the conversion loop that reaches "Success!". -/
def successEvents {σ : Type} (env : Env σ) (dataPath : String) (tsmSz : Nat) (si : ShardInfo) :
    List Event :=
  [.openReader si.Format (env.fullPath si dataPath) true,
    .process (env.fullPath si dataPath) (env.fullPath si dataPath ++ "." ++ tsmExt)
      (tsmSz % 2 ^ 32) true,
    .closeReader (env.fullPath si dataPath) true,
    .removeAll (env.fullPath si dataPath) true,
    .rename (env.fullPath si dataPath ++ "." ++ tsmExt) (env.fullPath si dataPath) true]

/-- The calls of a pass of the conversion loop that ends the run, one list for each
exit: unsupported format, then failure to open, to convert, to close, to remove and to
rename. -/
def failureEvents {σ : Type} (env : Env σ) (dataPath : String) (tsmSz : Nat) (si : ShardInfo) :
    List (List Event) :=
  [[],
    [.openReader si.Format (env.fullPath si dataPath) false],
    (successEvents env dataPath tsmSz si).take 1 ++
      [.process (env.fullPath si dataPath) (env.fullPath si dataPath ++ "." ++ tsmExt)
        (tsmSz % 2 ^ 32) false],
    (successEvents env dataPath tsmSz si).take 2 ++
      [.closeReader (env.fullPath si dataPath) false],
    (successEvents env dataPath tsmSz si).take 3 ++
      [.removeAll (env.fullPath si dataPath) false],
    (successEvents env dataPath tsmSz si).take 4 ++
      [.rename (env.fullPath si dataPath ++ "." ++ tsmExt) (env.fullPath si dataPath) false]]

/-- What a path holds, as far as the conversion loop is concerned: what it held when the
loop started, nothing, or the output written by the converter for the shard `src`,
complete when `Process` returned nil. -/
inductive Content where
  | original (tag : Nat)
  | absent
  | output (src : String) (complete : Bool)
  deriving DecidableEq, Repr

/-- Modelled from the spec: what the calls of the conversion loop do to the files (the
converter is not among the sources; the spec has the conversion "run against a sibling
temporary output path", then "remove the original shard path entirely, then rename the
temporary output path to the original shard path's name"). `Process` writes its output at
`dst` and nowhere else, a successful `os.RemoveAll` leaves nothing at the path, a
successful `os.Rename` moves what the old path holds to the new path; opening and closing
a reader, and a removal or rename that returns an error, leave every path as it was. -/
def fileEffect (files : String → Content) : Event → String → Content
  | .process src dst _ ok => fun q => if q = dst then .output src ok else files q
  | .removeAll p true => fun q => if q = p then .absent else files q
  | .rename oldpath newpath true =>
    fun q => if q = oldpath then .absent else if q = newpath then files oldpath else files q
  | _ => files

/-- The guard on a call given the calls made before it: a removal of `p` comes right
after the reader on `p` was opened, `Process` wrote to `p.tsm` and the reader was closed,
all without error; a rename onto `p` is a rename of `p.tsm` and comes right after a
removal of `p` without error. Other calls carry no guard. -/
def Guarded (maxSize : Nat) (hist : List Event) : Event → Prop
  | .removeAll p _ =>
    ∃ pre0 fmt, hist = pre0 ++ [.openReader fmt p true,
      .process p (p ++ "." ++ tsmExt) maxSize true, .closeReader p true]
  | .rename oldpath newpath _ =>
    oldpath = newpath ++ "." ++ tsmExt ∧ ∃ pre0, hist = pre0 ++ [.removeAll newpath true]
  | _ => True

/-- Every call of `t`, made after the calls `hist`, meets its guard. -/
def GuardedTrace (maxSize : Nat) (hist t : List Event) : Prop :=
  ∀ pre e post, t = pre ++ e :: post → Guarded maxSize (hist ++ pre) e

/-- The paths in `watched` each hold what they held in `files0`, nothing, or the complete
output of the converter for that very path. -/
def Intact (files0 : String → Content) (watched : String → Prop) (files : String → Content) :
    Prop :=
  ∀ p, watched p → files p = files0 p ∨ files p = .absent ∨ files p = .output p true

/-- The watched paths are intact after every initial part of the calls `t`, made from
`files`. -/
def IntactAlong (files0 : String → Content) (watched : String → Prop)
    (files : String → Content) (t : List Event) : Prop :=
  ∀ pre post, t = pre ++ post → Intact files0 watched (pre.foldl fileEffect files)

/-- A machine for the examples: the entries of the data directory `/data` with their
shards, the other paths that exist, the shard paths whose store cannot be opened, the
databases whose copy fails, and the line typed at the prompt. -/
structure Sim where
  entries : List (String × List ShardInfo)
  existing : List String
  broken : List String
  uncopyable : List String
  answer : Option String
  deriving DecidableEq

/-- Names without repetition, in order of first occurrence. -/
def uniqueNames : List String → List String
  | [] => []
  | a :: as => a :: (uniqueNames as).filter (fun b => b ≠ a)

/-- The calls of `Env` on the example machine. Paths are joined with `/`; the shards are
kept in the order found; `FilterFormat` drops the shards of the given format and
`FilterDatabases` keeps those of the given databases (all when none is given). -/
def simEnv : Env Sim where
  toLower := fun yn => ⟨yn.data.map Char.toLower⟩
  join := fun a b => a ++ "/" ++ b
  fullPath := fun si dataPath =>
    dataPath ++ "/" ++ si.Database ++ "/" ++ si.RetentionPolicy ++ "/" ++ si.Path
  sortShards := fun shards => shards
  filterFormat := fun shards fmt => shards.filter (fun si => si.Format ≠ fmt)
  filterDatabases := fun shards dbs =>
    if dbs = [] then shards else shards.filter (fun si => dbs.contains si.Database)
  databases := fun shards => uniqueNames (shards.map (fun si => si.Database))
  readDir := fun m path =>
    if path = "/data" then .ok (m.entries.map (fun e => e.1)) else .error "no such directory"
  dbShards := fun m path =>
    match m.entries.find? (fun e => "/data/" ++ e.1 = path) with
    | some e => .ok e.2
    | none => .error "no such directory"
  readString := fun m =>
    match m.answer with
    | some yn => .ok yn
    | none => .error "EOF"
  statNotExist := fun m path => !(m.existing.contains path)
  copyDir := fun m dest src =>
    if m.uncopyable.contains src then (some "permission denied", m)
    else (none, { m with existing := dest :: m.existing })
  boltOpen := fun m path =>
    if m.broken.contains path then (.error "timeout", m) else (.ok 1, m)
  bz1Open := fun m path =>
    if m.broken.contains path then (some "timeout", m) else (none, m)
  bz1Close := fun m _ => (none, m)
  process := fun m dst _ _ => (none, { m with existing := dst :: m.existing })
  removeAll := fun m path => (none, { m with existing := m.existing.filter (fun q => q ≠ path) })
  rename := fun m oldpath newpath =>
    (none, { m with existing := newpath :: m.existing.filter (fun q => q ≠ oldpath) })

/-- Two legacy shards of database `db0`. -/
def shardA : ShardInfo :=
  { Database := "db0", RetentionPolicy := "default", Path := "1", Format := .BZ1, Size := 4096 }

/-- The second shard of database `db0`. -/
def shardB : ShardInfo :=
  { Database := "db0", RetentionPolicy := "default", Path := "2", Format := .B1, Size := 8192 }

/-- An example machine: database `db0` with two legacy shards, no backup yet, and the
answer `y`. -/
def demoSim : Sim :=
  { entries := [("db0", [shardA, shardB])], existing := ["/data", "/data/db0"], broken := [],
    uncopyable := [], answer := some "y\n" }

/-- The calls of the run on the example machine up to the end of the backup loop. -/
def demoFront : List Event :=
  [.readDir "/data" true, .listShards "/data/db0" true, .prompt (some "y\n"),
    .stat "/data/db0.bak" true, .copyDir "/data/db0.bak" "/data/db0" true]

/-- The example machine after an earlier run left the backup of `db0` behind. -/
def demoSimBak : Sim :=
  { demoSim with existing := ["/data", "/data/db0", "/data/db0.bak"] }

/-- The example machine with the store of the first shard locked by another process. -/
def demoSimLocked : Sim :=
  { demoSim with broken := ["/data/db0/default/1"] }

/-- The example machine with the store of the second shard locked by another process. -/
def demoSimLockedLast : Sim :=
  { demoSim with broken := ["/data/db0/default/2"] }

/-- The example machine with a database directory that cannot be copied. -/
def demoSimNoCopy : Sim :=
  { demoSim with uncopyable := ["/data/db0"] }

/-- The command line `influx_tsm /data`. -/
def demoCmd : CmdLine := { dbs := none, sz := none, args := ["/data"] }

/-! ## cmd/influx_tsm/tsdb/types.go: series keys and timestamps -/

namespace tsdb

/-- Position of the first occurrence of `sep` in a list of characters, `-1` when there is
none. -/
def indexChars (sep : Char) : List Char → Int
  | [] => -1
  | c :: cs =>
    if c = sep then 0
    else if indexChars sep cs = -1 then -1
    else indexChars sep cs + 1

/-- Go `strings.Index(s, sep)` for a separator of one character. Positions count
characters where Go counts bytes; the slice `s[:idx]` taken at the position of an ASCII
separator is the same either way. -/
def Index (s : String) (sep : Char) : Int := indexChars sep s.data

/-- Go `MeasurementFromSeriesKey(key)`: `key` when `strings.Index(key, ",")` is `-1`,
otherwise `key[:strings.Index(key, ",")]`. -/
def MeasurementFromSeriesKey (key : String) : String :=
  let idx := Index key ','
  if idx = -1 then key
  else ⟨key.data.take (Index key ',').toNat⟩

/-- The big-endian two's complement encoding of the timestamp `t` on eight bytes, the
most significant byte first. -/
def bigEndian64 (t : Int) : List Byte :=
  (List.range 8).map (fun i =>
    (⟨(t % 2 ^ 64).toNat / 256 ^ (7 - i) % 256, Nat.mod_lt _ (by decide)⟩ : Byte))

end tsdb

/-- A legacy shard of database `db0` stored under the name `1.tsm`, the name of the
temporary output of the shard `1`. -/
def shardTmp : ShardInfo :=
  { Database := "db0", RetentionPolicy := "default", Path := "1.tsm", Format := .BZ1,
    Size := 4096 }

/-- A legacy shard of a database whose name happens to end in `bak`. -/
def shardOdd : ShardInfo :=
  { Database := "dbbak", RetentionPolicy := "default", Path := "1", Format := .BZ1, Size := 4096 }

/-- The example machine with the database `dbbak` only. -/
def demoSimOddName : Sim :=
  { entries := [("dbbak", [shardOdd])], existing := ["/data", "/data/dbbak"], broken := [],
    uncopyable := [], answer := some "y\n" }

/-- An example series key, with its measurement `cpu`. -/
def demoSeriesKey : String := "cpu,host=a,region=b"

/-- A call that reports a failure: a directory read, shard listing, copy, open,
conversion, close, removal or rename that returned an error, a backup directory found
to exist already, or a response that could not be read. -/
def Event.failed : Event → Bool
  | .readDir _ ok => !ok
  | .listShards _ ok => !ok
  | .prompt response => response.isNone
  | .stat _ notExist => !notExist
  | .copyDir _ _ ok => !ok
  | .openReader _ _ ok => !ok
  | .process _ _ _ ok => !ok
  | .closeReader _ ok => !ok
  | .removeAll _ ok => !ok
  | .rename _ _ ok => !ok

/-- A trace without a failed call, or one whose last call is its only failed call. -/
def CleanOrLast (t : List Event) : Prop :=
  (∀ x ∈ t, x.failed = false) ∨
    ∃ pre e, t = pre ++ [e] ∧ e.failed = true ∧ ∀ x ∈ pre, x.failed = false

/-- The example environment with a file system that shows what the run wrote: a copied
database directory appears in the data directory under its backup name, with the same
shards, and a shard whose converted output was renamed onto its path is found in TSM1
format from then on. The other calls are those of `simEnv`. -/
def simEnvTsm : Env Sim :=
  { simEnv with
    copyDir := fun m dest src =>
      if m.uncopyable.contains src then (some "permission denied", m)
      else
        (none, { m with
          existing := dest :: m.existing,
          entries := m.entries ++
            (m.entries.filter (fun e => "/data/" ++ e.1 = src)).map (fun e =>
              (e.1 ++ "." ++ backupExt,
                e.2.map (fun si => { si with Database := e.1 ++ "." ++ backupExt }))) })
    rename := fun m oldpath newpath =>
      (none, { m with
        existing := newpath :: m.existing.filter (fun q => q ≠ oldpath),
        entries := m.entries.map (fun e =>
          (e.1, e.2.map (fun si =>
            if simEnv.fullPath si "/data" = newpath ∧ oldpath = newpath ++ "." ++ tsmExt
            then { si with Format := .TSM1 } else si))) }) }

/-! ## api/http/api.go: authentication of a request

The user manager, the handler callback, `json.Marshal` and `base64` are parameters. The
calls made on the user manager, on the callback and on the response writer are recorded,
in order, as `Call`s. -/

namespace http

/-- Go `libhttp.StatusOK`. -/
def StatusOK : Int := 200

/-- Go `libhttp.StatusBadRequest`. -/
def StatusBadRequest : Int := 400

/-- Go `libhttp.StatusUnauthorized`. -/
def StatusUnauthorized : Int := 401

/-- Go `libhttp.StatusInternalServerError`. -/
def StatusInternalServerError : Int := 500

/-- Go `INVALID_CREDENTIALS_MSG`. -/
def INVALID_CREDENTIALS_MSG : String := "Invalid database/username/password"

/-- The byte with value `n` modulo 256. -/
def byte (n : Nat) : Byte := ⟨n % 256, Nat.mod_lt _ (by decide)⟩

/-- The UTF-8 encoding of a character. -/
def utf8Char (c : Char) : List Byte :=
  if c.toNat < 128 then [byte c.toNat]
  else if c.toNat < 2048 then [byte (192 + c.toNat / 64), byte (128 + c.toNat % 64)]
  else if c.toNat < 65536 then
    [byte (224 + c.toNat / 4096), byte (128 + c.toNat / 64 % 64), byte (128 + c.toNat % 64)]
  else
    [byte (240 + c.toNat / 262144), byte (128 + c.toNat / 4096 % 64),
      byte (128 + c.toNat / 64 % 64), byte (128 + c.toNat % 64)]

/-- The conversion `[]byte(x)` of a string. -/
def bytesOf (x : String) : List Byte := x.data.flatMap utf8Char

/-- Go `strings.Split(s, sep)` for a separator of one character. -/
def Split (s : String) (sep : Char) : List String := (splitChars sep s.data).map String.mk

/-- What the handlers read of a `*libhttp.Request`: `r.URL.Query().Get(key)` and
`r.Header.Get(key)`, each the empty string when the key is absent. -/
structure Request where
  query : String → String
  header : String → String

/-- A value of type `interface{}` as `toBytes` tells them apart: `nil`, a string, a byte
slice, or anything else. -/
inductive Body (J : Type) where
  | nil
  | str (x : String)
  | bytes (x : List Byte)
  | value (x : J)

/-- The library calls: `json.Marshal`, and `base64.StdEncoding.DecodeString` followed by
the conversion `string(bs)`. -/
structure Lib (J : Type) where
  marshal : J → Except String (List Byte)
  decodeString : String → Except String String

/-- The methods of the `UserManager` interface that the handlers call, on a state `σ`. -/
structure UserManager (σ U : Type) where
  AuthenticateDbUser : σ → String → String → String → Except String U × σ
  AuthenticateClusterAdmin : σ → String → String → Except String U × σ

/-- A call made while a request is handled: on the user manager (with whether it returned
no error), on the handler callback, or on the response writer. -/
inductive Call (U : Type) where
  | authDbUser (db username password : String) (ok : Bool)
  | authClusterAdmin (username password : String) (ok : Bool)
  | yield (user : U)
  | headerAdd (key value : String)
  | headerDel (key : String)
  | writeHeader (code : Int)
  | write (body : List Byte)
  deriving DecidableEq

/-- The calls of the handler callback. -/
def Call.isYield {U : Type} : Call U → Bool
  | .yield _ => true
  | _ => false

/-- The calls on the user manager. -/
def Call.isAuth {U : Type} : Call U → Bool
  | .authDbUser _ _ _ _ => true
  | .authClusterAdmin _ _ _ => true
  | _ => false

/-- Go `toBytes(body)`: the bytes, the content type and the error. -/
def toBytes {J : Type} (lib : Lib J) : Body J → List Byte × String × Option String
  | .nil => ([], "text/plain", none)
  | .str x => (bytesOf x, "text/plain", none)
  | .bytes x => (x, "text/plain", none)
  | .value x =>
    match lib.marshal x with
    | .ok body => (body, "application/json", none)
    | .error err => ([], "application/json", some err)

/-- Go `yieldUser(user, yield)`: the status code, the content type and the body, with the
state left by the callback. -/
def yieldUser {σ U J : Type} (lib : Lib J) (user : U) (yield : σ → U → (Int × Body J) × σ)
    (s : σ) : (Int × String × List Byte) × σ :=
  match yield s user with
  | ((statusCode, body), s1) =>
    match toBytes lib body with
    | (_, _, some err) => ((StatusInternalServerError, "text/plain", bytesOf err), s1)
    | (bodyContent, contentType, none) => ((statusCode, contentType, bodyContent), s1)

/-- Go `getUsernameAndPassword(r)`: the user name, the password and the error. -/
def getUsernameAndPassword {J : Type} (lib : Lib J) (r : Request) :
    String × String × Option String :=
  if r.query "u" ≠ "" ∧ r.query "p" ≠ "" then (r.query "u", r.query "p", none)
  else if r.header "Authorization" = "" then ("", "", none)
  else if (Split (r.header "Authorization") ' ').length ≠ 2 then
    ("", "", some "Bad auth header")
  else
    match lib.decodeString ((Split (r.header "Authorization") ' ').getD 1 "") with
    | .error _ => ("", "", some "Bad encoding")
    | .ok bs =>
      if (Split bs ':').length ≠ 2 then ("", "", some "Bad auth value")
      else ((Split bs ':').getD 0 "", (Split bs ':').getD 1 "", none)

/-- The end of `tryAsClusterAdmin`: the calls on the response writer that send what
`yieldUser` returned, none when the status code is negative. -/
def sendResult {U : Type} (statusCode : Int) (contentType : String) (body : List Byte) :
    List (Call U) :=
  if statusCode < 0 then []
  else
    (if statusCode = StatusUnauthorized then
        [.headerAdd "WWW-Authenticate" "Basic realm=\"influxdb\""] else []) ++
      [.headerAdd "content-type" contentType, .writeHeader statusCode] ++
      (if body.length > 0 then [.write body] else [])

/-- Go `(*HttpServer).tryAsClusterAdmin(w, r, yield)`: the state left and the calls
made. -/
def tryAsClusterAdmin {σ U J : Type} (um : UserManager σ U) (lib : Lib J) (r : Request)
    (yield : σ → U → (Int × Body J) × σ) (s : σ) : σ × List (Call U) :=
  match getUsernameAndPassword lib r with
  | (_, _, some err) => (s, [.writeHeader StatusBadRequest, .write (bytesOf err)])
  | (username, password, none) =>
    if username = "" then
      (s, [.headerAdd "WWW-Authenticate" "Basic realm=\"influxdb\"",
        .writeHeader StatusUnauthorized, .write (bytesOf INVALID_CREDENTIALS_MSG)])
    else
      match um.AuthenticateClusterAdmin s username password with
      | (.error err, s1) =>
        (s1, [.authClusterAdmin username password false,
          .headerAdd "WWW-Authenticate" "Basic realm=\"influxdb\"",
          .writeHeader StatusUnauthorized, .write (bytesOf err)])
      | (.ok user, s1) =>
        match yieldUser lib user yield s1 with
        | ((statusCode, contentType, body), s2) =>
          (s2, .authClusterAdmin username password true :: .yield user ::
            sendResult statusCode contentType body)

/-- Go `(*HttpServer).tryAsDbUser(w, r, yield)`: the status code and body returned, the
state left and the calls made. -/
def tryAsDbUser {σ U J : Type} (um : UserManager σ U) (lib : Lib J) (r : Request)
    (yield : σ → U → (Int × Body J) × σ) (s : σ) : (Int × List Byte) × σ × List (Call U) :=
  match getUsernameAndPassword lib r with
  | (_, _, some err) => ((StatusBadRequest, bytesOf err), s, [])
  | (username, password, none) =>
    if username = "" then
      ((StatusUnauthorized, bytesOf INVALID_CREDENTIALS_MSG), s,
        [.headerAdd "WWW-Authenticate" "Basic realm=\"influxdb\""])
    else
      match um.AuthenticateDbUser s (r.query ":db") username password with
      | (.error err, s1) =>
        ((StatusUnauthorized, bytesOf err), s1,
          [.authDbUser (r.query ":db") username password false,
            .headerAdd "WWW-Authenticate" "Basic realm=\"influxdb\""])
      | (.ok user, s1) =>
        match yieldUser lib user yield s1 with
        | ((statusCode, contentType, v), s2) =>
          ((statusCode, v), s2,
            .authDbUser (r.query ":db") username password true :: .yield user ::
              ((if statusCode = StatusUnauthorized then
                  [.headerAdd "WWW-Authenticate" "Basic realm=\"influxdb\""] else []) ++
                [.headerAdd "content-type" contentType]))

/-- Go `(*HttpServer).tryAsDbUserAndClusterAdmin(w, r, yield)`: the state left and the
calls made. -/
def tryAsDbUserAndClusterAdmin {σ U J : Type} (um : UserManager σ U) (lib : Lib J)
    (r : Request) (yield : σ → U → (Int × Body J) × σ) (s : σ) : σ × List (Call U) :=
  match tryAsDbUser um lib r yield s with
  | ((statusCode, body), s1, calls) =>
    if statusCode = StatusUnauthorized then
      match tryAsClusterAdmin um lib r yield s1 with
      | (s2, calls2) => (s2, calls ++ .headerDel "WWW-Authenticate" :: calls2)
    else if statusCode < 0 then (s1, calls)
    else
      (s1, calls ++ .writeHeader statusCode :: (if body.length > 0 then [.write body] else []))

end http

namespace http

/-- An example user manager on a state that counts the calls of the callback: `paul` with
password `secret` is a user of every database and a cluster admin, `root` with password
`root` is a cluster admin only. -/
def demoUsers : UserManager Nat String where
  AuthenticateDbUser := fun s _ name pw =>
    if name = "paul" ∧ pw = "secret" then (.ok name, s)
    else (.error "Invalid username/password", s)
  AuthenticateClusterAdmin := fun s name pw =>
    if (name = "paul" ∧ pw = "secret") ∨ (name = "root" ∧ pw = "root") then (.ok name, s)
    else (.error "Invalid username/password", s)

/-- An example library: the decoder knows the encodings of `paul:secret` and of
`paul:a:b`. -/
def demoLib : Lib Unit where
  marshal := fun _ => .ok (bytesOf "null")
  decodeString := fun x =>
    if x = "cGF1bDpzZWNyZXQ=" then .ok "paul:secret"
    else if x = "cGF1bDphOmI=" then .ok "paul:a:b"
    else .error "illegal base64 data"

/-- A request with credentials in the query: `?u=paul&p=secret` on database `db0`. -/
def demoRequest : Request where
  query := fun key =>
    if key = "u" then "paul" else if key = "p" then "secret"
    else if key = ":db" then "db0" else ""
  header := fun _ => ""

/-- A request without credentials. -/
def demoAnonymous : Request where
  query := fun key => if key = ":db" then "db0" else ""
  header := fun _ => ""

/-- A request with the header `Authorization: Basic cGF1bDpzZWNyZXQ=`. -/
def demoBasic : Request where
  query := fun key => if key = ":db" then "db0" else ""
  header := fun key => if key = "Authorization" then "Basic cGF1bDpzZWNyZXQ=" else ""

/-- A request with the header `Authorization: Basic cGF1bDphOmI=`: user `paul`, password
`a:b`. -/
def demoBasicColon : Request where
  query := fun key => if key = ":db" then "db0" else ""
  header := fun key => if key = "Authorization" then "Basic cGF1bDphOmI=" else ""

/-- A callback that answers 200 with no body and counts its calls. -/
def demoYieldOk : Nat → String → (Int × Body Unit) × Nat :=
  fun s _ => ((StatusOK, .nil), s + 1)

/-- A callback that answers 401 at its first call and 200 afterwards, and counts its
calls. -/
def demoYieldRetry : Nat → String → (Int × Body Unit) × Nat :=
  fun s _ => if s = 0 then ((StatusUnauthorized, .nil), s + 1) else ((StatusOK, .nil), s + 1)

end http

/-! ## api/http/api.go: the writer that collects all points

Pointers are addresses. A slice is a window on a backing array, so that `append` can be
followed where it writes into the array of its first argument. -/

namespace http

/-- A Go slice value: the address of its backing array, the index of its first element in
that array, its length, and its capacity counted from the first element. A nil slice has
length and capacity 0, and no cell of its array is ever read or written. -/
structure Slice where
  array : Nat
  first : Nat
  len : Nat
  cap : Nat
  deriving DecidableEq, Repr

/-- What `yield` uses of a `protocol.Series` (declared in package `protocol`, which is not
part of the sources): the name, taken to be set, and the slice of points. -/
structure Series where
  Name : String
  Points : Slice
  deriving DecidableEq, Repr

/-- The memory: the series behind each pointer `*protocol.Series`, the cells of each
backing array, and the address of the next array that the runtime allocates (the arrays
in use lie below it). -/
structure Memory (P : Type) where
  series : Nat → Series
  cells : Nat → Nat → P
  next : Nat

/-- The elements of the slice `s`, read from its backing array. -/
def Memory.elems {P : Type} (m : Memory P) (s : Slice) : List P :=
  (List.range s.len).map (fun i => m.cells s.array (s.first + i))

/-- A series as a value: its name and its points. -/
structure SeriesValue (P : Type) where
  Name : String
  Points : List P
  deriving DecidableEq, Repr

/-- The series behind the pointer `ptr`, as a value. -/
def Memory.value {P : Type} (m : Memory P) (ptr : Nat) : SeriesValue P :=
  { Name := (m.series ptr).Name, Points := m.elems (m.series ptr).Points }

/-- Go `append(s, xs...)`: the slice returned and the memory afterwards. When the
capacity of `s` suffices the elements are written into the backing array of `s`, right
after its last element, and the slice returned is `s` made longer. Otherwise a new array
is allocated that holds the elements of `s` followed by `xs`; its capacity is the one the
runtime chooses, `growCap` of the old capacity and the length needed, and at least that
length. -/
def append {P : Type} (growCap : Nat → Nat → Nat) (m : Memory P) (s : Slice) (xs : List P) :
    Slice × Memory P :=
  if s.len + xs.length ≤ s.cap then
    ({ s with len := s.len + xs.length },
      { m with
        cells := fun a i =>
          if a = s.array ∧ s.first + s.len ≤ i ∧ i < s.first + s.len + xs.length then
            xs.getD (i - (s.first + s.len)) (m.cells a i)
          else m.cells a i })
  else
    ({ array := m.next, first := 0, len := s.len + xs.length,
        cap := max (s.len + xs.length) (growCap s.cap (s.len + xs.length)) },
      { m with
        cells := fun a i =>
          if a = m.next then
            if i < s.len then m.cells s.array (s.first + i)
            else xs.getD (i - s.len) (m.cells a i)
          else m.cells a i
        next := m.next + 1 })

/-- The assignment `series.Points = points` through the pointer `ptr`. -/
def Memory.setPoints {P : Type} (m : Memory P) (ptr : Nat) (points : Slice) : Memory P :=
  { m with
    series := fun q => if q = ptr then { m.series ptr with Points := points } else m.series q }

/-- Go `AllPointsWriter`: the map `memSeries` from series names to pointers, as the list of
its entries. The fields `w` and `precision` are not used by `yield`. -/
structure AllPointsWriter where
  memSeries : List (String × Nat)
  deriving DecidableEq, Repr

/-- The map access `memSeries[name]`: the pointer stored under `name`, `none` (nil) when
there is no entry. -/
def lookupSeries (name : String) : List (String × Nat) → Option Nat
  | [] => none
  | (key, ptr) :: rest => if key = name then some ptr else lookupSeries name rest

/-- Go `(*AllPointsWriter).yield(series)`: the error returned, the writer and the memory
afterwards. When the name has no entry the pointer `series` itself is stored; otherwise
`append(oldSeries.Points, series.Points...)` is assigned to the points of the series that
the stored pointer points to. -/
def AllPointsWriter.yield {P : Type} (growCap : Nat → Nat → Nat) (self : AllPointsWriter)
    (m : Memory P) (series : Nat) : Option String × AllPointsWriter × Memory P :=
  match lookupSeries (m.series series).Name self.memSeries with
  | none =>
    (none, { memSeries := self.memSeries ++ [((m.series series).Name, series)] }, m)
  | some oldSeries =>
    (none, self,
      (append growCap m (m.series oldSeries).Points (m.elems (m.series series).Points)).2.setPoints
        oldSeries
        (append growCap m (m.series oldSeries).Points (m.elems (m.series series).Points)).1)

/-- Outcome of a sequence of calls of `yield`: the errors returned, the writer and the
memory at the end, and each series as it was when it was passed. -/
structure Yielded (P : Type) where
  errors : List (Option String)
  writer : AllPointsWriter
  memory : Memory P
  seen : List (SeriesValue P)

/-- The series behind the pointers `ptrs` passed to `yield` one by one. -/
def yieldAll {P : Type} (growCap : Nat → Nat → Nat) (self : AllPointsWriter) (m : Memory P) :
    List Nat → Yielded P
  | [] => { errors := [], writer := self, memory := m, seen := [] }
  | series :: rest =>
    match self.yield growCap m series with
    | (err, self1, m1) =>
      { errors := err :: (yieldAll growCap self1 m1 rest).errors,
        writer := (yieldAll growCap self1 m1 rest).writer,
        memory := (yieldAll growCap self1 m1 rest).memory,
        seen := m.value series :: (yieldAll growCap self1 m1 rest).seen }

/-- The points of the series called `name` in a list of series, concatenated in the order
of the list. -/
def pointsNamed {P : Type} (name : String) (log : List (SeriesValue P)) : List P :=
  (log.filter (fun s => s.Name = name)).flatMap (fun s => s.Points)

/-- Number of points in a list of series. -/
def totalPoints {P : Type} (log : List (SeriesValue P)) : Nat :=
  (log.map (fun s => s.Points.length)).sum

/-- The series that the writer holds: what its entries point to. -/
def storedSeries {P : Type} (self : AllPointsWriter) (m : Memory P) : List (SeriesValue P) :=
  self.memSeries.map (fun e => m.value e.2)

/-- The writer and the memory `m` are consistent with the series `log` passed so far, all
of them among `ptrs`, since the memory was `m0`. The map has one entry for each name that
occurs in `log`, pointing to a series of that name whose points are those of the series
of that name in `log`. A series not stored is as it was in `m0`. The slice of a stored
series lies in the array it had in `m0` or in one allocated since, and when it has spare
capacity no other series of `ptrs` has its points in the same array. -/
structure WriterInv {P : Type} (m0 : Memory P) (ptrs : List Nat) (writer : AllPointsWriter)
    (m : Memory P) (log : List (SeriesValue P)) : Prop where
  keys_nodup : (writer.memSeries.map Prod.fst).Nodup
  keys_iff : ∀ name, name ∈ writer.memSeries.map Prod.fst ↔ ∃ s ∈ log, s.Name = name
  entry : ∀ e ∈ writer.memSeries, e.2 ∈ ptrs ∧ (m.series e.2).Name = e.1 ∧
    m.elems (m.series e.2).Points = pointsNamed e.1 log
  next_le : m0.next ≤ m.next
  alloc : ∀ p ∈ ptrs, (m.series p).Points.array < m.next
  unstored : ∀ p ∈ ptrs, p ∉ writer.memSeries.map Prod.snd → m.value p = m0.value p ∧
    m.series p = m0.series p
  origin : ∀ e ∈ writer.memSeries,
    (m.series e.2).Points.array = (m0.series e.2).Points.array ∨
      m0.next ≤ (m.series e.2).Points.array
  sep : ∀ e ∈ writer.memSeries, ∀ p ∈ ptrs, p ≠ e.2 →
    (m.series e.2).Points.cap ≤ (m.series e.2).Points.len ∨
      (m.series e.2).Points.array ≠ (m.series p).Points.array

/-- An example memory: three series at the addresses 0, 1 and 2, two of them called `cpu`,
each with its points in an array of its own; the first has room for one more point. -/
def demoMemory : Memory Nat where
  series := fun ptr =>
    if ptr = 0 then { Name := "cpu", Points := { array := 0, first := 0, len := 2, cap := 3 } }
    else if ptr = 1 then
      { Name := "mem", Points := { array := 1, first := 0, len := 1, cap := 1 } }
    else { Name := "cpu", Points := { array := 2, first := 0, len := 1, cap := 1 } }
  cells := fun a i =>
    if a = 0 then (if i = 0 then 1 else if i = 1 then 2 else 0)
    else if a = 1 then 3
    else 4
  next := 3

/-- An example memory in which two series share a backing array: an array holding the
points 1 and 2, of which the series `cpu` at address 0 has the first (with room for one
more point, the cell of the second) and the series `mem` at address 1 the second; the
series at address 2, also called `cpu`, has the point 9 in an array of its own. -/
def demoShared : Memory Nat where
  series := fun ptr =>
    if ptr = 0 then { Name := "cpu", Points := { array := 0, first := 0, len := 1, cap := 2 } }
    else if ptr = 1 then
      { Name := "mem", Points := { array := 0, first := 1, len := 1, cap := 1 } }
    else { Name := "cpu", Points := { array := 1, first := 0, len := 1, cap := 1 } }
  cells := fun a i =>
    if a = 0 then (if i = 0 then 1 else 2)
    else 9
  next := 2

/-- A growth policy for the examples: twice the old capacity. -/
def demoGrow : Nat → Nat → Nat := fun oldCap _ => 2 * oldCap

end http

end InfluxTsm

/-! # Theorems -/

namespace InfluxTsm

/-! ## The b1 reader -/

/-- The read loop on a b1 reader stops at once, with no record, whatever the reader. -/
lemma b1.drive_succ (fuel : Nat) (r : b1.Reader) : b1.drive (fuel + 1) r = .records [] := by
  simp [b1.drive, b1.Reader.Next]

/-- C1, evaluated at a shard holding one point: `Open` succeeds on it, and the Next/Read
loop then yields no record at all, so zero points enter conversion where the shard holds
one. -/
theorem b1_reader_yields_no_points :
    b1.pointCount (demoStore.shardAt "/data/db0/default/1") = 1 ∧
      b1.readShard BoltStore.open "/data/db0/default/1" demoStore 5 = (none, .records []) ∧
      b1.pointCount [] = 0 := by
  refine ⟨by decide, ?_, by decide⟩
  simp [b1.readShard, b1.Reader.Open, b1.NewReader, BoltStore.open, demoStore, b1.drive_succ]

/-- C8, evaluated on the example store: `Open` acquires handle 1 and marks the shard file
as held; after `Close` has returned nil the reader still holds handle 1 and the file is
still held. -/
theorem b1_close_keeps_handle :
    (b1.NewReader "/data/db0/default/1").Open BoltStore.open demoStore =
        (none, { path := "/data/db0/default/1", db := some 1 },
          { demoStore with held := ["/data/db0/default/1"] }) ∧
      b1.Reader.Close { path := "/data/db0/default/1", db := some 1 }
          { demoStore with held := ["/data/db0/default/1"] } =
        (none, { path := "/data/db0/default/1", db := some 1 },
          { demoStore with held := ["/data/db0/default/1"] }) := by
  constructor
  · simp [b1.Reader.Open, b1.NewReader, BoltStore.open, demoStore]
  · rfl

/-! ## Decoding a record -/

/-- C5 as stated fails: for the example record, whose value the codec rejects,
`DecodeKeyValue` returns the timestamp with a nil value and nothing that tells the
failure, and the error result of the reader's `Read` is nil. -/
theorem decode_failure_not_reported :
    rejectAll "value" [1, 2, 3] = .error "unknown field" ∧
      tsdb.DecodeKeyValue "value" rejectAll demoKey [1, 2, 3] = some (258, none) ∧
      (b1.Reader.Read { path := "/data/db0/default/1", db := some 1 }).2.2 = none := by
  refine ⟨rfl, ?_, rfl⟩
  decide

/-- C5 as amended: when the codec cannot decode the value bytes of a record whose key has
at least eight bytes, `DecodeKeyValue` returns the timestamp of the key together with a
nil value. -/
theorem decode_failure_gives_nil_value (field : String)
    (dec : String → List Byte → Except String FieldValue) (k v : List Byte) (err : String)
    (hk : 8 ≤ k.length) (hv : dec field v = .error err) :
    ∃ u, tsdb.btou64 k = some u ∧
      tsdb.DecodeKeyValue field dec k v = some (tsdb.int64 u, none) := by
  have hk' : ¬ k.length < 8 := by omega
  refine ⟨(k.take 8).foldl (fun acc x => acc * 256 + x.val) 0, by simp [tsdb.btou64, hk'], ?_⟩
  simp [tsdb.DecodeKeyValue, tsdb.slice08, tsdb.btou64, hk, hv, List.take_take]

/-- Witness for `decode_failure_gives_nil_value`: the example record. -/
theorem decode_failure_gives_nil_value_witness :
    8 ≤ demoKey.length ∧ rejectAll "value" [1, 2, 3] = .error "unknown field" ∧
      ∃ u, tsdb.btou64 demoKey = some u ∧
        tsdb.DecodeKeyValue "value" rejectAll demoKey [1, 2, 3] = some (tsdb.int64 u, none) :=
  ⟨by decide, rfl, decode_failure_gives_nil_value "value" rejectAll demoKey [1, 2, 3]
    "unknown field" (by decide) rfl⟩


/-! ## Shape of the phases of `main` -/

/-- A list that splits at an element absent from its first part splits inside its
second part. -/
lemma split_after_of_not_mem {α : Type} {l1 l2 pre post : List α} {e : α}
    (h : l1 ++ l2 = pre ++ e :: post) (hne : e ∉ l1) :
    ∃ p2, pre = l1 ++ p2 ∧ l2 = p2 ++ e :: post := by
  rcases List.append_eq_append_iff.mp h with ⟨a, ha, hb⟩ | ⟨c, hc, hd⟩
  · exact ⟨a, ha, hb⟩
  · cases c with
    | nil =>
      refine ⟨[], ?_, ?_⟩
      · simpa using hc.symm
      · simpa using hd.symm
    | cons x xs =>
      simp only [List.cons_append, List.cons.injEq] at hd
      exact absurd (by rw [hc, hd.1]; simp) hne

/-- The discovery loop only lists shards. -/
lemma collectShards_events {σ : Type} (env : Env σ) (s : σ) (dataPath : String)
    (dbs : List String) (acc : List ShardInfo) :
    ∀ e ∈ (collectShards env s dataPath dbs acc).2, ∃ p ok, e = .listShards p ok := by
  induction dbs generalizing acc with
  | nil => simp [collectShards]
  | cons db dbs ih =>
    unfold collectShards
    split
    · exact ih acc
    · split
      · simp
      · rename_i shs _
        intro e he
        simp only [List.mem_cons] at he
        rcases he with rfl | he
        · exact ⟨_, _, rfl⟩
        · exact ih (acc ++ shs) e he

/-- The backup loop only stats and copies. -/
lemma backupLoop_events {σ : Type} (env : Env σ) (dataPath : String) (dbs : List String) (s : σ) :
    ∀ e ∈ (backupLoop env dataPath dbs s).2.2,
      (∃ p b, e = .stat p b) ∨ (∃ d c ok, e = .copyDir d c ok) := by
  induction dbs generalizing s with
  | nil => simp [backupLoop]
  | cons db dbs ih =>
    unfold backupLoop
    simp only
    split
    · split
      · intro e he
        simp only [List.mem_cons, List.mem_singleton, List.not_mem_nil, or_false] at he
        rcases he with rfl | rfl
        · exact Or.inl ⟨_, _, rfl⟩
        · exact Or.inr ⟨_, _, _, rfl⟩
      · rename_i s1 _
        intro e he
        simp only [List.mem_cons] at he
        rcases he with rfl | rfl | he
        · exact Or.inl ⟨_, _, rfl⟩
        · exact Or.inr ⟨_, _, _, rfl⟩
        · exact ih s1 e he
    · intro e he
      simp only [List.mem_singleton] at he
      exact Or.inl ⟨_, _, he⟩

/-- When the backup loop ends well, every database was copied without error, and no copy
failed. -/
lemma backupLoop_ok {σ : Type} (env : Env σ) (dataPath : String) (dbs : List String) (s : σ)
    (h : (backupLoop env dataPath dbs s).1 = true) :
    (∀ db ∈ dbs, Event.copyDir (env.join dataPath (db ++ "." ++ backupExt))
        (env.join dataPath db) true ∈ (backupLoop env dataPath dbs s).2.2) ∧
      ∀ d c, Event.copyDir d c false ∉ (backupLoop env dataPath dbs s).2.2 := by
  induction dbs generalizing s with
  | nil => simp [backupLoop]
  | cons db dbs ih =>
    unfold backupLoop at h ⊢
    simp only at h ⊢
    split at h
    · rename_i hstat
      rw [if_pos hstat]
      split at h
      · simp at h
      · rename_i s1 hcopy
        simp only at h ⊢
        obtain ⟨ih1, ih2⟩ := ih s1 h
        constructor
        · intro d hd
          simp only [List.mem_cons] at hd
          rcases hd with rfl | hd
          · simp
          · simp only [List.mem_cons]
            exact Or.inr (Or.inr (ih1 d hd))
        · intro d c hmem
          simp only [List.mem_cons, reduceCtorEq, Event.copyDir.injEq, Bool.true_eq_false,
            and_false, false_or] at hmem
          exact ih2 d c hmem
    · simp at h


/-- A pass of the conversion loop makes the calls of a success, or those of one of the
exits. -/
lemma convertShard_shape {σ : Type} (env : Env σ) (dataPath : String) (tsmSz : Nat)
    (si : ShardInfo) (s : σ) :
    ((convertShard env dataPath tsmSz si s).1 = true ∧
        (convertShard env dataPath tsmSz si s).2.2 = successEvents env dataPath tsmSz si) ∨
      ((convertShard env dataPath tsmSz si s).1 = false ∧
        (convertShard env dataPath tsmSz si s).2.2 ∈ failureEvents env dataPath tsmSz si) := by
  unfold convertShard
  simp only
  split
  · right; simp [failureEvents]
  · split
    · right; simp [failureEvents]
    · split
      · right; simp [failureEvents, successEvents]
      · split
        · right; simp [failureEvents, successEvents]
        · split
          · right; simp [failureEvents, successEvents]
          · split
            · right; simp [failureEvents, successEvents]
            · left; simp [successEvents]

/-- The conversion loop makes the calls of a success for each shard in turn, up to the
first pass that ends the run. -/
lemma convertLoop_shape {σ : Type} (env : Env σ) (dataPath : String) (tsmSz : Nat)
    (shards : List ShardInfo) (s : σ) :
    ((convertLoop env dataPath tsmSz shards s).1 = true ∧
        (convertLoop env dataPath tsmSz shards s).2.2 =
          shards.flatMap (successEvents env dataPath tsmSz)) ∨
      ((convertLoop env dataPath tsmSz shards s).1 = false ∧
        ∃ done si rest tail, shards = done ++ si :: rest ∧
          tail ∈ failureEvents env dataPath tsmSz si ∧
          (convertLoop env dataPath tsmSz shards s).2.2 =
            done.flatMap (successEvents env dataPath tsmSz) ++ tail) := by
  induction shards generalizing s with
  | nil => left; simp [convertLoop]
  | cons si rest ih =>
    unfold convertLoop
    rcases convertShard_shape env dataPath tsmSz si s with ⟨h1, h2⟩ | ⟨h1, h2⟩
    · rcases hcs : convertShard env dataPath tsmSz si s with ⟨b, s1, tr⟩
      rw [hcs] at h1 h2
      simp only at h1 h2
      subst h1 h2
      simp only
      rcases ih s1 with ⟨g1, g2⟩ | ⟨g1, done, sj, rest2, tail, g2, g3, g4⟩
      · left
        rcases hcl : convertLoop env dataPath tsmSz rest s1 with ⟨b2, s2, tr2⟩
        rw [hcl] at g1 g2
        simp only at g1 g2 ⊢
        subst g1 g2
        simp
      · right
        rcases hcl : convertLoop env dataPath tsmSz rest s1 with ⟨b2, s2, tr2⟩
        rw [hcl] at g1 g4
        simp only at g1 g4 ⊢
        subst g1 g4
        refine ⟨rfl, si :: done, sj, rest2, tail, by simp [g2], g3, by simp⟩
    · right
      rcases hcs : convertShard env dataPath tsmSz si s with ⟨b, s1, tr⟩
      rw [hcs] at h1 h2
      simp only at h1 h2
      subst h1
      simp only
      exact ⟨trivial, [], si, rest, tr, by simp, h2, by simp⟩


/-- The conversion loop only makes per-shard calls. -/
lemma convertLoop_events {σ : Type} (env : Env σ) (dataPath : String) (tsmSz : Nat)
    (shards : List ShardInfo) (s : σ) :
    ∀ e ∈ (convertLoop env dataPath tsmSz shards s).2.2, e.isShardEvent = true := by
  intro e he
  rcases convertLoop_shape env dataPath tsmSz shards s with
    ⟨_, h2⟩ | ⟨_, done, si, rest, tail, _, h3, h4⟩
  · rw [h2, List.mem_flatMap] at he
    obtain ⟨sj, _, hj⟩ := he
    simp only [successEvents, List.mem_cons, List.mem_singleton, List.not_mem_nil, or_false] at hj
    rcases hj with rfl | rfl | rfl | rfl | rfl <;> rfl
  · rw [h4, List.mem_append, List.mem_flatMap] at he
    rcases he with ⟨sj, _, hj⟩ | he
    · simp only [successEvents, List.mem_cons, List.mem_singleton, List.not_mem_nil, or_false] at hj
      rcases hj with rfl | rfl | rfl | rfl | rfl <;> rfl
    · simp only [failureEvents, successEvents, List.mem_cons, List.mem_singleton,
        List.not_mem_nil, or_false, List.take, List.cons_append, List.nil_append] at h3
      rcases h3 with rfl | rfl | rfl | rfl | rfl | rfl <;>
        simp only [List.mem_cons, List.mem_singleton, List.not_mem_nil, or_false] at he
      · subst he; rfl
      · rcases he with rfl | rfl <;> rfl
      · rcases he with rfl | rfl | rfl <;> rfl
      · rcases he with rfl | rfl | rfl | rfl <;> rfl
      · rcases he with rfl | rfl | rfl | rfl | rfl <;> rfl

/-- The run from the prompt on: either the answer is not `y` and nothing else happens, or
it is `y`, the backup loop runs and, when it ends well, the conversion loop runs. -/
lemma migrate_shape {σ : Type} (env : Env σ) (dataPath : String) (tsmSz : Nat)
    (shards : List ShardInfo) (s : σ) :
    (∃ resp, (migrate env dataPath tsmSz shards s).trace = [.prompt resp] ∧
        (migrate env dataPath tsmSz shards s).code = 1 ∧
        (migrate env dataPath tsmSz shards s).state = s ∧
        (∀ yn, resp = some yn → normalise env yn ≠ "y") ∧
        ∀ yn, env.readString s = .ok yn → normalise env yn ≠ "y") ∨
      (∃ yn, env.readString s = .ok yn ∧ normalise env yn = "y" ∧
        (((backupLoop env dataPath (env.databases shards) s).1 = false ∧
            (migrate env dataPath tsmSz shards s).code = 1 ∧
            (migrate env dataPath tsmSz shards s).trace =
              .prompt (some yn) :: (backupLoop env dataPath (env.databases shards) s).2.2) ∨
          ((backupLoop env dataPath (env.databases shards) s).1 = true ∧
            (migrate env dataPath tsmSz shards s).code =
              (if (convertLoop env dataPath tsmSz shards
                  (backupLoop env dataPath (env.databases shards) s).2.1).1 then 0 else 1) ∧
            (migrate env dataPath tsmSz shards s).trace =
              .prompt (some yn) :: ((backupLoop env dataPath (env.databases shards) s).2.2 ++
                (convertLoop env dataPath tsmSz shards
                  (backupLoop env dataPath (env.databases shards) s).2.1).2.2)))) := by
  unfold migrate
  rcases hr : env.readString s with err | yn
  · left
    exact ⟨none, rfl, rfl, rfl, by simp, by simp⟩
  · simp only
    by_cases hy : normalise env yn = "y"
    · right
      refine ⟨yn, rfl, hy, ?_⟩
      simp only [hy, ne_eq, not_true_eq_false, ↓reduceIte]
      rcases hb : backupLoop env dataPath (env.databases shards) s with ⟨b, s1, tb⟩
      cases b
      · left; simp
      · right
        simp only [true_and]
        rcases hc : convertLoop env dataPath tsmSz shards s1 with ⟨c, s2, tc⟩
        cases c <;> simp
    · left
      refine ⟨some yn, ?_, ?_, ?_, ?_, ?_⟩ <;> simp [hy]

/-- The run of `main`: either it ends during the discovery, with no shard selected or
none left, having made discovery calls only, or it continues from the prompt with the
shards selected. -/
lemma main_shape {σ : Type} (env : Env σ) (cl : CmdLine) (s : σ) :
    ((main env cl s).state = s ∧ selected env cl s = [] ∧
        ∀ e ∈ (main env cl s).trace, e.isDiscovery = true) ∨
      (∃ tr, cl.tsmSz ≤ maxTSMSz ∧ selected env cl s ≠ [] ∧
        (∀ e ∈ tr, e.isDiscovery = true) ∧
        (main env cl s).code =
          (migrate env cl.dataPath cl.tsmSz (selected env cl s) s).code ∧
        (main env cl s).state =
          (migrate env cl.dataPath cl.tsmSz (selected env cl s) s).state ∧
        (main env cl s).trace =
          tr ++ (migrate env cl.dataPath cl.tsmSz (selected env cl s) s).trace) := by
  unfold main selected CmdLine.dataPath
  rcases ha : cl.args with _ | ⟨dataPath, args⟩
  · left; simp
  · simp only
    by_cases hsz : cl.tsmSz > maxTSMSz
    · left; simp [hsz]
    · simp only [hsz, ↓reduceIte]
      rcases hd : env.readDir s dataPath with err | dbs
      · left; simp [Event.isDiscovery]
      · simp only
        have hev := collectShards_events env s dataPath dbs []
        unfold selectShards
        rcases hc : collectShards env s dataPath dbs [] with ⟨res, tr⟩
        rw [hc] at hev
        simp only at hev
        have hev' : ∀ e ∈ Event.readDir dataPath true :: tr, e.isDiscovery = true := by
          intro e he
          simp only [List.mem_cons] at he
          rcases he with rfl | he
          · rfl
          · obtain ⟨p, ok, rfl⟩ := hev e he
            rfl
        cases res with
        | none => left; exact ⟨rfl, rfl, hev'⟩
        | some found =>
          simp only [Option.getD_some]
          by_cases hl : (env.filterDatabases (env.filterFormat (env.sortShards found) .TSM1)
              (requestedDbs cl.ds)).length = 0
          · left
            simp only [hl, ↓reduceIte]
            exact ⟨trivial, List.length_eq_zero.mp hl, hev'⟩
          · right
            simp only [hl, ↓reduceIte]
            refine ⟨Event.readDir dataPath true :: tr, by omega, ?_, hev',
              rfl, rfl, by simp⟩
            intro h0
            exact hl (by rw [h0]; rfl)


/-- A discovery call is neither a write nor a per-shard call nor the prompt. -/
lemma discovery_event {e : Event} (h : e.isDiscovery = true) :
    e.isWrite = false ∧ e.isShardEvent = false ∧ (∀ resp, e ≠ .prompt resp) ∧
      (∀ d c ok, e ≠ .copyDir d c ok) := by
  cases e <;> simp_all [Event.isDiscovery, Event.isWrite, Event.isShardEvent]

/-- A stat or a copy is not a per-shard call nor the prompt. -/
lemma backup_event {e : Event}
    (h : (∃ p b, e = .stat p b) ∨ (∃ d c ok, e = .copyDir d c ok)) :
    e.isShardEvent = false ∧ (∀ resp, e ≠ .prompt resp) ∧
      (∀ fmt src ok, e ≠ .openReader fmt src ok) := by
  rcases h with ⟨p, b, rfl⟩ | ⟨d, c, ok, rfl⟩ <;> simp [Event.isShardEvent]

/-- A per-shard call is a write, and neither the prompt nor a copy. -/
lemma shard_event {e : Event} (h : e.isShardEvent = true) :
    e.isWrite = true ∧ (∀ resp, e ≠ .prompt resp) ∧ (∀ d c ok, e ≠ .copyDir d c ok) := by
  cases e <;> simp_all [Event.isWrite, Event.isShardEvent]

/-! ## The size ceiling -/

/-- C10: without the `-sz` flag the maximum size is 2147483648 bytes (2 GiB), and for
every requested size above 2147483648 the run exits with code 1 without having made a
single call: no directory is read, backed up or converted. -/
theorem size_ceiling {σ : Type} (env : Env σ) (s : σ) (dbs : Option String)
    (args : List String) :
    ({ dbs := dbs, sz := none, args := args } : CmdLine).tsmSz = 2147483648 ∧
      ∀ n, 2147483648 < n →
        (main env { dbs := dbs, sz := some n, args := args } s).code = 1 ∧
        (main env { dbs := dbs, sz := some n, args := args } s).trace = [] ∧
        (main env { dbs := dbs, sz := some n, args := args } s).state = s := by
  refine ⟨by simp [CmdLine.tsmSz, maxTSMSz], ?_⟩
  intro n hn
  have hgt : ({ dbs := dbs, sz := some n, args := args } : CmdLine).tsmSz > maxTSMSz := by
    simp only [CmdLine.tsmSz, Option.getD_some, maxTSMSz]
    omega
  unfold main
  cases args with
  | nil => simp
  | cons dataPath rest => simp [hgt]

/-- Witness for `size_ceiling`: `influx_tsm -sz 2147483649 /data` on the example machine. -/
theorem size_ceiling_witness :
    2147483648 < 2147483649 ∧
      (main simEnv { dbs := none, sz := some 2147483649, args := ["/data"] } demoSim).code = 1 ∧
      (main simEnv { dbs := none, sz := some 2147483649, args := ["/data"] } demoSim).trace
        = [] ∧
      (main simEnv { dbs := none, sz := some 2147483649, args := ["/data"] } demoSim).state
        = demoSim :=
  ⟨by decide, (size_ceiling simEnv demoSim none ["/data"]).2 2147483649 (by decide)⟩

/-! ## The confirmation -/

/-- C9: a backup, open, conversion, close, removal or rename call is made only if a line
was read at the prompt which, lower-cased and without its trailing newlines, is exactly
`y`; when the line read is anything else, or reading it failed, the run exits with code 1,
has made no such call and leaves the machine state as it was. -/
theorem confirmation_gate {σ : Type} (env : Env σ) (cl : CmdLine) (s : σ) :
    (∀ e ∈ (main env cl s).trace, e.isWrite = true →
        ∃ yn, env.readString s = .ok yn ∧ TrimRight (env.toLower yn) "\n" = "y") ∧
      (∀ resp, Event.prompt resp ∈ (main env cl s).trace →
        (∀ yn, resp = some yn → TrimRight (env.toLower yn) "\n" ≠ "y") →
        (main env cl s).code = 1 ∧ (main env cl s).state = s ∧
          ∀ e ∈ (main env cl s).trace, e.isWrite = false) := by
  rcases main_shape env cl s with ⟨h1, _, h3⟩ | ⟨tr, _, _, htr, hcode, hstate, htrace⟩
  · constructor
    · intro e he hw
      have := (discovery_event (h3 e he)).1
      simp [hw] at this
    · intro resp hp _
      exact absurd rfl ((discovery_event (h3 _ hp)).2.2.1 resp)
  · rcases migrate_shape env cl.dataPath cl.tsmSz (selected env cl s) s with
      ⟨resp0, m1, m2, m3, m4, _⟩ | ⟨yn, hy1, hy2, hrest⟩
    · constructor
      · intro e he hw
        rw [htrace, m1, List.mem_append, List.mem_singleton] at he
        rcases he with he | rfl
        · have := (discovery_event (htr e he)).1
          simp [hw] at this
        · simp [Event.isWrite] at hw
      · intro resp _ _
        refine ⟨by rw [hcode, m2], by rw [hstate, m3], ?_⟩
        intro e he
        rw [htrace, m1, List.mem_append, List.mem_singleton] at he
        rcases he with he | rfl
        · exact (discovery_event (htr e he)).1
        · rfl
    · constructor
      · intro e _ _
        exact ⟨yn, hy1, hy2⟩
      · intro resp hp hne
        exfalso
        have hin : Event.prompt resp ∈
            tr ++ (Event.prompt (some yn) ::
              ((backupLoop env cl.dataPath (env.databases (selected env cl s)) s).2.2 ++
                (convertLoop env cl.dataPath cl.tsmSz (selected env cl s)
                  (backupLoop env cl.dataPath
                    (env.databases (selected env cl s)) s).2.1).2.2)) := by
          rcases hrest with ⟨_, _, ht⟩ | ⟨_, _, ht⟩
          · rw [htrace, ht] at hp
            simp only [List.mem_append, List.mem_cons] at hp ⊢
            tauto
          · rw [htrace, ht] at hp
            exact hp
        simp only [List.mem_append, List.mem_cons, Event.prompt.injEq] at hin
        rcases hin with he | rfl | he | he
        · exact (discovery_event (htr _ he)).2.2.1 resp rfl
        · exact hne yn rfl hy2
        · exact (backup_event (backupLoop_events _ _ _ _ _ he)).2.1 resp rfl
        · exact (shard_event (convertLoop_events _ _ _ _ _ _ he)).2.1 resp rfl


/-- Witness for `confirmation_gate`: the answer `n` on the example machine. -/
theorem confirmation_gate_witness :
    Event.prompt (some "n\n") ∈
        (main simEnv demoCmd { demoSim with answer := some "n\n" }).trace ∧
      (∀ yn, some "n\n" = some yn → TrimRight (simEnv.toLower yn) "\n" ≠ "y") ∧
      (main simEnv demoCmd { demoSim with answer := some "n\n" }).code = 1 ∧
      (main simEnv demoCmd { demoSim with answer := some "n\n" }).state =
        { demoSim with answer := some "n\n" } ∧
      ∀ e ∈ (main simEnv demoCmd { demoSim with answer := some "n\n" }).trace,
        e.isWrite = false :=
  ⟨by decide, fun yn h => by cases h; decide,
    (confirmation_gate simEnv demoCmd { demoSim with answer := some "n\n" }).2 (some "n\n")
      (by decide) (fun yn h => by cases h; decide)⟩

/-! ## The backup -/

/-- While a path is reported as existing, and copies keep it so, the backup loop never
copies onto it, and it ends the run at the latest when it reaches a database whose backup
directory is that path. -/
lemma backupLoop_existing {σ : Type} (env : Env σ) (dataPath : String) (bak : String)
    (hkeep : ∀ s1 dest src, env.statNotExist s1 bak = false →
      env.statNotExist (env.copyDir s1 dest src).2 bak = false)
    (dbs : List String) (s : σ) (h0 : env.statNotExist s bak = false) :
    (∀ src ok, Event.copyDir bak src ok ∉ (backupLoop env dataPath dbs s).2.2) ∧
      ((∃ db ∈ dbs, backupPath env dataPath db = bak) →
        (backupLoop env dataPath dbs s).1 = false) := by
  induction dbs generalizing s with
  | nil => simp [backupLoop]
  | cons db dbs ih =>
    unfold backupLoop
    simp only
    by_cases hstat : env.statNotExist s (env.join dataPath (db ++ "." ++ backupExt)) = true
    · have hne : env.join dataPath (db ++ "." ++ backupExt) ≠ bak := by
        intro heq
        rw [heq, h0] at hstat
        cases hstat
      rw [if_pos hstat]
      have hk := hkeep s (env.join dataPath (db ++ "." ++ backupExt)) (env.join dataPath db) h0
      rcases hc : env.copyDir s (env.join dataPath (db ++ "." ++ backupExt))
        (env.join dataPath db) with ⟨err, s1⟩
      rw [hc] at hk
      cases err with
      | some err =>
        simp only
        refine ⟨?_, fun _ => trivial⟩
        intro src ok hmem
        simp only [List.mem_cons, reduceCtorEq, Event.copyDir.injEq, List.mem_singleton,
          false_or, List.not_mem_nil, or_false] at hmem
        exact hne hmem.1.symm
      | none =>
        simp only
        obtain ⟨ih1, ih2⟩ := ih s1 hk
        constructor
        · intro src ok hmem
          simp only [List.mem_cons, reduceCtorEq, Event.copyDir.injEq, false_or] at hmem
          rcases hmem with ⟨h1, _⟩ | hmem
          · exact hne h1.symm
          · exact ih1 src ok hmem
        · rintro ⟨d, hd, hbk⟩
          simp only [List.mem_cons] at hd
          rcases hd with rfl | hd
          · exact absurd hbk hne
          · exact ih2 ⟨d, hd, hbk⟩
    · rw [if_neg hstat]
      refine ⟨?_, fun _ => rfl⟩
      intro src ok hmem
      simp at hmem

/-- C3: when the backup directory of the database of a shard to convert already exists
at the start of the run (and copying other directories does not make it disappear), the
run exits with code 1, no copy is made onto that backup directory, and no shard is opened,
converted, closed, removed or renamed. -/
theorem existing_backup_aborts {σ : Type} (env : Env σ) (cl : CmdLine) (s : σ) (si : ShardInfo)
    (hsel : si ∈ selected env cl s)
    (hdb : si.Database ∈ env.databases (selected env cl s))
    (hbak : env.statNotExist s (backupPath env cl.dataPath si.Database) = false)
    (hkeep : ∀ s1 dest src,
      env.statNotExist s1 (backupPath env cl.dataPath si.Database) = false →
      env.statNotExist (env.copyDir s1 dest src).2
        (backupPath env cl.dataPath si.Database) = false) :
    (main env cl s).code = 1 ∧
      (∀ src ok, Event.copyDir (backupPath env cl.dataPath si.Database) src ok ∉
        (main env cl s).trace) ∧
      ∀ e ∈ (main env cl s).trace, e.isShardEvent = false := by
  rcases main_shape env cl s with ⟨_, h2, _⟩ | ⟨tr, _, _, htr, hcode, _, htrace⟩
  · rw [h2] at hsel
    cases hsel
  · have hdisc : ∀ e ∈ tr, e.isShardEvent = false ∧
        ∀ src ok, e ≠ Event.copyDir (backupPath env cl.dataPath si.Database) src ok :=
      fun e he => ⟨(discovery_event (htr e he)).2.1,
        fun src ok => (discovery_event (htr e he)).2.2.2 _ src ok⟩
    obtain ⟨b1, b2⟩ := backupLoop_existing env cl.dataPath
      (backupPath env cl.dataPath si.Database) hkeep (env.databases (selected env cl s)) s hbak
    have b3 := b2 ⟨si.Database, hdb, rfl⟩
    rcases migrate_shape env cl.dataPath cl.tsmSz (selected env cl s) s with
      ⟨resp0, m1, m2, _, _, _⟩ | ⟨yn, _, _, ⟨_, m2, m1⟩ | ⟨hb, _, _⟩⟩
    · refine ⟨by rw [hcode, m2], ?_, ?_⟩
      · intro src ok hmem
        rw [htrace, m1, List.mem_append, List.mem_singleton] at hmem
        rcases hmem with hmem | hmem
        · exact (hdisc _ hmem).2 src ok rfl
        · cases hmem
      · intro e he
        rw [htrace, m1, List.mem_append, List.mem_singleton] at he
        rcases he with he | rfl
        · exact (hdisc _ he).1
        · rfl
    · refine ⟨by rw [hcode, m2], ?_, ?_⟩
      · intro src ok hmem
        rw [htrace, m1, List.mem_append, List.mem_cons] at hmem
        rcases hmem with hmem | hmem | hmem
        · exact (hdisc _ hmem).2 src ok rfl
        · cases hmem
        · exact b1 src ok hmem
      · intro e he
        rw [htrace, m1, List.mem_append, List.mem_cons] at he
        rcases he with he | rfl | he
        · exact (hdisc _ he).1
        · rfl
        · exact (backup_event (backupLoop_events _ _ _ _ _ he)).1
    · rw [b3] at hb
      cases hb


/-- On the example machines a copy never makes an existing path disappear. -/
lemma simEnv_copy_keeps (p : String) (s1 : Sim) (dest src : String)
    (h : simEnv.statNotExist s1 p = false) :
    simEnv.statNotExist (simEnv.copyDir s1 dest src).2 p = false := by
  have h1 : p ∈ s1.existing := by simpa [simEnv] using h
  by_cases hu : src ∈ s1.uncopyable
  · simp [simEnv, hu, h1]
  · simp [simEnv, hu, h1]

/-- Witness for `existing_backup_aborts`: the example machine with `/data/db0.bak` left
behind. -/
theorem existing_backup_aborts_witness :
    shardA ∈ selected simEnv demoCmd demoSimBak ∧
      (main simEnv demoCmd demoSimBak).code = 1 ∧
      (∀ src ok, Event.copyDir (backupPath simEnv demoCmd.dataPath shardA.Database) src ok ∉
        (main simEnv demoCmd demoSimBak).trace) ∧
      ∀ e ∈ (main simEnv demoCmd demoSimBak).trace, e.isShardEvent = false :=
  ⟨by decide,
    existing_backup_aborts simEnv demoCmd demoSimBak shardA (by decide) (by decide) (by decide)
      (simEnv_copy_keeps _)⟩

/-- C4: in every run, when a shard is opened, converted, closed, removed or renamed, the
copy of every database to back up (the databases of the shards to convert, as listed by
`Databases()`) to its backup directory has already returned without error; and when a
copy fails the run exits with code 1 and no shard is opened, converted, closed, removed
or renamed. -/
theorem backup_precedes_conversion {σ : Type} (env : Env σ) (cl : CmdLine) (s : σ) :
    (∀ db ∈ env.databases (selected env cl s), ∀ pre e post,
        (main env cl s).trace = pre ++ e :: post → e.isShardEvent = true →
        Event.copyDir (backupPath env cl.dataPath db) (env.join cl.dataPath db) true ∈ pre) ∧
      (∀ dest src, Event.copyDir dest src false ∈ (main env cl s).trace →
        (main env cl s).code = 1 ∧
          ∀ e ∈ (main env cl s).trace, e.isShardEvent = false) := by
  rcases main_shape env cl s with ⟨_, _, h3⟩ | ⟨tr, _, _, htr, hcode, _, htrace⟩
  · constructor
    · intro db _ pre e post ht he
      have hmem : e ∈ (main env cl s).trace := by rw [ht]; simp
      have := (discovery_event (h3 e hmem)).2.1
      simp [he] at this
    · intro dest src hmem
      exact absurd rfl ((discovery_event (h3 _ hmem)).2.2.2 dest src false)
  · rcases migrate_shape env cl.dataPath cl.tsmSz (selected env cl s) s with
      ⟨resp0, m1, m2, _, _, _⟩ | ⟨yn, _, _, ⟨_, m2, m1⟩ | ⟨hb, _, m1⟩⟩
    · constructor
      · intro db _ pre e post ht he
        have hmem : e ∈ (main env cl s).trace := by rw [ht]; simp
        rw [htrace, m1, List.mem_append, List.mem_singleton] at hmem
        rcases hmem with hmem | rfl
        · have := (discovery_event (htr e hmem)).2.1
          simp [he] at this
        · simp [Event.isShardEvent] at he
      · intro dest src hmem
        rw [htrace, m1, List.mem_append, List.mem_singleton] at hmem
        rcases hmem with hmem | hmem
        · exact absurd rfl ((discovery_event (htr _ hmem)).2.2.2 dest src false)
        · cases hmem
    · have hno : ∀ e ∈ (main env cl s).trace, e.isShardEvent = false := by
        intro e he
        rw [htrace, m1, List.mem_append, List.mem_cons] at he
        rcases he with he | rfl | he
        · exact (discovery_event (htr e he)).2.1
        · rfl
        · exact (backup_event (backupLoop_events _ _ _ _ _ he)).1
      constructor
      · intro db _ pre e post ht he
        have hmem : e ∈ (main env cl s).trace := by rw [ht]; simp
        have := hno e hmem
        simp [he] at this
      · intro dest src _
        exact ⟨by rw [hcode, m2], hno⟩
    · obtain ⟨k1, k2⟩ := backupLoop_ok env cl.dataPath (env.databases (selected env cl s)) s hb
      constructor
      · intro db hdb pre e post ht he
        rw [htrace, m1] at ht
        have hsplit : (tr ++ Event.prompt (some yn) ::
            (backupLoop env cl.dataPath (env.databases (selected env cl s)) s).2.2) ++
            (convertLoop env cl.dataPath cl.tsmSz (selected env cl s)
              (backupLoop env cl.dataPath (env.databases (selected env cl s)) s).2.1).2.2 =
            pre ++ e :: post := by
          rw [← ht]; simp
        have hnot : e ∉ tr ++ Event.prompt (some yn) ::
            (backupLoop env cl.dataPath (env.databases (selected env cl s)) s).2.2 := by
          intro hmem
          rw [List.mem_append, List.mem_cons] at hmem
          rcases hmem with hmem | rfl | hmem
          · have := (discovery_event (htr e hmem)).2.1
            simp [he] at this
          · simp [Event.isShardEvent] at he
          · have := (backup_event (backupLoop_events _ _ _ _ _ hmem)).1
            simp [he] at this
        obtain ⟨p2, hp2, _⟩ := split_after_of_not_mem hsplit hnot
        rw [hp2]
        simp only [List.mem_append, List.mem_cons]
        exact Or.inl (Or.inr (Or.inr (k1 db hdb)))
      · intro dest src hmem
        exfalso
        rw [htrace, m1, List.mem_append, List.mem_cons, List.mem_append] at hmem
        rcases hmem with hmem | hmem | hmem | hmem
        · exact (discovery_event (htr _ hmem)).2.2.2 dest src false rfl
        · cases hmem
        · exact k2 dest src hmem
        · exact (shard_event (convertLoop_events _ _ _ _ _ _ hmem)).2.2 dest src false rfl

/-- Witness for `backup_precedes_conversion`: on the example machine the first shard is
opened after `/data/db0` was copied; on the machine whose copy fails no shard is touched. -/
theorem backup_precedes_conversion_witness :
    "db0" ∈ simEnv.databases (selected simEnv demoCmd demoSim) ∧
      (main simEnv demoCmd demoSim).trace =
        demoFront ++
          .openReader .BZ1 "/data/db0/default/1" true ::
            (successEvents simEnv "/data" 2147483648 shardA).drop 1 ++
              successEvents simEnv "/data" 2147483648 shardB ∧
      Event.copyDir (backupPath simEnv demoCmd.dataPath "db0")
          (simEnv.join demoCmd.dataPath "db0") true ∈
        demoFront ∧
      Event.copyDir "/data/db0.bak" "/data/db0" false ∈
        (main simEnv demoCmd demoSimNoCopy).trace ∧
      (main simEnv demoCmd demoSimNoCopy).code = 1 ∧
      ∀ e ∈ (main simEnv demoCmd demoSimNoCopy).trace, e.isShardEvent = false :=
  ⟨by decide, by decide,
    (backup_precedes_conversion simEnv demoCmd demoSim).1 "db0" (by decide)
      demoFront
      (.openReader .BZ1 "/data/db0/default/1" true)
      ((successEvents simEnv "/data" 2147483648 shardA).drop 1 ++
        successEvents simEnv "/data" 2147483648 shardB)
      (by decide) (by decide),
    by decide,
    (backup_precedes_conversion simEnv demoCmd demoSimNoCopy).2 "/data/db0.bak" "/data/db0"
      (by decide)⟩


/-! ## Failure to open a shard -/

/-- The calls of a successful pass all returned without error. -/
lemma open_failure_not_success {σ : Type} (env : Env σ) (dataPath : String) (tsmSz : Nat)
    (done : List ShardInfo) (fmt : EngineFormat) (src : String) :
    Event.openReader fmt src false ∉ done.flatMap (successEvents env dataPath tsmSz) := by
  intro hmem
  rw [List.mem_flatMap] at hmem
  obtain ⟨sj, _, hj⟩ := hmem
  simp [successEvents] at hj

/-- A failed open in the conversion loop is its last call: the loop ends the run there,
and the calls before it are those of the successful passes on the shards before. -/
lemma convertLoop_open_failure {σ : Type} (env : Env σ) (dataPath : String) (tsmSz : Nat)
    (shards : List ShardInfo) (s : σ) (pre post : List Event) (fmt : EngineFormat)
    (src : String)
    (h : (convertLoop env dataPath tsmSz shards s).2.2 =
      pre ++ Event.openReader fmt src false :: post) :
    (convertLoop env dataPath tsmSz shards s).1 = false ∧ post = [] ∧
      ∃ done si rest, shards = done ++ si :: rest ∧ fmt = si.Format ∧
        src = env.fullPath si dataPath ∧
        pre = done.flatMap (successEvents env dataPath tsmSz) := by
  rcases convertLoop_shape env dataPath tsmSz shards s with
    ⟨_, h2⟩ | ⟨h1, done, si, rest, tail, h2, h3, h4⟩
  · exfalso
    apply open_failure_not_success env dataPath tsmSz shards fmt src
    rw [← h2, h]
    simp
  · rw [h4] at h
    obtain ⟨p2, hp2, htail⟩ :=
      split_after_of_not_mem h (open_failure_not_success env dataPath tsmSz done fmt src)
    have hmem : Event.openReader fmt src false ∈ tail := by rw [htail]; simp
    simp only [failureEvents, successEvents, List.mem_cons, List.mem_singleton,
      List.not_mem_nil, or_false, List.take, List.cons_append, List.nil_append] at h3
    rcases h3 with rfl | rfl | rfl | rfl | rfl | rfl
    · simp at hmem
    · cases p2 with
      | nil =>
        simp only [List.nil_append, List.cons.injEq, Event.openReader.injEq, and_true] at htail
        obtain ⟨⟨hf, hs⟩, hpost⟩ := htail
        exact ⟨h1, hpost.symm, done, si, rest, h2, hf.symm, hs.symm, by simpa using hp2⟩
      | cons x xs =>
        simp at htail
    · simp at hmem
    · simp at hmem
    · simp at hmem
    · simp at hmem

/-- A per-shard call in the trace of `main` lies in the part made by the conversion loop:
what precedes that part holds no per-shard call, and the exit code is that of the loop. -/
lemma main_conversion_split {σ : Type} (env : Env σ) (cl : CmdLine) (s : σ)
    (pre post : List Event) (e : Event)
    (h : (main env cl s).trace = pre ++ e :: post) (he : e.isShardEvent = true) :
    ∃ front p2 s1, pre = front ++ p2 ∧ (∀ x ∈ front, x.isShardEvent = false) ∧
      (convertLoop env cl.dataPath cl.tsmSz (selected env cl s) s1).2.2 = p2 ++ e :: post ∧
      (main env cl s).code =
        if (convertLoop env cl.dataPath cl.tsmSz (selected env cl s) s1).1 then 0 else 1 := by
  have hmem : e ∈ (main env cl s).trace := by rw [h]; simp
  rcases main_shape env cl s with ⟨_, _, h3⟩ | ⟨tr, _, _, htr, hcode, _, htrace⟩
  · have := (discovery_event (h3 e hmem)).2.1
    simp [he] at this
  · rcases migrate_shape env cl.dataPath cl.tsmSz (selected env cl s) s with
      ⟨resp0, m1, _, _, _, _⟩ | ⟨yn, _, _, ⟨_, _, m1⟩ | ⟨_, m2, m1⟩⟩
    · exfalso
      rw [htrace, m1, List.mem_append, List.mem_singleton] at hmem
      rcases hmem with hmem | rfl
      · have := (discovery_event (htr e hmem)).2.1
        simp [he] at this
      · simp [Event.isShardEvent] at he
    · exfalso
      rw [htrace, m1, List.mem_append, List.mem_cons] at hmem
      rcases hmem with hmem | rfl | hmem
      · have := (discovery_event (htr e hmem)).2.1
        simp [he] at this
      · simp [Event.isShardEvent] at he
      · have := (backup_event (backupLoop_events _ _ _ _ _ hmem)).1
        simp [he] at this
    · have hfront : ∀ x ∈ tr ++ Event.prompt (some yn) ::
          (backupLoop env cl.dataPath (env.databases (selected env cl s)) s).2.2,
          x.isShardEvent = false := by
        intro x hx
        rw [List.mem_append, List.mem_cons] at hx
        rcases hx with hx | rfl | hx
        · exact (discovery_event (htr x hx)).2.1
        · rfl
        · exact (backup_event (backupLoop_events _ _ _ _ _ hx)).1
      have hsplit : (tr ++ Event.prompt (some yn) ::
          (backupLoop env cl.dataPath (env.databases (selected env cl s)) s).2.2) ++
          (convertLoop env cl.dataPath cl.tsmSz (selected env cl s)
            (backupLoop env cl.dataPath (env.databases (selected env cl s)) s).2.1).2.2 =
          pre ++ e :: post := by
        rw [← h, htrace, m1]; simp
      have hnot : e ∉ tr ++ Event.prompt (some yn) ::
          (backupLoop env cl.dataPath (env.databases (selected env cl s)) s).2.2 := by
        intro hx
        have := hfront e hx
        simp [he] at this
      obtain ⟨p2, hp2, hq2⟩ := split_after_of_not_mem hsplit hnot
      exact ⟨_, p2, _, hp2, hfront, hq2, by rw [hcode, m2]⟩

/-- C6: when, in a run, opening the reader of a shard fails, the run exits with code 1 and
the failed open is its last call, so that shard and the shards after it in the list are
neither opened, converted, removed nor renamed; and the per-shard calls made before are
exactly those of the complete, successful conversion (open, convert, close, remove,
rename, all without error) of each shard that precedes it in the list. -/
theorem open_failure_aborts_run {σ : Type} (env : Env σ) (cl : CmdLine) (s : σ)
    (pre post : List Event) (fmt : EngineFormat) (src : String)
    (h : (main env cl s).trace = pre ++ Event.openReader fmt src false :: post) :
    (main env cl s).code = 1 ∧ post = [] ∧
      ∃ done si rest, selected env cl s = done ++ si :: rest ∧ fmt = si.Format ∧
        src = env.fullPath si cl.dataPath ∧
        pre.filter Event.isShardEvent =
          done.flatMap (successEvents env cl.dataPath cl.tsmSz) := by
  obtain ⟨front, p2, s1, hpre, hfront, hloop, hcode⟩ :=
    main_conversion_split env cl s pre post _ h rfl
  obtain ⟨hfalse, hpost, done, si, rest, hsel, hf, hs, hp2⟩ :=
    convertLoop_open_failure env cl.dataPath cl.tsmSz (selected env cl s) s1 p2 post fmt src hloop
  refine ⟨by rw [hcode, hfalse]; rfl, hpost, done, si, rest, hsel, hf, hs, ?_⟩
  have h1 : front.filter Event.isShardEvent = [] := by
    rw [List.filter_eq_nil_iff]
    intro x hx
    simp [hfront x hx]
  have h2 : p2.filter Event.isShardEvent = p2 := by
    rw [List.filter_eq_self]
    intro x hx
    rw [hp2, List.mem_flatMap] at hx
    obtain ⟨sj, _, hj⟩ := hx
    simp only [successEvents, List.mem_cons, List.mem_singleton, List.not_mem_nil,
      or_false] at hj
    rcases hj with rfl | rfl | rfl | rfl | rfl <;> rfl
  rw [hpre, List.filter_append, h1, h2, hp2, List.nil_append]

/-- Witness for `open_failure_aborts_run`: on the example machine whose second shard is
locked, the first shard is converted and the run ends at the failed open of the second. -/
theorem open_failure_aborts_run_witness :
    (main simEnv demoCmd demoSimLockedLast).trace =
        (demoFront ++ successEvents simEnv "/data" 2147483648 shardA) ++
        Event.openReader .B1 "/data/db0/default/2" false :: [] ∧
      (main simEnv demoCmd demoSimLockedLast).code = 1 ∧ ([] : List Event) = [] ∧
      ∃ done si rest, selected simEnv demoCmd demoSimLockedLast = done ++ si :: rest ∧
        EngineFormat.B1 = si.Format ∧
        "/data/db0/default/2" = simEnv.fullPath si demoCmd.dataPath ∧
        ((demoFront ++ successEvents simEnv "/data" 2147483648 shardA).filter Event.isShardEvent) =
          done.flatMap (successEvents simEnv demoCmd.dataPath demoCmd.tsmSz) :=
  ⟨by decide,
    open_failure_aborts_run simEnv demoCmd demoSimLockedLast
      (demoFront ++ successEvents simEnv "/data" 2147483648 shardA) [] .B1
      "/data/db0/default/2" (by decide)⟩

/-- C7 as stated fails: on the example machine whose first shard is locked, the run ends
with code 1 at the failed open of the first shard; the second shard of the list is never
opened, so the loop does not continue with the remaining shards. -/
theorem open_failure_does_not_continue :
    selected simEnv demoCmd demoSimLocked = [shardA, shardB] ∧
      (main simEnv demoCmd demoSimLocked).trace =
        [.readDir "/data" true, .listShards "/data/db0" true, .prompt (some "y\n"),
          .stat "/data/db0.bak" true, .copyDir "/data/db0.bak" "/data/db0" true,
          .openReader .BZ1 "/data/db0/default/1" false] ∧
      (main simEnv demoCmd demoSimLocked).code = 1 ∧
      ∀ ok, Event.openReader .B1 (simEnv.fullPath shardB "/data") ok ∉
        (main simEnv demoCmd demoSimLocked).trace := by
  decide

/-- C7 as amended: when opening the reader of a shard fails, the run is aborted with exit
code 1 and no call follows the failed open: the conversion loop does not go on to the
remaining shards. -/
theorem open_failure_ends_run {σ : Type} (env : Env σ) (cl : CmdLine) (s : σ)
    (pre post : List Event) (fmt : EngineFormat) (src : String)
    (h : (main env cl s).trace = pre ++ Event.openReader fmt src false :: post) :
    (main env cl s).code = 1 ∧ post = [] ∧
      ∀ e ∈ post, e.isShardEvent = false := by
  obtain ⟨front, p2, s1, _, _, hloop, hcode⟩ :=
    main_conversion_split env cl s pre post _ h rfl
  obtain ⟨hfalse, hpost, _⟩ :=
    convertLoop_open_failure env cl.dataPath cl.tsmSz (selected env cl s) s1 p2 post fmt src hloop
  refine ⟨by rw [hcode, hfalse]; rfl, hpost, ?_⟩
  intro e he
  rw [hpost] at he
  cases he

/-- Witness for `open_failure_ends_run`: the example machine whose first shard is locked. -/
theorem open_failure_ends_run_witness :
    (main simEnv demoCmd demoSimLocked).trace =
        demoFront ++
        Event.openReader .BZ1 "/data/db0/default/1" false :: [] ∧
      (main simEnv demoCmd demoSimLocked).code = 1 ∧ ([] : List Event) = [] ∧
      ∀ e ∈ ([] : List Event), e.isShardEvent = false :=
  ⟨by decide,
    open_failure_ends_run simEnv demoCmd demoSimLocked demoFront [] .BZ1
      "/data/db0/default/1" (by decide)⟩


/-! ## The swap of a converted shard -/

lemma guardedTrace_nil (maxSize : Nat) (hist : List Event) : GuardedTrace maxSize hist [] := by
  intro pre e post h
  simp at h

lemma guardedTrace_cons {maxSize : Nat} {hist : List Event} {e : Event} {t : List Event}
    (he : Guarded maxSize hist e) (ht : GuardedTrace maxSize (hist ++ [e]) t) :
    GuardedTrace maxSize hist (e :: t) := by
  intro pre x post h
  cases pre with
  | nil =>
    simp only [List.nil_append, List.cons.injEq] at h
    rw [← h.1]
    simpa using he
  | cons y ys =>
    simp only [List.cons_append, List.cons.injEq] at h
    have := ht ys x post h.2
    rw [← h.1]
    simpa using this

lemma guardedTrace_append {maxSize : Nat} {hist a b : List Event}
    (ha : GuardedTrace maxSize hist a) (hb : GuardedTrace maxSize (hist ++ a) b) :
    GuardedTrace maxSize hist (a ++ b) := by
  induction a generalizing hist with
  | nil => simpa using hb
  | cons x xs ih =>
    rw [List.cons_append]
    apply guardedTrace_cons
    · simpa using ha [] x xs rfl
    · apply ih
      · intro pre e post h
        have := ha (x :: pre) e post (by rw [h]; rfl)
        simpa using this
      · simpa using hb

/-- The calls of a successful pass meet their guards, whatever was called before. -/
lemma guardedTrace_success {σ : Type} (env : Env σ) (dataPath : String) (tsmSz : Nat)
    (si : ShardInfo) (hist : List Event) :
    GuardedTrace (tsmSz % 2 ^ 32) hist (successEvents env dataPath tsmSz si) := by
  unfold successEvents
  refine guardedTrace_cons trivial (guardedTrace_cons trivial (guardedTrace_cons trivial
    (guardedTrace_cons ?_ (guardedTrace_cons ?_ (guardedTrace_nil _ _)))))
  · exact ⟨hist, si.Format, by simp⟩
  · exact ⟨rfl, hist ++ (successEvents env dataPath tsmSz si).take 3, by simp [successEvents]⟩

/-- The calls of a pass that ends the run meet their guards, whatever was called before. -/
lemma guardedTrace_failure {σ : Type} (env : Env σ) (dataPath : String) (tsmSz : Nat)
    (si : ShardInfo) (hist tail : List Event)
    (h : tail ∈ failureEvents env dataPath tsmSz si) :
    GuardedTrace (tsmSz % 2 ^ 32) hist tail := by
  simp only [failureEvents, successEvents, List.mem_cons, List.mem_singleton,
    List.not_mem_nil, or_false, List.take, List.cons_append, List.nil_append] at h
  rcases h with rfl | rfl | rfl | rfl | rfl | rfl
  · exact guardedTrace_nil _ _
  · exact guardedTrace_cons trivial (guardedTrace_nil _ _)
  · exact guardedTrace_cons trivial (guardedTrace_cons trivial (guardedTrace_nil _ _))
  · exact guardedTrace_cons trivial (guardedTrace_cons trivial (guardedTrace_cons trivial
      (guardedTrace_nil _ _)))
  · refine guardedTrace_cons trivial (guardedTrace_cons trivial (guardedTrace_cons trivial
      (guardedTrace_cons ?_ (guardedTrace_nil _ _))))
    exact ⟨hist, si.Format, by simp⟩
  · refine guardedTrace_cons trivial (guardedTrace_cons trivial (guardedTrace_cons trivial
      (guardedTrace_cons ?_ (guardedTrace_cons ?_ (guardedTrace_nil _ _)))))
    · exact ⟨hist, si.Format, by simp⟩
    · exact ⟨rfl, hist ++ (successEvents env dataPath tsmSz si).take 3, by simp [successEvents]⟩

/-- The calls of successful passes on a list of shards meet their guards. -/
lemma guardedTrace_flatMap {σ : Type} (env : Env σ) (dataPath : String) (tsmSz : Nat)
    (done : List ShardInfo) (hist : List Event) :
    GuardedTrace (tsmSz % 2 ^ 32) hist (done.flatMap (successEvents env dataPath tsmSz)) := by
  induction done generalizing hist with
  | nil => exact guardedTrace_nil _ _
  | cons si rest ih =>
    rw [List.flatMap_cons]
    exact guardedTrace_append (guardedTrace_success env dataPath tsmSz si hist) (ih _)

/-- Every call of the conversion loop meets its guard. -/
lemma convertLoop_guarded {σ : Type} (env : Env σ) (dataPath : String) (tsmSz : Nat)
    (shards : List ShardInfo) (s : σ) :
    GuardedTrace (tsmSz % 2 ^ 32) [] (convertLoop env dataPath tsmSz shards s).2.2 := by
  rcases convertLoop_shape env dataPath tsmSz shards s with
    ⟨_, h2⟩ | ⟨_, done, si, rest, tail, _, h3, h4⟩
  · rw [h2]
    exact guardedTrace_flatMap env dataPath tsmSz shards []
  · rw [h4]
    exact guardedTrace_append (guardedTrace_flatMap env dataPath tsmSz done [])
      (guardedTrace_failure env dataPath tsmSz si _ tail h3)


lemma intactAlong_nil {files0 : String → Content} {watched : String → Prop}
    {files : String → Content} (h : Intact files0 watched files) :
    IntactAlong files0 watched files [] := by
  intro pre post hsplit
  have hpre : pre = [] := by
    cases pre with
    | nil => rfl
    | cons x xs => simp at hsplit
  rw [hpre]
  exact h

lemma intactAlong_cons {files0 : String → Content} {watched : String → Prop}
    {files : String → Content} {e : Event} {t : List Event}
    (h : Intact files0 watched files)
    (ht : IntactAlong files0 watched (fileEffect files e) t) :
    IntactAlong files0 watched files (e :: t) := by
  intro pre post hsplit
  cases pre with
  | nil => exact h
  | cons x xs =>
    simp only [List.cons_append, List.cons.injEq] at hsplit
    rw [← hsplit.1]
    exact ht xs post hsplit.2

lemma intactAlong_append {files0 : String → Content} {watched : String → Prop}
    {files : String → Content} {a b : List Event}
    (ha : IntactAlong files0 watched files a)
    (hb : IntactAlong files0 watched (a.foldl fileEffect files) b) :
    IntactAlong files0 watched files (a ++ b) := by
  induction a generalizing files with
  | nil => simpa using hb
  | cons x xs ih =>
    rw [List.cons_append]
    apply intactAlong_cons (ha [] (x :: xs) rfl)
    apply ih
    · intro pre post hsplit
      exact ha (x :: pre) post (by rw [hsplit]; rfl)
    · simpa using hb

/-- The watched paths stay intact along the calls of a pass of the conversion loop on a
shard whose path is watched and whose temporary output path is not; this for each prefix
of the calls of a success, hence for the calls of each exit. -/
lemma intactAlong_pass {σ : Type} (env : Env σ) (dataPath : String) (tsmSz : Nat)
    (si : ShardInfo) (files0 : String → Content) (watched : String → Prop)
    (files : String → Content) (h : Intact files0 watched files)
    (hsrc : watched (env.fullPath si dataPath))
    (hdst : ¬ watched (env.fullPath si dataPath ++ "." ++ tsmExt)) (b1 b2 b3 b4 b5 : Bool) :
    IntactAlong files0 watched files
        [.openReader si.Format (env.fullPath si dataPath) b1,
          .process (env.fullPath si dataPath) (env.fullPath si dataPath ++ "." ++ tsmExt)
            (tsmSz % 2 ^ 32) true,
          .closeReader (env.fullPath si dataPath) b3,
          .removeAll (env.fullPath si dataPath) b4,
          .rename (env.fullPath si dataPath ++ "." ++ tsmExt) (env.fullPath si dataPath) b5] ∧
      IntactAlong files0 watched files
        [.openReader si.Format (env.fullPath si dataPath) b1,
          .process (env.fullPath si dataPath) (env.fullPath si dataPath ++ "." ++ tsmExt)
            (tsmSz % 2 ^ 32) b2] := by
  have hne : env.fullPath si dataPath ≠ env.fullPath si dataPath ++ "." ++ tsmExt := by
    intro heq
    rw [← heq] at hdst
    exact hdst hsrc
  have hproc : ∀ ok, Intact files0 watched
      (fun q => if q = env.fullPath si dataPath ++ "." ++ tsmExt
        then Content.output (env.fullPath si dataPath) ok else files q) := by
    intro ok p hp
    have hpd : p ≠ env.fullPath si dataPath ++ "." ++ tsmExt := fun heq => hdst (heq ▸ hp)
    simp only [hpd, ↓reduceIte]
    exact h p hp
  have hrem : ∀ ok, Intact files0 watched
      (fileEffect (fun q => if q = env.fullPath si dataPath ++ "." ++ tsmExt
        then Content.output (env.fullPath si dataPath) true else files q)
        (.removeAll (env.fullPath si dataPath) ok)) := by
    intro ok p hp
    cases ok
    · exact hproc true p hp
    · simp only [fileEffect]
      by_cases hps : p = env.fullPath si dataPath
      · simp [hps]
      · simp only [hps, ↓reduceIte]
        exact hproc true p hp
  have hren : ∀ ok4 ok, Intact files0 watched
      (fileEffect (fileEffect (fun q => if q = env.fullPath si dataPath ++ "." ++ tsmExt
        then Content.output (env.fullPath si dataPath) true else files q)
        (.removeAll (env.fullPath si dataPath) ok4))
        (.rename (env.fullPath si dataPath ++ "." ++ tsmExt) (env.fullPath si dataPath) ok)) := by
    intro ok4 ok p hp
    cases ok
    · exact hrem ok4 p hp
    · have hpd : p ≠ env.fullPath si dataPath ++ "." ++ tsmExt := fun heq => hdst (heq ▸ hp)
      by_cases hps : p = env.fullPath si dataPath
      · subst hps
        right; right
        cases ok4 <;> simp [fileEffect, hne.symm, hne]
      · have := hrem ok4 p hp
        simpa [fileEffect, hpd, hps] using this
  constructor
  · refine intactAlong_cons h (intactAlong_cons ?_ (intactAlong_cons ?_ (intactAlong_cons ?_
      (intactAlong_cons ?_ (intactAlong_nil ?_)))))
    · exact h
    · exact hproc true
    · exact hproc true
    · exact hrem b4
    · exact hren b4 b5
  · refine intactAlong_cons h (intactAlong_cons ?_ (intactAlong_nil ?_))
    · exact h
    · exact hproc b2


lemma intactAlong_left {files0 : String → Content} {watched : String → Prop}
    {files : String → Content} {a b : List Event}
    (h : IntactAlong files0 watched files (a ++ b)) : IntactAlong files0 watched files a := by
  intro pre post hsplit
  exact h pre (post ++ b) (by rw [hsplit, List.append_assoc])

/-- The watched paths stay intact along the calls of a successful pass. -/
lemma intactAlong_success {σ : Type} (env : Env σ) (dataPath : String) (tsmSz : Nat)
    (si : ShardInfo) (files0 : String → Content) (watched : String → Prop)
    (files : String → Content) (h : Intact files0 watched files)
    (hsrc : watched (env.fullPath si dataPath))
    (hdst : ¬ watched (env.fullPath si dataPath ++ "." ++ tsmExt)) :
    IntactAlong files0 watched files (successEvents env dataPath tsmSz si) :=
  (intactAlong_pass env dataPath tsmSz si files0 watched files h hsrc hdst
    true true true true true).1

/-- The watched paths stay intact along the calls of a pass that ends the run. -/
lemma intactAlong_failure {σ : Type} (env : Env σ) (dataPath : String) (tsmSz : Nat)
    (si : ShardInfo) (files0 : String → Content) (watched : String → Prop)
    (files : String → Content) (h : Intact files0 watched files)
    (hsrc : watched (env.fullPath si dataPath))
    (hdst : ¬ watched (env.fullPath si dataPath ++ "." ++ tsmExt)) (tail : List Event)
    (ht : tail ∈ failureEvents env dataPath tsmSz si) :
    IntactAlong files0 watched files tail := by
  simp only [failureEvents, successEvents, List.mem_cons, List.mem_singleton,
    List.not_mem_nil, or_false, List.take, List.cons_append, List.nil_append] at ht
  rcases ht with rfl | rfl | rfl | rfl | rfl | rfl
  · exact intactAlong_nil h
  · exact intactAlong_left (b := [_, _, _, _])
      (intactAlong_pass env dataPath tsmSz si files0 watched files h hsrc hdst
        false true true true true).1
  · exact (intactAlong_pass env dataPath tsmSz si files0 watched files h hsrc hdst
      true false true true true).2
  · exact intactAlong_left (b := [_, _])
      (intactAlong_pass env dataPath tsmSz si files0 watched files h hsrc hdst
        true true false true true).1
  · exact intactAlong_left (b := [_])
      (intactAlong_pass env dataPath tsmSz si files0 watched files h hsrc hdst
        true true true false true).1
  · exact (intactAlong_pass env dataPath tsmSz si files0 watched files h hsrc hdst
      true true true true false).1

/-- The watched paths stay intact along the calls of successful passes on shards whose
paths are watched and whose temporary output paths are not. -/
lemma intactAlong_flatMap {σ : Type} (env : Env σ) (dataPath : String) (tsmSz : Nat)
    (files0 : String → Content) (watched : String → Prop) (done : List ShardInfo)
    (hd : ∀ si ∈ done, watched (env.fullPath si dataPath) ∧
      ¬ watched (env.fullPath si dataPath ++ "." ++ tsmExt))
    (files : String → Content) (h : Intact files0 watched files) :
    IntactAlong files0 watched files (done.flatMap (successEvents env dataPath tsmSz)) := by
  induction done generalizing files with
  | nil => exact intactAlong_nil h
  | cons si rest ih =>
    rw [List.flatMap_cons]
    have hsi := hd si (by simp)
    have hpass := intactAlong_success env dataPath tsmSz si files0 watched files h hsi.1 hsi.2
    apply intactAlong_append hpass
    apply ih (fun sj hj => hd sj (by simp [hj]))
    exact hpass _ [] (by simp)

/-- C2 as stated fails: with a second legacy shard stored at the temporary path of the
first (the shards `1` and `1.tsm` of one retention policy), `Process` of the first shard
writes its output at the path of the second. After the first two calls of the loop, with
the second shard not yet opened, that path holds the output made for the first shard:
not what it held before the loop, not nothing, and not the output of its own conversion. -/
theorem temporary_path_of_another_shard :
    shardTmp ∈ [shardA, shardTmp] ∧
      simEnv.fullPath shardA "/data" ++ "." ++ tsmExt = simEnv.fullPath shardTmp "/data" ∧
      (convertLoop simEnv "/data" 2147483648 [shardA, shardTmp] demoSim).2.2 =
        (successEvents simEnv "/data" 2147483648 shardA).take 2 ++
          ((successEvents simEnv "/data" 2147483648 shardA).drop 2 ++
            successEvents simEnv "/data" 2147483648 shardTmp) ∧
      ((successEvents simEnv "/data" 2147483648 shardA).take 2).foldl fileEffect
          (fun _ => Content.original 0) (simEnv.fullPath shardTmp "/data") =
        .output "/data/db0/default/1" true ∧
      ¬ (∀ (files : String → Content) pre post,
          (convertLoop simEnv "/data" 2147483648 [shardA, shardTmp] demoSim).2.2 = pre ++ post →
          ∀ si ∈ [shardA, shardTmp],
            pre.foldl fileEffect files (simEnv.fullPath si "/data") =
                files (simEnv.fullPath si "/data") ∨
              pre.foldl fileEffect files (simEnv.fullPath si "/data") = .absent ∨
              pre.foldl fileEffect files (simEnv.fullPath si "/data") =
                .output (simEnv.fullPath si "/data") true) := by
  refine ⟨by decide, by decide, by decide, by decide, ?_⟩
  intro h
  have h1 := h (fun _ => Content.original 0)
    ((successEvents simEnv "/data" 2147483648 shardA).take 2)
    ((successEvents simEnv "/data" 2147483648 shardA).drop 2 ++
      successEvents simEnv "/data" 2147483648 shardTmp) (by decide) shardTmp (by decide)
  revert h1
  decide

/-- C2 as amended: in the conversion loop, for every shard, `os.RemoveAll` is called on the
shard path only right after the reader on it was opened, `Process` wrote to the temporary
path and the reader was closed, all without error, and `os.Rename` of the temporary path
onto the shard path is called only right after that removal returned without error.
Hence, when no temporary path is itself the path of a shard of the list, after every
initial part of the calls of the loop each shard path holds what it held before the loop,
nothing, or the complete output of `Process` for that shard. -/
theorem swap_is_guarded {σ : Type} (env : Env σ) (dataPath : String) (tsmSz : Nat)
    (shards : List ShardInfo) (s : σ) :
    (∀ pre post p ok,
        (convertLoop env dataPath tsmSz shards s).2.2 = pre ++ Event.removeAll p ok :: post →
        ∃ pre0 fmt, pre = pre0 ++ [.openReader fmt p true,
          .process p (p ++ "." ++ tsmExt) (tsmSz % 2 ^ 32) true, .closeReader p true]) ∧
      (∀ pre post oldpath newpath ok,
        (convertLoop env dataPath tsmSz shards s).2.2 =
          pre ++ Event.rename oldpath newpath ok :: post →
        oldpath = newpath ++ "." ++ tsmExt ∧ ∃ pre0, pre = pre0 ++ [.removeAll newpath true]) ∧
      ((∀ si ∈ shards, ∀ sj ∈ shards,
          env.fullPath si dataPath ++ "." ++ tsmExt ≠ env.fullPath sj dataPath) →
        ∀ (files : String → Content) pre post,
          (convertLoop env dataPath tsmSz shards s).2.2 = pre ++ post →
          ∀ si ∈ shards,
            pre.foldl fileEffect files (env.fullPath si dataPath) =
                files (env.fullPath si dataPath) ∨
              pre.foldl fileEffect files (env.fullPath si dataPath) = .absent ∨
              pre.foldl fileEffect files (env.fullPath si dataPath) =
                .output (env.fullPath si dataPath) true) := by
  have hg := convertLoop_guarded env dataPath tsmSz shards s
  refine ⟨?_, ?_, ?_⟩
  · intro pre post p ok h
    simpa [Guarded] using hg pre _ post h
  · intro pre post oldpath newpath ok h
    simpa [Guarded] using hg pre _ post h
  · intro hTmp files pre post h si hsi
    have hw : ∀ sj ∈ shards,
        (fun p => ∃ sk ∈ shards, p = env.fullPath sk dataPath) (env.fullPath sj dataPath) ∧
        ¬ (fun p => ∃ sk ∈ shards, p = env.fullPath sk dataPath)
          (env.fullPath sj dataPath ++ "." ++ tsmExt) := by
      intro sj hsj
      refine ⟨⟨sj, hsj, rfl⟩, ?_⟩
      rintro ⟨sk, hsk, heq⟩
      exact hTmp sj hsj sk hsk heq
    have h0 : Intact files (fun p => ∃ sk ∈ shards, p = env.fullPath sk dataPath) files :=
      fun p _ => Or.inl rfl
    have hall : IntactAlong files (fun p => ∃ sk ∈ shards, p = env.fullPath sk dataPath) files
        (convertLoop env dataPath tsmSz shards s).2.2 := by
      rcases convertLoop_shape env dataPath tsmSz shards s with
        ⟨_, h2⟩ | ⟨_, done, sj, rest, tail, h2, h3, h4⟩
      · rw [h2]
        exact intactAlong_flatMap env dataPath tsmSz files _ shards hw files h0
      · rw [h4]
        have hdone : ∀ sk ∈ done, sk ∈ shards := by
          intro sk hk
          rw [h2]
          simp [hk]
        have hsj : sj ∈ shards := by rw [h2]; simp
        have hflat := intactAlong_flatMap env dataPath tsmSz files _ done
          (fun sk hk => hw sk (hdone sk hk)) files h0
        apply intactAlong_append hflat
        exact intactAlong_failure env dataPath tsmSz sj files _ _ (hflat _ [] (by simp))
          (hw sj hsj).1 (hw sj hsj).2 tail h3
    exact hall pre post h (env.fullPath si dataPath) ⟨si, hsi, rfl⟩


/-- Witness for `swap_is_guarded`: the conversion loop on the two shards of the example
machine; the removal of the first shard comes after its three guarded calls, and right
after that removal the first shard path holds nothing. -/
theorem swap_is_guarded_witness :
    (convertLoop simEnv "/data" 2147483648 [shardA, shardB] demoSim).2.2 =
        (successEvents simEnv "/data" 2147483648 shardA).take 3 ++
          Event.removeAll "/data/db0/default/1" true ::
            ((successEvents simEnv "/data" 2147483648 shardA).drop 4 ++
              successEvents simEnv "/data" 2147483648 shardB) ∧
      (∃ pre0 fmt, (successEvents simEnv "/data" 2147483648 shardA).take 3 =
        pre0 ++ [.openReader fmt "/data/db0/default/1" true,
          .process "/data/db0/default/1" ("/data/db0/default/1" ++ "." ++ tsmExt)
            (2147483648 % 2 ^ 32) true,
          .closeReader "/data/db0/default/1" true]) ∧
      (∀ si ∈ [shardA, shardB], ∀ sj ∈ [shardA, shardB],
        simEnv.fullPath si "/data" ++ "." ++ tsmExt ≠ simEnv.fullPath sj "/data") ∧
      (((successEvents simEnv "/data" 2147483648 shardA).take 4).foldl fileEffect
            (fun _ => Content.original 0) (simEnv.fullPath shardA "/data") =
          (fun _ => Content.original 0) (simEnv.fullPath shardA "/data") ∨
        ((successEvents simEnv "/data" 2147483648 shardA).take 4).foldl fileEffect
            (fun _ => Content.original 0) (simEnv.fullPath shardA "/data") = .absent ∨
        ((successEvents simEnv "/data" 2147483648 shardA).take 4).foldl fileEffect
            (fun _ => Content.original 0) (simEnv.fullPath shardA "/data") =
          .output (simEnv.fullPath shardA "/data") true) :=
  ⟨by decide,
    (swap_is_guarded simEnv "/data" 2147483648 [shardA, shardB] demoSim).1
      ((successEvents simEnv "/data" 2147483648 shardA).take 3)
      ((successEvents simEnv "/data" 2147483648 shardA).drop 4 ++
        successEvents simEnv "/data" 2147483648 shardB)
      "/data/db0/default/1" true (by decide),
    by decide,
    (swap_is_guarded simEnv "/data" 2147483648 [shardA, shardB] demoSim).2.2 (by decide)
      (fun _ => Content.original 0)
      ((successEvents simEnv "/data" 2147483648 shardA).take 4)
      ((successEvents simEnv "/data" 2147483648 shardA).drop 4 ++
        successEvents simEnv "/data" 2147483648 shardB)
      (by decide) shardA (by decide)⟩

/-! ## Skipping backups during discovery -/

/-- C11, evaluated at the entry name `dbbak`: the name does not end in `.bak`, yet the skip
test `strings.HasSuffix(name, backupExt)` holds for it, so the run on a data directory
whose only database is `dbbak`, holding a legacy shard, never lists the shards of `dbbak`
and ends with "Nothing to do" (exit code 0). -/
theorem skip_test_misses_the_dot :
    HasSuffix "dbbak" ("." ++ backupExt) = false ∧ HasSuffix "dbbak" backupExt = true ∧
      (main simEnv demoCmd demoSimOddName).trace = [.readDir "/data" true] ∧
      (main simEnv demoCmd demoSimOddName).code = 0 ∧
      selected simEnv demoCmd demoSimOddName = [] := by
  decide

/-- The name of a backup directory passes the skip test. -/
lemma hasSuffix_backup (db : String) : HasSuffix (db ++ "." ++ backupExt) backupExt = true := by
  unfold HasSuffix
  rw [List.isSuffixOf_iff_suffix]
  exact ⟨(db ++ ".").data, by simp [String.data_append]⟩

/-- The discovery loop passes over an entry that meets the skip test. -/
lemma collectShards_skip {σ : Type} (env : Env σ) (s : σ) (dataPath : String) (name : String)
    (h : HasSuffix name backupExt = true) (pre post : List String) (acc : List ShardInfo) :
    collectShards env s dataPath (pre ++ name :: post) acc =
      collectShards env s dataPath (pre ++ post) acc := by
  induction pre generalizing acc with
  | nil => simp [collectShards, h]
  | cons a pre ih =>
    simp only [List.cons_append]
    unfold collectShards
    split
    · exact ih acc
    · split
      · rfl
      · rw [ih]

/-- C17: for every database name `db`, the backup directory name `db.bak` that the tool
creates meets the skip test of the discovery; hence a data directory holding such an
entry is discovered exactly as the same directory without it: the shards of the backup
are never listed, so none of them is selected for conversion and the backup is not among
the databases backed up. -/
theorem backup_name_is_skipped (db : String) :
    HasSuffix (db ++ "." ++ backupExt) backupExt = true ∧
      ∀ {σ : Type} (env : Env σ) (s : σ) (ds dataPath : String) (pre post : List String),
        collectShards env s dataPath (pre ++ (db ++ "." ++ backupExt) :: post) [] =
            collectShards env s dataPath (pre ++ post) [] ∧
          selectShards env ds dataPath (pre ++ (db ++ "." ++ backupExt) :: post) s =
            selectShards env ds dataPath (pre ++ post) s := by
  refine ⟨hasSuffix_backup db, ?_⟩
  intro σ env s ds dataPath pre post
  have h := collectShards_skip env s dataPath _ (hasSuffix_backup db) pre post []
  exact ⟨h, by simp only [selectShards, h]⟩

/-! ## The measurement of a series key -/

/-- The position found by `indexChars` is the length of the part before the first
separator. -/
lemma tsdb.indexChars_eq (sep : Char) (l : List Char) :
    (sep ∉ l → tsdb.indexChars sep l = -1) ∧
      (sep ∈ l → tsdb.indexChars sep l = (l.takeWhile (fun c => c ≠ sep)).length) := by
  induction l with
  | nil => simp [tsdb.indexChars]
  | cons c cs ih =>
    by_cases hc : c = sep
    · subst hc
      simp [tsdb.indexChars]
    · have hne : ¬ sep = c := fun h => hc h.symm
      constructor
      · intro hmem
        have : sep ∉ cs := fun h => hmem (List.mem_cons_of_mem _ h)
        simp [tsdb.indexChars, hc, ih.1 this]
      · intro hmem
        have hin : sep ∈ cs := by
          rcases List.mem_cons.mp hmem with h | h
          · exact absurd h hne
          · exact h
        have h2 := ih.2 hin
        have hpos : tsdb.indexChars sep cs ≠ -1 := by
          rw [h2]
          omega
        simp [tsdb.indexChars, hc, hpos, h2]

/-- Taking as many elements as `takeWhile` keeps gives what `takeWhile` keeps. -/
lemma take_length_takeWhile {α : Type} (p : α → Bool) (l : List α) :
    l.take (l.takeWhile p).length = l.takeWhile p := by
  induction l with
  | nil => rfl
  | cons a l ih =>
    by_cases h : p a = true
    · simp [List.takeWhile_cons, h, ih]
    · simp [List.takeWhile_cons, h]

/-- The measurement is the part of the key before its first comma. -/
lemma tsdb.measurement_data (key : String) :
    (tsdb.MeasurementFromSeriesKey key).data = key.data.takeWhile (fun c => c ≠ ',') := by
  unfold tsdb.MeasurementFromSeriesKey tsdb.Index
  by_cases hmem : ',' ∈ key.data
  · have h2 := (tsdb.indexChars_eq ',' key.data).2 hmem
    have hpos : tsdb.indexChars ',' key.data ≠ -1 := by
      rw [h2]
      omega
    simp only [hpos, ↓reduceIte]
    rw [h2, Int.toNat_ofNat]
    exact take_length_takeWhile _ _
  · have h1 := (tsdb.indexChars_eq ',' key.data).1 hmem
    simp only [h1, ↓reduceIte]
    symm
    rw [List.takeWhile_eq_self_iff]
    intro x hx
    simp only [ne_eq, decide_not, Bool.not_eq_true', decide_eq_false_iff_not]
    rintro rfl
    exact hmem hx

/-- C14: for every series key, `MeasurementFromSeriesKey` returns the part of the key that
precedes its first `,`, and the whole key when the key holds no `,`; the result is a
prefix of the key without `,`, and no prefix of the key without `,` is longer. -/
theorem measurement_is_part_before_first_comma (key : String) :
    (∀ a b, key.data = a ++ ',' :: b → ',' ∉ a →
        (tsdb.MeasurementFromSeriesKey key).data = a) ∧
      (',' ∉ key.data → tsdb.MeasurementFromSeriesKey key = key) ∧
      (∃ t, key.data = (tsdb.MeasurementFromSeriesKey key).data ++ t) ∧
      ',' ∉ (tsdb.MeasurementFromSeriesKey key).data ∧
      ∀ p t, key.data = p ++ t → ',' ∉ p →
        p.length ≤ (tsdb.MeasurementFromSeriesKey key).data.length := by
  have hd := tsdb.measurement_data key
  refine ⟨?_, ?_, ?_, ?_, ?_⟩
  · intro a b hab ha
    rw [hd, hab, List.takeWhile_append_of_pos, List.takeWhile_cons_of_neg]
    · simp
    · simp
    · intro x hx
      simp only [ne_eq, decide_not, Bool.not_eq_true', decide_eq_false_iff_not]
      rintro rfl
      exact ha hx
  · intro hno
    apply String.ext
    rw [hd, List.takeWhile_eq_self_iff]
    intro x hx
    simp only [ne_eq, decide_not, Bool.not_eq_true', decide_eq_false_iff_not]
    rintro rfl
    exact hno hx
  · exact ⟨key.data.dropWhile (fun c => c ≠ ','), by rw [hd, List.takeWhile_append_dropWhile]⟩
  · rw [hd]
    intro hmem
    have := List.mem_takeWhile_imp hmem
    simp at this
  · intro p t hpt hp
    rw [hd, hpt, List.takeWhile_append_of_pos]
    · simp
    · intro x hx
      simp only [ne_eq, decide_not, Bool.not_eq_true', decide_eq_false_iff_not]
      rintro rfl
      exact hp hx

/-- Witness for `measurement_is_part_before_first_comma`: the example key, and a key
without a comma. -/
theorem measurement_is_part_before_first_comma_witness :
    demoSeriesKey.data = "cpu".data ++ ',' :: "host=a,region=b".data ∧ ',' ∉ "cpu".data ∧
      (tsdb.MeasurementFromSeriesKey demoSeriesKey).data = "cpu".data ∧
      ',' ∉ "cpu".data ∧ tsdb.MeasurementFromSeriesKey "cpu" = "cpu" :=
  ⟨by decide, by decide,
    (measurement_is_part_before_first_comma demoSeriesKey).1 "cpu".data "host=a,region=b".data
      (by decide) (by decide),
    by decide, (measurement_is_part_before_first_comma "cpu").2.1 (by decide)⟩

/-! ## The timestamp of a record -/

/-- Reading back the eight bytes of the encoding gives the number encoded. -/
lemma tsdb.btou64_bigEndian64 (t : Int) :
    tsdb.btou64 (tsdb.bigEndian64 t) = some (t % 2 ^ 64).toNat := by
  have hlt : (t % 2 ^ 64).toNat < 2 ^ 64 := by
    have h1 : t % 2 ^ 64 < 2 ^ 64 := Int.emod_lt_of_pos _ (by norm_num)
    have h2 : 0 ≤ t % 2 ^ 64 := Int.emod_nonneg _ (by norm_num)
    omega
  have hr : List.range 8 = [0, 1, 2, 3, 4, 5, 6, 7] := by decide
  simp only [tsdb.btou64, tsdb.bigEndian64, hr, List.map_cons, List.map_nil, List.length_cons,
    List.length_nil, List.take, List.foldl_cons, List.foldl_nil]
  generalize (t % 2 ^ 64).toNat = u at hlt ⊢
  norm_num
  omega

/-- C15: for every signed 64 bit timestamp `t` and every key that starts with the eight
bytes of the big-endian two's complement encoding of `t`, `DecodeKeyValue` returns `t` as
the timestamp, whatever the field name, the codec and the value bytes, and whether or not
the value decodes. -/
theorem decode_returns_timestamp {V : Type} (t : Int) (field : String)
    (dec : String → List Byte → Except String V) (rest v : List Byte)
    (hlo : -2 ^ 63 ≤ t) (hhi : t < 2 ^ 63) :
    ∃ val, tsdb.DecodeKeyValue field dec (tsdb.bigEndian64 t ++ rest) v = some (t, val) := by
  have hlen : (tsdb.bigEndian64 t).length = 8 := by simp [tsdb.bigEndian64]
  have htake : (tsdb.bigEndian64 t ++ rest).take 8 = tsdb.bigEndian64 t := by
    rw [List.take_append_of_le_length (by omega), List.take_of_length_le (by omega)]
  have hint : tsdb.int64 (t % 2 ^ 64).toNat = t := by
    unfold tsdb.int64
    have h1 : t % 2 ^ 64 < 2 ^ 64 := Int.emod_lt_of_pos _ (by norm_num)
    have h2 : 0 ≤ t % 2 ^ 64 := Int.emod_nonneg _ (by norm_num)
    have h3 : ((t % 2 ^ 64).toNat : Int) = t % 2 ^ 64 := Int.toNat_of_nonneg h2
    have h4 : (t % 2 ^ 64).toNat % 2 ^ 64 = (t % 2 ^ 64).toNat := by
      apply Nat.mod_eq_of_lt
      omega
    rw [h4]
    split
    · rename_i hsmall
      rw [h3]
      omega
    · rename_i hbig
      rw [h3]
      omega
  have hs : tsdb.slice08 (tsdb.bigEndian64 t ++ rest) = some (tsdb.bigEndian64 t) := by
    simp [tsdb.slice08, htake, hlen]
  simp only [tsdb.DecodeKeyValue, hs, tsdb.btou64_bigEndian64, hint]
  cases dec field v with
  | error e => exact ⟨none, rfl⟩
  | ok x => exact ⟨some x, rfl⟩

/-- Witness for `decode_returns_timestamp`: the timestamp `-2` in front of one more byte,
with the codec that rejects every value. -/
theorem decode_returns_timestamp_witness :
    (-2 : Int) ^ 63 ≤ -2 ∧ (-2 : Int) < 2 ^ 63 ∧
      tsdb.bigEndian64 (-2) = [255, 255, 255, 255, 255, 255, 255, 254] ∧
      ∃ val, tsdb.DecodeKeyValue "value" rejectAll (tsdb.bigEndian64 (-2) ++ [7]) [1] =
        some (-2, val) :=
  ⟨by decide, by decide, by decide,
    decode_returns_timestamp (-2) "value" rejectAll [7] [1] (by decide) (by decide)⟩

/-! ## The size handed to the converter -/

/-- Every conversion call of the loop carries the size `tsmSz` reduced to 32 bits. -/
lemma convertLoop_process_size {σ : Type} (env : Env σ) (dataPath : String) (tsmSz : Nat)
    (shards : List ShardInfo) (s : σ) (src dst : String) (m : Nat) (ok : Bool)
    (h : Event.process src dst m ok ∈ (convertLoop env dataPath tsmSz shards s).2.2) :
    m = tsmSz % 2 ^ 32 := by
  have hin : ∀ si, Event.process src dst m ok ∈ successEvents env dataPath tsmSz si →
      m = tsmSz % 2 ^ 32 := by
    intro si hj
    simp only [successEvents, List.mem_cons, List.mem_singleton, List.not_mem_nil, or_false,
      reduceCtorEq, false_or, Event.process.injEq] at hj
    exact hj.2.2.1
  rcases convertLoop_shape env dataPath tsmSz shards s with
    ⟨_, h2⟩ | ⟨_, done, si, rest, tail, _, h3, h4⟩
  · rw [h2, List.mem_flatMap] at h
    obtain ⟨sj, _, hj⟩ := h
    exact hin sj hj
  · rw [h4, List.mem_append, List.mem_flatMap] at h
    rcases h with ⟨sj, _, hj⟩ | h
    · exact hin sj hj
    · simp only [failureEvents, successEvents, List.mem_cons, List.mem_singleton,
        List.not_mem_nil, or_false, List.take, List.cons_append, List.nil_append] at h3
      rcases h3 with rfl | rfl | rfl | rfl | rfl | rfl <;>
        simp only [List.mem_cons, List.mem_singleton, List.not_mem_nil, or_false,
          reduceCtorEq, false_or, or_self, Event.process.injEq] at h
      all_goals exact h.2.2.1

/-- C16: a size that passes the ceiling check (at most 2147483648, zero included) is not
changed by the conversion `uint32(tsmSz)`, and in every run each call of the converter is
made with a maximum size equal to `tsmSz`, which has passed the ceiling check. -/
theorem accepted_size_is_not_truncated {σ : Type} (env : Env σ) (cl : CmdLine) (s : σ) :
    (cl.tsmSz ≤ maxTSMSz → cl.tsmSz % 2 ^ 32 = cl.tsmSz) ∧
      (0 : Nat) % 2 ^ 32 = 0 ∧ maxTSMSz % 2 ^ 32 = maxTSMSz ∧
      ∀ pre post src dst m ok,
        (main env cl s).trace = pre ++ Event.process src dst m ok :: post →
        cl.tsmSz ≤ 2147483648 ∧ m = cl.tsmSz := by
  have hmod : cl.tsmSz ≤ maxTSMSz → cl.tsmSz % 2 ^ 32 = cl.tsmSz := by
    intro h
    apply Nat.mod_eq_of_lt
    simp only [maxTSMSz] at h
    omega
  refine ⟨hmod, by decide, by decide, ?_⟩
  intro pre post src dst m ok h
  have hle : cl.tsmSz ≤ maxTSMSz := by
    rcases main_shape env cl s with ⟨_, _, h3⟩ | ⟨_, hsz, _⟩
    · have hmem : Event.process src dst m ok ∈ (main env cl s).trace := by rw [h]; simp
      have := h3 _ hmem
      simp [Event.isDiscovery] at this
    · exact hsz
  obtain ⟨front, p2, s1, _, _, hloop, _⟩ := main_conversion_split env cl s pre post _ h rfl
  have hmem : Event.process src dst m ok ∈
      (convertLoop env cl.dataPath cl.tsmSz (selected env cl s) s1).2.2 := by
    rw [hloop]; simp
  have hm := convertLoop_process_size env cl.dataPath cl.tsmSz _ s1 src dst m ok hmem
  refine ⟨by simpa [maxTSMSz] using hle, ?_⟩
  rw [hm, hmod hle]

/-- Witness for `accepted_size_is_not_truncated`: the run on the example machine with the
default size; the converter of the first shard gets 2147483648. -/
theorem accepted_size_is_not_truncated_witness :
    demoCmd.tsmSz ≤ maxTSMSz ∧ demoCmd.tsmSz % 2 ^ 32 = demoCmd.tsmSz ∧
      (main simEnv demoCmd demoSim).trace =
        (demoFront ++ [.openReader .BZ1 "/data/db0/default/1" true]) ++
          Event.process "/data/db0/default/1" "/data/db0/default/1.tsm" 2147483648 true ::
            ((successEvents simEnv "/data" 2147483648 shardA).drop 2 ++
              successEvents simEnv "/data" 2147483648 shardB) ∧
      demoCmd.tsmSz ≤ 2147483648 ∧ 2147483648 = demoCmd.tsmSz :=
  ⟨by decide, (accepted_size_is_not_truncated simEnv demoCmd demoSim).1 (by decide),
    by decide,
    (accepted_size_is_not_truncated simEnv demoCmd demoSim).2.2.2
      (demoFront ++ [.openReader .BZ1 "/data/db0/default/1" true])
      ((successEvents simEnv "/data" 2147483648 shardA).drop 2 ++
        successEvents simEnv "/data" 2147483648 shardB)
      "/data/db0/default/1" "/data/db0/default/1.tsm" 2147483648 true (by decide)⟩

/-! ## Exit codes -/

lemma cleanOrLast_append {a t : List Event} (ha : ∀ x ∈ a, x.failed = false)
    (ht : CleanOrLast t) : CleanOrLast (a ++ t) := by
  rcases ht with h | ⟨pre, e, h1, h2, h3⟩
  · left
    intro x hx
    rcases List.mem_append.mp hx with hx | hx
    · exact ha x hx
    · exact h x hx
  · right
    refine ⟨a ++ pre, e, by rw [h1, List.append_assoc], h2, ?_⟩
    intro x hx
    rcases List.mem_append.mp hx with hx | hx
    · exact ha x hx
    · exact h3 x hx

/-- In a trace whose only failed call is the last one, nothing follows a failed call. -/
lemma cleanOrLast_stops {t : List Event} (ht : CleanOrLast t) (pre post : List Event)
    (e : Event) (h : t = pre ++ e :: post) (he : e.failed = true) :
    post = [] ∧ ∃ pre0 e0, t = pre0 ++ [e0] ∧ e0.failed = true := by
  rcases ht with hclean | ⟨pre0, e0, h1, h2, h3⟩
  · have := hclean e (by rw [h]; simp)
    rw [he] at this
    cases this
  · refine ⟨?_, pre0, e0, h1, h2⟩
    have hnot : e ∉ pre0 := by
      intro hmem
      have := h3 e hmem
      rw [he] at this
      cases this
    rw [h1] at h
    obtain ⟨p2, _, hp2⟩ := split_after_of_not_mem h hnot
    cases p2 with
    | nil =>
      simp only [List.nil_append, List.cons.injEq] at hp2
      exact hp2.2.symm
    | cons x xs => simp at hp2

/-- The discovery loop makes no failed call when it ends well, and ends at its only failed
call otherwise. -/
lemma collectShards_failed {σ : Type} (env : Env σ) (s : σ) (dataPath : String)
    (dbs : List String) (acc : List ShardInfo) :
    ((collectShards env s dataPath dbs acc).1 ≠ none →
        ∀ x ∈ (collectShards env s dataPath dbs acc).2, x.failed = false) ∧
      ((collectShards env s dataPath dbs acc).1 = none →
        ∃ pre e, (collectShards env s dataPath dbs acc).2 = pre ++ [e] ∧ e.failed = true ∧
          ∀ x ∈ pre, x.failed = false) := by
  induction dbs generalizing acc with
  | nil => simp [collectShards]
  | cons db dbs ih =>
    unfold collectShards
    split
    · exact ih acc
    · split
      · refine ⟨fun h => absurd rfl h, fun _ => ⟨[], _, rfl, rfl, by simp⟩⟩
      · rename_i shs _
        obtain ⟨ih1, ih2⟩ := ih (acc ++ shs)
        constructor
        · intro h x hx
          simp only [List.mem_cons] at hx
          rcases hx with rfl | hx
          · rfl
          · exact ih1 h x hx
        · intro h
          obtain ⟨pre, e, h1, h2, h3⟩ := ih2 h
          refine ⟨Event.listShards (env.join dataPath db) true :: pre, e,
            by simp only [h1, List.cons_append], h2, ?_⟩
          intro x hx
          simp only [List.mem_cons] at hx
          rcases hx with rfl | hx
          · rfl
          · exact h3 x hx

/-- The backup loop makes no failed call when it ends well, and ends at its only failed
call otherwise. -/
lemma backupLoop_failed {σ : Type} (env : Env σ) (dataPath : String) (dbs : List String)
    (s : σ) :
    ((backupLoop env dataPath dbs s).1 = true →
        ∀ x ∈ (backupLoop env dataPath dbs s).2.2, x.failed = false) ∧
      ((backupLoop env dataPath dbs s).1 = false →
        ∃ pre e, (backupLoop env dataPath dbs s).2.2 = pre ++ [e] ∧ e.failed = true ∧
          ∀ x ∈ pre, x.failed = false) := by
  induction dbs generalizing s with
  | nil => simp [backupLoop]
  | cons db dbs ih =>
    unfold backupLoop
    simp only
    split
    · split
      · refine ⟨fun h => by simp at h, fun _ => ⟨[_], _, rfl, rfl, ?_⟩⟩
        intro x hx
        simp only [List.mem_singleton] at hx
        subst hx
        rfl
      · rename_i s1 _
        obtain ⟨ih1, ih2⟩ := ih s1
        constructor
        · intro h x hx
          simp only [List.mem_cons] at hx
          rcases hx with rfl | rfl | hx
          · rfl
          · rfl
          · exact ih1 h x hx
        · intro h
          obtain ⟨pre, e, h1, h2, h3⟩ := ih2 h
          refine ⟨Event.stat (env.join dataPath (db ++ "." ++ backupExt)) true ::
            Event.copyDir (env.join dataPath (db ++ "." ++ backupExt)) (env.join dataPath db)
              true :: pre, e, by simp only [h1, List.cons_append], h2, ?_⟩
          intro x hx
          simp only [List.mem_cons] at hx
          rcases hx with rfl | rfl | hx
          · rfl
          · rfl
          · exact h3 x hx
    · exact ⟨fun h => by simp at h, fun _ => ⟨[], _, rfl, rfl, by simp⟩⟩

/-- The calls of successful passes are not failed calls. -/
lemma success_not_failed {σ : Type} (env : Env σ) (dataPath : String) (tsmSz : Nat)
    (done : List ShardInfo) :
    ∀ x ∈ done.flatMap (successEvents env dataPath tsmSz), x.failed = false := by
  intro x hx
  rw [List.mem_flatMap] at hx
  obtain ⟨sj, _, hj⟩ := hx
  simp only [successEvents, List.mem_cons, List.mem_singleton, List.not_mem_nil,
    or_false] at hj
  rcases hj with rfl | rfl | rfl | rfl | rfl <;> rfl

/-- The conversion loop makes no failed call when it ends well; otherwise it makes none
(unsupported format) or ends at its only failed call. -/
lemma convertLoop_failed {σ : Type} (env : Env σ) (dataPath : String) (tsmSz : Nat)
    (shards : List ShardInfo) (s : σ) :
    ((convertLoop env dataPath tsmSz shards s).1 = true →
        ∀ x ∈ (convertLoop env dataPath tsmSz shards s).2.2, x.failed = false) ∧
      CleanOrLast (convertLoop env dataPath tsmSz shards s).2.2 := by
  rcases convertLoop_shape env dataPath tsmSz shards s with
    ⟨_, h2⟩ | ⟨h1, done, si, rest, tail, _, h3, h4⟩
  · rw [h2]
    exact ⟨fun _ => success_not_failed env dataPath tsmSz shards,
      Or.inl (success_not_failed env dataPath tsmSz shards)⟩
  · refine ⟨fun h => absurd (h1.symm.trans h) (by simp), ?_⟩
    rw [h4]
    apply cleanOrLast_append (success_not_failed env dataPath tsmSz done)
    simp only [failureEvents, successEvents, List.mem_cons, List.mem_singleton,
      List.not_mem_nil, or_false, List.take, List.cons_append, List.nil_append] at h3
    rcases h3 with rfl | rfl | rfl | rfl | rfl | rfl
    · left; simp
    · right
      exact ⟨[], _, rfl, rfl, by simp⟩
    · right
      refine ⟨[_], _, rfl, rfl, ?_⟩
      intro x hx
      simp only [List.mem_singleton] at hx
      subst hx; rfl
    · right
      refine ⟨[_, _], _, rfl, rfl, ?_⟩
      intro x hx
      simp only [List.mem_cons, List.mem_singleton, List.not_mem_nil, or_false] at hx
      rcases hx with rfl | rfl <;> rfl
    · right
      refine ⟨[_, _, _], _, rfl, rfl, ?_⟩
      intro x hx
      simp only [List.mem_cons, List.mem_singleton, List.not_mem_nil, or_false] at hx
      rcases hx with rfl | rfl | rfl <;> rfl
    · right
      refine ⟨[_, _, _, _], _, rfl, rfl, ?_⟩
      intro x hx
      simp only [List.mem_cons, List.mem_singleton, List.not_mem_nil, or_false] at hx
      rcases hx with rfl | rfl | rfl | rfl <;> rfl

/-- From the prompt on, the run makes no failed call, or it exits with code 1 at its only
failed call. -/
lemma migrate_failed {σ : Type} (env : Env σ) (dataPath : String) (tsmSz : Nat)
    (shards : List ShardInfo) (s : σ) :
    (∀ x ∈ (migrate env dataPath tsmSz shards s).trace, x.failed = false) ∨
      ((migrate env dataPath tsmSz shards s).code = 1 ∧
        ∃ pre e, (migrate env dataPath tsmSz shards s).trace = pre ++ [e] ∧ e.failed = true ∧
          ∀ x ∈ pre, x.failed = false) := by
  rcases migrate_shape env dataPath tsmSz shards s with
    ⟨resp0, m1, m2, _, _⟩ | ⟨yn, _, _, ⟨hb, m2, m1⟩ | ⟨hb, m2, m1⟩⟩
  · cases resp0 with
    | none => exact Or.inr ⟨m2, [], Event.prompt none, by rw [m1]; rfl, rfl, by simp⟩
    | some yn =>
      left
      intro x hx
      rw [m1, List.mem_singleton] at hx
      subst hx; rfl
  · right
    obtain ⟨pre, e, h1, h2, h3⟩ := (backupLoop_failed env dataPath (env.databases shards) s).2 hb
    refine ⟨m2, Event.prompt (some yn) :: pre, e, by rw [m1, h1]; rfl, h2, ?_⟩
    intro x hx
    simp only [List.mem_cons] at hx
    rcases hx with rfl | hx
    · rfl
    · exact h3 x hx
  · have hclean := (backupLoop_failed env dataPath (env.databases shards) s).1 hb
    have hfront : ∀ x ∈ Event.prompt (some yn) ::
        (backupLoop env dataPath (env.databases shards) s).2.2, x.failed = false := by
      intro x hx
      simp only [List.mem_cons] at hx
      rcases hx with rfl | hx
      · rfl
      · exact hclean x hx
    obtain ⟨c1, c2⟩ := convertLoop_failed env dataPath tsmSz shards
      (backupLoop env dataPath (env.databases shards) s).2.1
    rcases c2 with hc | ⟨pre, e, h1, h2, h3⟩
    · left
      intro x hx
      rw [m1] at hx
      simp only [List.mem_cons, List.mem_append] at hx
      rcases hx with rfl | hx | hx
      · rfl
      · exact hclean x hx
      · exact hc x hx
    · right
      have hok : (convertLoop env dataPath tsmSz shards
          (backupLoop env dataPath (env.databases shards) s).2.1).1 = false := by
        cases hval : (convertLoop env dataPath tsmSz shards
          (backupLoop env dataPath (env.databases shards) s).2.1).1 with
        | false => rfl
        | true =>
          have := c1 hval e (by rw [h1]; simp)
          rw [h2] at this
          cases this
      refine ⟨by rw [m2, hok]; rfl,
        Event.prompt (some yn) ::
          ((backupLoop env dataPath (env.databases shards) s).2.2 ++ pre), e,
        by rw [m1, h1]; simp, h2, ?_⟩
      intro x hx
      simp only [List.mem_cons, List.mem_append] at hx
      rcases hx with rfl | hx | hx
      · rfl
      · exact hclean x hx
      · exact h3 x hx

/-- A run of `main` makes no failed call, or it exits with code 1 at its only failed
call. -/
lemma main_failed {σ : Type} (env : Env σ) (cl : CmdLine) (s : σ) :
    (∀ x ∈ (main env cl s).trace, x.failed = false) ∨
      ((main env cl s).code = 1 ∧
        ∃ pre e, (main env cl s).trace = pre ++ [e] ∧ e.failed = true ∧
          ∀ x ∈ pre, x.failed = false) := by
  unfold main
  rcases cl.args with _ | ⟨dataPath, args⟩
  · left; simp
  · simp only
    split
    · left; simp
    · rcases hd : env.readDir s dataPath with err | dbs
      · exact Or.inr ⟨rfl, [], Event.readDir dataPath false, rfl, rfl, by simp⟩
      · simp only
        obtain ⟨c1, c2⟩ := collectShards_failed env s dataPath dbs []
        unfold selectShards
        rcases hc : collectShards env s dataPath dbs [] with ⟨res, tr⟩
        rw [hc] at c1 c2
        simp only at c1 c2
        cases res with
        | none =>
          right
          obtain ⟨pre, e, h1, h2, h3⟩ := c2 rfl
          refine ⟨rfl, Event.readDir dataPath true :: pre, e, by simp [h1], h2, ?_⟩
          intro x hx
          simp only [List.mem_cons] at hx
          rcases hx with rfl | hx
          · rfl
          · exact h3 x hx
        | some found =>
          have hfront : ∀ x ∈ Event.readDir dataPath true :: tr, x.failed = false := by
            intro x hx
            simp only [List.mem_cons] at hx
            rcases hx with rfl | hx
            · rfl
            · exact c1 (by simp) x hx
          simp only
          split
          · exact Or.inl hfront
          · rcases migrate_failed env dataPath cl.tsmSz
              (env.filterDatabases (env.filterFormat (env.sortShards found) .TSM1)
                (requestedDbs cl.ds)) s with hm | ⟨hm1, pre, e, h1, h2, h3⟩
            · left
              intro x hx
              simp only [List.mem_cons, List.mem_append] at hx
              rcases hx with rfl | hx | hx
              · rfl
              · exact c1 (by simp) x hx
              · exact hm x hx
            · right
              refine ⟨hm1, Event.readDir dataPath true :: (tr ++ pre), e, by simp [h1], h2, ?_⟩
              intro x hx
              simp only [List.mem_cons, List.mem_append] at hx
              rcases hx with rfl | hx | hx
              · rfl
              · exact c1 (by simp) x hx
              · exact h3 x hx

/-- A run that selects no shard and makes no failed call, on a command line with a data
directory and an accepted size, exits with code 0. -/
lemma main_nothing_to_do {σ : Type} (env : Env σ) (cl : CmdLine) (s : σ)
    (hargs : cl.args ≠ []) (hsz : cl.tsmSz ≤ maxTSMSz)
    (hclean : ∀ x ∈ (main env cl s).trace, x.failed = false)
    (hsel : selected env cl s = []) : (main env cl s).code = 0 := by
  unfold main at hclean ⊢
  unfold selected at hsel
  rcases ha : cl.args with _ | ⟨dataPath, args⟩
  · exact absurd ha hargs
  · rw [ha] at hclean hsel
    have hnot : ¬ cl.tsmSz > maxTSMSz := by omega
    simp only [hnot, ↓reduceIte] at hclean hsel ⊢
    rcases hd : env.readDir s dataPath with err | dbs
    · rw [hd] at hclean
      have := hclean (Event.readDir dataPath false) (by simp)
      cases this
    · rw [hd] at hclean hsel
      simp only at hclean hsel ⊢
      obtain ⟨_, c2⟩ := collectShards_failed env s dataPath dbs []
      unfold selectShards at hclean hsel ⊢
      rcases hc : collectShards env s dataPath dbs [] with ⟨res, tr⟩
      rw [hc] at hclean hsel c2
      cases res with
      | none =>
        obtain ⟨pre, e, h1, h2, _⟩ := c2 rfl
        simp only at hclean h1
        have := hclean e (by rw [h1]; simp)
        rw [h2] at this
        cases this
      | some found =>
        simp only [Option.getD_some] at hsel
        simp only [hsel, List.length_nil, ↓reduceIte]

/-- The calls of successful passes are per-shard calls. -/
lemma success_all_shard {σ : Type} (env : Env σ) (dataPath : String) (tsmSz : Nat)
    (done : List ShardInfo) :
    (done.flatMap (successEvents env dataPath tsmSz)).filter Event.isShardEvent =
      done.flatMap (successEvents env dataPath tsmSz) := by
  rw [List.filter_eq_self]
  intro x hx
  rw [List.mem_flatMap] at hx
  obtain ⟨sj, _, hj⟩ := hx
  simp only [successEvents, List.mem_cons, List.mem_singleton, List.not_mem_nil,
    or_false] at hj
  rcases hj with rfl | rfl | rfl | rfl | rfl <;> rfl

/-- A conversion loop whose calls are those of a successful pass on every shard ends
well. -/
lemma convertLoop_all_success {σ : Type} (env : Env σ) (dataPath : String) (tsmSz : Nat)
    (shards : List ShardInfo) (s : σ)
    (h : (convertLoop env dataPath tsmSz shards s).2.2 =
      shards.flatMap (successEvents env dataPath tsmSz)) :
    (convertLoop env dataPath tsmSz shards s).1 = true := by
  rcases convertLoop_shape env dataPath tsmSz shards s with
    ⟨h1, _⟩ | ⟨_, done, si, rest, tail, h2, h3, h4⟩
  · exact h1
  · exfalso
    rw [h4, h2, List.flatMap_append, List.flatMap_cons] at h
    have htail := List.append_cancel_left h
    simp only [failureEvents, successEvents, List.mem_cons, List.mem_singleton,
      List.not_mem_nil, or_false, List.take, List.cons_append, List.nil_append] at h3
    rcases h3 with rfl | rfl | rfl | rfl | rfl | rfl <;> simp [successEvents] at htail

/-- C13: a run exits with code 0 when the discovery goes through and no shard remains to
convert after filtering, in which case it makes no backup, removal or rename call and
leaves the machine as it was, and when the per-shard calls it made are those of the
complete successful conversion of every shard selected; and whenever a call fails (a
directory read, a shard listing, a backup check or copy, an open, a conversion, a close,
a removal or a rename) the run exits with code 1 and that call is its last. -/
theorem exit_code_reflects_outcome {σ : Type} (env : Env σ) (cl : CmdLine) (s : σ) :
    (cl.args ≠ [] → cl.tsmSz ≤ maxTSMSz → selected env cl s = [] →
        (∀ x ∈ (main env cl s).trace, x.failed = false) →
        (main env cl s).code = 0 ∧ (main env cl s).state = s ∧
          ∀ e ∈ (main env cl s).trace, e.isWrite = false) ∧
      (∀ front, selected env cl s ≠ [] → (∀ e ∈ front, e.isShardEvent = false) →
        (main env cl s).trace =
          front ++ (selected env cl s).flatMap (successEvents env cl.dataPath cl.tsmSz) →
        (main env cl s).code = 0) ∧
      (∀ pre e post, (main env cl s).trace = pre ++ e :: post → e.failed = true →
        (main env cl s).code = 1 ∧ post = []) := by
  refine ⟨?_, ?_, ?_⟩
  · intro hargs hsz hsel hclean
    refine ⟨main_nothing_to_do env cl s hargs hsz hclean hsel, ?_⟩
    rcases main_shape env cl s with ⟨h1, _, h3⟩ | ⟨_, _, hne, _⟩
    · exact ⟨h1, fun e he => (discovery_event (h3 e he)).1⟩
    · exact absurd hsel hne
  · intro front hne hfront htrace
    have hS := success_all_shard env cl.dataPath cl.tsmSz (selected env cl s)
    have hfilter : (main env cl s).trace.filter Event.isShardEvent =
        (selected env cl s).flatMap (successEvents env cl.dataPath cl.tsmSz) := by
      rw [htrace, List.filter_append, hS]
      have : front.filter Event.isShardEvent = [] := by
        rw [List.filter_eq_nil_iff]
        intro x hx
        simp [hfront x hx]
      rw [this, List.nil_append]
    have hnonempty : (selected env cl s).flatMap (successEvents env cl.dataPath cl.tsmSz) ≠
        [] := by
      cases hsel : selected env cl s with
      | nil => exact absurd hsel hne
      | cons si rest => simp [successEvents]
    rcases main_shape env cl s with ⟨_, h2, _⟩ | ⟨tr, _, _, htr, hcode, _, hmain⟩
    · exact absurd h2 hne
    · have htrf : tr.filter Event.isShardEvent = [] := by
        rw [List.filter_eq_nil_iff]
        intro x hx
        simp [(discovery_event (htr x hx)).2.1]
      have htbf : ((backupLoop env cl.dataPath (env.databases (selected env cl s)) s).2.2).filter
          Event.isShardEvent = [] := by
        rw [List.filter_eq_nil_iff]
        intro x hx
        simp [(backup_event (backupLoop_events _ _ _ _ x hx)).1]
      rcases migrate_shape env cl.dataPath cl.tsmSz (selected env cl s) s with
        ⟨resp0, m1, _⟩ | ⟨yn, _, _, ⟨_, _, m1⟩ | ⟨_, m2, m1⟩⟩
      · exfalso
        rw [hmain, m1, List.filter_append, htrf] at hfilter
        simp only [List.nil_append, List.filter_cons, Event.isShardEvent, Bool.false_eq_true,
          ↓reduceIte, List.filter_nil] at hfilter
        exact hnonempty hfilter.symm
      · exfalso
        rw [hmain, m1, List.filter_append, htrf] at hfilter
        simp only [List.nil_append, List.filter_cons, Event.isShardEvent, Bool.false_eq_true,
          ↓reduceIte, htbf] at hfilter
        exact hnonempty hfilter.symm
      · rw [hmain, m1, List.filter_append, htrf] at hfilter
        simp only [List.nil_append, List.filter_cons, Event.isShardEvent, Bool.false_eq_true,
          ↓reduceIte, List.filter_append, htbf] at hfilter
        have hall : ∀ x ∈ (convertLoop env cl.dataPath cl.tsmSz (selected env cl s)
            (backupLoop env cl.dataPath (env.databases (selected env cl s)) s).2.1).2.2,
            Event.isShardEvent x = true := convertLoop_events _ _ _ _ _
        rw [List.filter_eq_self.mpr hall] at hfilter
        rw [hcode, m2, convertLoop_all_success _ _ _ _ _ hfilter]
        rfl
  · intro pre e post htrace he
    rcases main_failed env cl s with hclean | ⟨hcode, pre0, e0, h1, h2, h3⟩
    · have := hclean e (by rw [htrace]; simp)
      rw [he] at this
      cases this
    · exact ⟨hcode, (cleanOrLast_stops (Or.inr ⟨pre0, e0, h1, h2, h3⟩) pre post e htrace he).1⟩

/-- Witness for `exit_code_reflects_outcome`: nothing to convert on the machine whose only
database is skipped, a complete conversion on the example machine, and a failed open on
the machine whose first shard is locked. -/
theorem exit_code_reflects_outcome_witness :
    ((main simEnv demoCmd demoSimOddName).code = 0 ∧
        (main simEnv demoCmd demoSimOddName).state = demoSimOddName ∧
        ∀ e ∈ (main simEnv demoCmd demoSimOddName).trace, e.isWrite = false) ∧
      (main simEnv demoCmd demoSim).trace =
        demoFront ++ (selected simEnv demoCmd demoSim).flatMap
          (successEvents simEnv demoCmd.dataPath demoCmd.tsmSz) ∧
      (main simEnv demoCmd demoSim).code = 0 ∧
      (main simEnv demoCmd demoSimLocked).trace =
        demoFront ++ Event.openReader .BZ1 "/data/db0/default/1" false :: [] ∧
      (main simEnv demoCmd demoSimLocked).code = 1 ∧ ([] : List Event) = [] :=
  ⟨(exit_code_reflects_outcome simEnv demoCmd demoSimOddName).1 (by decide) (by decide)
      (by decide) (by decide),
    by decide,
    (exit_code_reflects_outcome simEnv demoCmd demoSim).2.1 demoFront (by decide) (by decide)
      (by decide),
    by decide,
    (exit_code_reflects_outcome simEnv demoCmd demoSimLocked).2.2 demoFront
      (.openReader .BZ1 "/data/db0/default/1" false) [] (by decide) (by decide)⟩

/-! ## Running the migration again -/

/-- C12 as stated fails: on the example machine the first run converts both shards of
`db0` and leaves the backup `/data/db0.bak`; the second run, started from the state the
first one left, skips the backup, finds both shards in TSM1 format, and ends with
"Nothing to do" and exit code 0 instead of aborting on the existing backup. -/
theorem second_run_has_nothing_to_do :
    (main simEnvTsm demoCmd demoSim).code = 0 ∧
      simEnvTsm.statNotExist (main simEnvTsm demoCmd demoSim).state "/data/db0.bak" = false ∧
      (main simEnvTsm demoCmd (main simEnvTsm demoCmd demoSim).state).trace =
        [.readDir "/data" true, .listShards "/data/db0" true] ∧
      (main simEnvTsm demoCmd (main simEnvTsm demoCmd demoSim).state).code = 0 := by
  decide

/-- The backup loop ends the run at its first check when the first backup exists. -/
lemma backupLoop_first_exists {σ : Type} (env : Env σ) (dataPath : String) (db : String)
    (dbs : List String) (s : σ)
    (h : env.statNotExist s (backupPath env dataPath db) = false) :
    backupLoop env dataPath (db :: dbs) s =
      (false, s, [.stat (backupPath env dataPath db) false]) := by
  unfold backupLoop
  unfold backupPath at h
  simp [h, backupPath]

/-- A run that exits with code 0 was given a data directory and an accepted size. -/
lemma main_code_zero {σ : Type} (env : Env σ) (cl : CmdLine) (s : σ)
    (h : (main env cl s).code = 0) : cl.args ≠ [] ∧ cl.tsmSz ≤ maxTSMSz := by
  unfold main at h
  rcases ha : cl.args with _ | ⟨dataPath, args⟩
  · rw [ha] at h
    simp at h
  · rw [ha] at h
    refine ⟨by simp, ?_⟩
    by_cases hsz : cl.tsmSz > maxTSMSz
    · simp [hsz] at h
    · omega

/-- C12 as amended: the migration is run a second time from the state its first run left,
every backup that the first run created is still in place, and every database that the
second run would back up was backed up by the first run. Then the second run makes no
copy and opens, converts, closes, removes or renames no shard, and leaves the machine as
it found it. When it still selects a shard for conversion (`Databases()` then listing a
database) it exits with code 1, and once the user has confirmed its last call is the check
that finds an existing backup. It exits with code 0 exactly when it was given a data
directory and an accepted size, its discovery makes no failed call and it selects no
shard ("Nothing to do"). -/
theorem second_run_touches_no_shard {σ : Type} (env : Env σ) (cl : CmdLine) (s : σ)
    (hDbs : selected env cl (main env cl s).state ≠ [] →
      env.databases (selected env cl (main env cl s).state) ≠ [])
    (hmade : ∀ db ∈ env.databases (selected env cl (main env cl s).state),
      Event.copyDir (backupPath env cl.dataPath db) (env.join cl.dataPath db) true ∈
        (main env cl s).trace)
    (hkept : ∀ dest src, Event.copyDir dest src true ∈ (main env cl s).trace →
      env.statNotExist (main env cl s).state dest = false) :
    (∀ e ∈ (main env cl (main env cl s).state).trace, e.isWrite = false) ∧
      (main env cl (main env cl s).state).state = (main env cl s).state ∧
      (selected env cl (main env cl s).state ≠ [] →
        (main env cl (main env cl s).state).code = 1 ∧
          ∀ yn, env.readString (main env cl s).state = .ok yn → normalise env yn = "y" →
            ∃ pre db, db ∈ env.databases (selected env cl (main env cl s).state) ∧
              (main env cl (main env cl s).state).trace =
                pre ++ [.stat (backupPath env cl.dataPath db) false]) ∧
      ((main env cl (main env cl s).state).code = 0 ↔
        cl.args ≠ [] ∧ cl.tsmSz ≤ maxTSMSz ∧ selected env cl (main env cl s).state = [] ∧
          ∀ x ∈ (main env cl (main env cl s).state).trace, x.failed = false) := by
  have hbak : ∀ db ∈ env.databases (selected env cl (main env cl s).state),
      env.statNotExist (main env cl s).state (backupPath env cl.dataPath db) = false :=
    fun db hdb => hkept _ _ (hmade db hdb)
  clear hmade hkept
  generalize (main env cl s).state = s2 at hDbs hbak ⊢
  have hcode1 : selected env cl s2 ≠ [] → (main env cl s2).code = 1 ∧
      (main env cl s2).state = s2 ∧ (∀ e ∈ (main env cl s2).trace, e.isWrite = false) ∧
      ∀ yn, env.readString s2 = .ok yn → normalise env yn = "y" →
        ∃ pre db, db ∈ env.databases (selected env cl s2) ∧
          (main env cl s2).trace = pre ++ [.stat (backupPath env cl.dataPath db) false] := by
    intro hne
    rcases main_shape env cl s2 with ⟨_, h2, _⟩ | ⟨tr, _, _, htr, hcode, hstate, htrace⟩
    · exact absurd h2 hne
    · obtain ⟨db, dbs, hdbs⟩ := List.exists_cons_of_ne_nil (hDbs hne)
      have hfirst := backupLoop_first_exists env cl.dataPath db dbs s2
        (hbak db (by rw [hdbs]; simp))
      have hm : (migrate env cl.dataPath cl.tsmSz (selected env cl s2) s2).code = 1 ∧
          (migrate env cl.dataPath cl.tsmSz (selected env cl s2) s2).state = s2 ∧
          (∀ e ∈ (migrate env cl.dataPath cl.tsmSz (selected env cl s2) s2).trace,
            e.isWrite = false) ∧
          ∀ yn, env.readString s2 = .ok yn → normalise env yn = "y" →
            (migrate env cl.dataPath cl.tsmSz (selected env cl s2) s2).trace =
              [.prompt (some yn), .stat (backupPath env cl.dataPath db) false] := by
        unfold migrate
        rcases env.readString s2 with err | yn
        · simp [Event.isWrite]
        · simp only
          split
          · rename_i hno
            refine ⟨rfl, rfl, by simp [Event.isWrite], ?_⟩
            intro yn2 hyn hy
            simp only [Except.ok.injEq] at hyn
            subst hyn
            exact absurd hy hno
          · rw [hdbs, hfirst]
            refine ⟨rfl, rfl, by simp [Event.isWrite], ?_⟩
            intro yn2 hyn _
            simp only [Except.ok.injEq] at hyn
            subst hyn
            rfl
      refine ⟨by rw [hcode, hm.1], by rw [hstate, hm.2.1], ?_, ?_⟩
      · intro e he
        rw [htrace, List.mem_append] at he
        rcases he with he | he
        · exact (discovery_event (htr e he)).1
        · exact hm.2.2.1 e he
      · intro yn hyn hy
        refine ⟨tr ++ [.prompt (some yn)], db, by rw [hdbs]; simp, ?_⟩
        rw [htrace, hm.2.2.2 yn hyn hy]
        simp
  refine ⟨?_, ?_, fun hne => ⟨(hcode1 hne).1, (hcode1 hne).2.2.2⟩, ?_⟩
  · rcases main_shape env cl s2 with ⟨_, h2, h3⟩ | ⟨_, _, hne, _⟩
    · exact fun e he => (discovery_event (h3 e he)).1
    · exact (hcode1 hne).2.2.1
  · rcases main_shape env cl s2 with ⟨h1, _, _⟩ | ⟨_, _, hne, _⟩
    · exact h1
    · exact (hcode1 hne).2.1
  · constructor
    · intro h0
      have hsel : selected env cl s2 = [] := by
        by_contra hne
        have := (hcode1 hne).1
        omega
      refine ⟨(main_code_zero env cl s2 h0).1, (main_code_zero env cl s2 h0).2, hsel, ?_⟩
      rcases main_failed env cl s2 with hclean | ⟨h1, _⟩
      · exact hclean
      · omega
    · rintro ⟨hargs, hsz, hsel, hclean⟩
      exact main_nothing_to_do env cl s2 hargs hsz hclean hsel

/-- Witness for `second_run_touches_no_shard`. On the example machine whose second shard
is locked, the first run backs up `db0`, converts the first shard and stops; the second
run finds the backup in place and exits with code 1 at the check of the backup, without a
write. On the example machine with nothing locked the first run converts both shards, and
the second run selects no shard and exits with code 0. -/
theorem second_run_touches_no_shard_witness :
    (selected simEnvTsm demoCmd (main simEnvTsm demoCmd demoSimLockedLast).state =
          [shardB] ∧
        (main simEnvTsm demoCmd (main simEnvTsm demoCmd demoSimLockedLast).state).code = 1 ∧
        ∃ pre db, db ∈ simEnvTsm.databases
            (selected simEnvTsm demoCmd (main simEnvTsm demoCmd demoSimLockedLast).state) ∧
          (main simEnvTsm demoCmd (main simEnvTsm demoCmd demoSimLockedLast).state).trace =
            pre ++ [.stat (backupPath simEnvTsm demoCmd.dataPath db) false]) ∧
      (main simEnvTsm demoCmd demoSim).code = 0 ∧
      (main simEnvTsm demoCmd (main simEnvTsm demoCmd demoSim).state).code = 0 :=
  ⟨⟨by decide,
      ((second_run_touches_no_shard simEnvTsm demoCmd demoSimLockedLast (by decide) (by decide)
        (fun dest src h => by
          have ht : (main simEnvTsm demoCmd demoSimLockedLast).trace =
              demoFront ++ (successEvents simEnvTsm "/data" 2147483648 shardA ++
                [.openReader .B1 "/data/db0/default/2" false]) := by decide
          rw [ht] at h
          simp [demoFront, successEvents] at h
          obtain ⟨rfl, _⟩ := h
          decide)).2.2.1 (by decide)).1,
      ((second_run_touches_no_shard simEnvTsm demoCmd demoSimLockedLast (by decide) (by decide)
        (fun dest src h => by
          have ht : (main simEnvTsm demoCmd demoSimLockedLast).trace =
              demoFront ++ (successEvents simEnvTsm "/data" 2147483648 shardA ++
                [.openReader .B1 "/data/db0/default/2" false]) := by decide
          rw [ht] at h
          simp [demoFront, successEvents] at h
          obtain ⟨rfl, _⟩ := h
          decide)).2.2.1 (by decide)).2 "y\n" rfl (by decide)⟩,
    by decide,
    (second_run_touches_no_shard simEnvTsm demoCmd demoSim (by decide) (by decide)
      (fun dest src h => by
        have ht : (main simEnvTsm demoCmd demoSim).trace =
            demoFront ++ (successEvents simEnvTsm "/data" 2147483648 shardA ++
              successEvents simEnvTsm "/data" 2147483648 shardB) := by decide
        rw [ht] at h
        simp [demoFront, successEvents] at h
        obtain ⟨rfl, _⟩ := h
        decide)).2.2.2.mpr ⟨by decide, by decide, by decide, by decide⟩⟩

/-! ## Authentication before the handler callback -/

/-- Sending a result calls neither the callback nor the user manager. -/
lemma http.sendResult_calls {U : Type} (statusCode : Int) (contentType : String)
    (body : List Byte) :
    ∀ c ∈ (http.sendResult statusCode contentType body : List (http.Call U)),
      c.isYield = false ∧ c.isAuth = false := by
  intro c hc
  unfold http.sendResult at hc
  split at hc
  · cases hc
  · simp only [List.mem_append, List.mem_cons, List.mem_singleton, List.not_mem_nil,
      or_false] at hc
    rcases hc with (hc | hc | hc) | hc
    · split at hc
      · simp only [List.mem_singleton] at hc
        subst hc
        exact ⟨rfl, rfl⟩
      · cases hc
    · subst hc
      exact ⟨rfl, rfl⟩
    · subst hc
      exact ⟨rfl, rfl⟩
    · split at hc
      · simp only [List.mem_singleton] at hc
        subst hc
        exact ⟨rfl, rfl⟩
      · cases hc

/-- In a list that starts with a call other than the callback, then the callback, then
calls other than the callback, the callback occurs at the second place only. -/
lemma http.yield_split {U : Type} (a : http.Call U) (user u : U)
    (rest pre post : List (http.Call U)) (ha : a.isYield = false)
    (hrest : ∀ c ∈ rest, c.isYield = false)
    (h : a :: .yield user :: rest = pre ++ .yield u :: post) :
    pre = [a] ∧ u = user ∧ post = rest := by
  have hnot : http.Call.yield u ∉ [a] := by
    intro hmem
    simp only [List.mem_singleton] at hmem
    rw [← hmem] at ha
    cases ha
  have h' : [a] ++ (http.Call.yield user :: rest) = pre ++ http.Call.yield u :: post := h
  obtain ⟨p2, hp2, hq2⟩ := split_after_of_not_mem h' hnot
  cases p2 with
  | nil =>
    simp only [List.nil_append, List.cons.injEq, http.Call.yield.injEq] at hq2
    exact ⟨by simpa using hp2, hq2.1.symm, hq2.2.symm⟩
  | cons x xs =>
    simp only [List.cons_append, List.cons.injEq] at hq2
    have := hrest (.yield u) (by rw [hq2.2]; simp)
    cases this

/-- C18: in `tryAsClusterAdmin` and in `tryAsDbUser` the handler callback is called only
right after the authentication call of the user manager, made with the credentials
extracted from the request, returned that user without error; and when the extraction
gives an empty user name the user manager and the callback are not called and the status
is 401. -/
theorem callback_only_after_authentication {σ U J : Type} (um : http.UserManager σ U)
    (lib : http.Lib J) (r : http.Request) (yield : σ → U → (Int × http.Body J) × σ) (s : σ) :
    (∀ pre u post, (http.tryAsClusterAdmin um lib r yield s).2 = pre ++ .yield u :: post →
        ∃ name pw s1, http.getUsernameAndPassword lib r = (name, pw, none) ∧
          um.AuthenticateClusterAdmin s name pw = (.ok u, s1) ∧
          pre = [.authClusterAdmin name pw true]) ∧
      (∀ pw, http.getUsernameAndPassword lib r = ("", pw, none) →
        http.Call.writeHeader 401 ∈ (http.tryAsClusterAdmin um lib r yield s).2 ∧
          ∀ c ∈ (http.tryAsClusterAdmin um lib r yield s).2,
            c.isAuth = false ∧ c.isYield = false) ∧
      (∀ pre u post, (http.tryAsDbUser um lib r yield s).2.2 = pre ++ .yield u :: post →
        ∃ name pw s1, http.getUsernameAndPassword lib r = (name, pw, none) ∧
          um.AuthenticateDbUser s (r.query ":db") name pw = (.ok u, s1) ∧
          pre = [.authDbUser (r.query ":db") name pw true]) ∧
      (∀ pw, http.getUsernameAndPassword lib r = ("", pw, none) →
        (http.tryAsDbUser um lib r yield s).1.1 = 401 ∧
          ∀ c ∈ (http.tryAsDbUser um lib r yield s).2.2,
            c.isAuth = false ∧ c.isYield = false) := by
  refine ⟨?_, ?_, ?_, ?_⟩
  · intro pre u post h
    unfold http.tryAsClusterAdmin at h
    rcases hg : http.getUsernameAndPassword lib r with ⟨name, pw, err⟩
    rw [hg] at h
    cases err with
    | some e =>
      have hmem : http.Call.yield u ∈ pre ++ http.Call.yield u :: post := by simp
      rw [← h] at hmem
      simp at hmem
    | none =>
      simp only at h
      split at h
      · have hmem : http.Call.yield u ∈ pre ++ http.Call.yield u :: post := by simp
        rw [← h] at hmem
        simp at hmem
      · rcases ha : um.AuthenticateClusterAdmin s name pw with ⟨res, s1⟩
        rw [ha] at h
        cases res with
        | error e =>
          have hmem : http.Call.yield u ∈ pre ++ http.Call.yield u :: post := by simp
          rw [← h] at hmem
          simp at hmem
        | ok user =>
          simp only at h
          obtain ⟨h1, h2, _⟩ := http.yield_split (.authClusterAdmin name pw true) user u _
            pre post rfl (fun c hc => (http.sendResult_calls _ _ _ c hc).1) h
          exact ⟨name, pw, s1, rfl, by rw [h2]; exact ha, h1⟩
  · intro pw hg
    unfold http.tryAsClusterAdmin
    rw [hg]
    simp [http.StatusUnauthorized, http.Call.isAuth, http.Call.isYield]
  · intro pre u post h
    unfold http.tryAsDbUser at h
    rcases hg : http.getUsernameAndPassword lib r with ⟨name, pw, err⟩
    rw [hg] at h
    cases err with
    | some e =>
      have hmem : http.Call.yield u ∈ pre ++ http.Call.yield u :: post := by simp
      rw [← h] at hmem
      simp at hmem
    | none =>
      simp only at h
      split at h
      · have hmem : http.Call.yield u ∈ pre ++ http.Call.yield u :: post := by simp
        rw [← h] at hmem
        simp at hmem
      · rcases ha : um.AuthenticateDbUser s (r.query ":db") name pw with ⟨res, s1⟩
        rw [ha] at h
        cases res with
        | error e =>
          have hmem : http.Call.yield u ∈ pre ++ http.Call.yield u :: post := by simp
          rw [← h] at hmem
          simp at hmem
        | ok user =>
          simp only at h
          have hrest : ∀ c ∈ ((if (http.yieldUser lib user yield s1).1.1 =
              http.StatusUnauthorized then
                [http.Call.headerAdd "WWW-Authenticate" "Basic realm=\"influxdb\""]
              else []) ++
              [http.Call.headerAdd "content-type" (http.yieldUser lib user yield s1).1.2.1] :
                List (http.Call U)), c.isYield = false := by
            intro c hc
            simp only [List.mem_append, List.mem_singleton] at hc
            rcases hc with hc | hc
            · split at hc
              · simp only [List.mem_singleton] at hc
                subst hc; rfl
              · cases hc
            · subst hc; rfl
          obtain ⟨h1, h2, _⟩ := http.yield_split (.authDbUser (r.query ":db") name pw true)
            user u _ pre post rfl hrest h
          exact ⟨name, pw, s1, rfl, by rw [h2]; exact ha, h1⟩
  · intro pw hg
    unfold http.tryAsDbUser
    rw [hg]
    simp [http.StatusUnauthorized, http.Call.isAuth, http.Call.isYield]

/-- Witness for `callback_only_after_authentication`: the request with `paul`'s
credentials, and the request without credentials. -/
theorem callback_only_after_authentication_witness :
    (http.tryAsClusterAdmin http.demoUsers http.demoLib http.demoRequest http.demoYieldOk 0).2 =
        [.authClusterAdmin "paul" "secret" true] ++ .yield "paul" ::
          [.headerAdd "content-type" "text/plain", .writeHeader 200] ∧
      (∃ name pw s1, http.getUsernameAndPassword http.demoLib http.demoRequest =
          (name, pw, none) ∧
        http.demoUsers.AuthenticateClusterAdmin 0 name pw = (.ok "paul", s1) ∧
        ([.authClusterAdmin "paul" "secret" true] : List (http.Call String)) =
          [.authClusterAdmin name pw true]) ∧
      http.getUsernameAndPassword http.demoLib http.demoAnonymous = ("", "", none) ∧
      ((http.tryAsDbUser http.demoUsers http.demoLib http.demoAnonymous
          http.demoYieldOk 0).1.1 = 401 ∧
        ∀ c ∈ (http.tryAsDbUser http.demoUsers http.demoLib http.demoAnonymous
            http.demoYieldOk 0).2.2, c.isAuth = false ∧ c.isYield = false) :=
  ⟨by decide,
    (callback_only_after_authentication http.demoUsers http.demoLib http.demoRequest
      http.demoYieldOk 0).1 [.authClusterAdmin "paul" "secret" true] "paul"
      [.headerAdd "content-type" "text/plain", .writeHeader 200] (by decide),
    by decide,
    (callback_only_after_authentication http.demoUsers http.demoLib http.demoAnonymous
      http.demoYieldOk 0).2.2.2 "" (by decide)⟩

/-! ## The number of calls of the handler callback -/

/-- Sending a result does not call the callback. -/
lemma http.sendResult_count {U : Type} (statusCode : Int) (contentType : String)
    (body : List Byte) :
    (http.sendResult statusCode contentType body : List (http.Call U)).countP
      http.Call.isYield = 0 := by
  rw [List.countP_eq_zero]
  intro c hc
  simp [(http.sendResult_calls statusCode contentType body c hc).1]

/-- In `tryAsClusterAdmin` the callback is called once when the credentials are extracted
with a user name and the cluster admin authentication succeeds, and not at all
otherwise. -/
lemma http.clusterAdmin_count {σ U J : Type} (um : http.UserManager σ U) (lib : http.Lib J)
    (r : http.Request) (yield : σ → U → (Int × http.Body J) × σ) (s : σ) :
    ((∃ name pw u s1, http.getUsernameAndPassword lib r = (name, pw, none) ∧ name ≠ "" ∧
          um.AuthenticateClusterAdmin s name pw = (.ok u, s1)) ∧
        (http.tryAsClusterAdmin um lib r yield s).2.countP http.Call.isYield = 1) ∨
      ((¬ ∃ name pw u s1, http.getUsernameAndPassword lib r = (name, pw, none) ∧ name ≠ "" ∧
          um.AuthenticateClusterAdmin s name pw = (.ok u, s1)) ∧
        (http.tryAsClusterAdmin um lib r yield s).2.countP http.Call.isYield = 0) := by
  unfold http.tryAsClusterAdmin
  rcases hg : http.getUsernameAndPassword lib r with ⟨name, pw, err⟩
  cases err with
  | some e =>
    right
    refine ⟨?_, by simp [List.countP_cons, http.Call.isYield]⟩
    rintro ⟨name', pw', u, s1, h1, _⟩
    simp at h1
  | none =>
    simp only
    split
    · rename_i hempty
      right
      refine ⟨?_, by simp [List.countP_cons, http.Call.isYield]⟩
      rintro ⟨name', pw', u, s1, h1, h2, _⟩
      simp only [Prod.mk.injEq, and_true] at h1
      exact h2 (h1.1 ▸ hempty)
    · rename_i hname
      rcases ha : um.AuthenticateClusterAdmin s name pw with ⟨res, s1⟩
      cases res with
      | error e =>
        right
        refine ⟨?_, by simp [List.countP_cons, http.Call.isYield]⟩
        rintro ⟨name', pw', u, s1', h1, _, h3⟩
        simp only [Prod.mk.injEq, and_true] at h1
        rw [← h1.1, ← h1.2, ha] at h3
        simp at h3
      | ok user =>
        left
        refine ⟨⟨name, pw, user, s1, rfl, hname, ha⟩, ?_⟩
        simp [List.countP_cons, http.Call.isYield, http.sendResult_count]

/-- In `tryAsDbUser` the callback is called once when the credentials are extracted with a
user name and the database user authentication succeeds, the status and state returned
being those of `yieldUser`; otherwise it is not called. -/
lemma http.dbUser_count {σ U J : Type} (um : http.UserManager σ U) (lib : http.Lib J)
    (r : http.Request) (yield : σ → U → (Int × http.Body J) × σ) (s : σ) :
    (∃ name pw u s1, http.getUsernameAndPassword lib r = (name, pw, none) ∧ name ≠ "" ∧
        um.AuthenticateDbUser s (r.query ":db") name pw = (.ok u, s1) ∧
        (http.tryAsDbUser um lib r yield s).1.1 = (http.yieldUser lib u yield s1).1.1 ∧
        (http.tryAsDbUser um lib r yield s).2.1 = (http.yieldUser lib u yield s1).2 ∧
        (http.tryAsDbUser um lib r yield s).2.2.countP http.Call.isYield = 1) ∨
      ((¬ ∃ name pw u s1, http.getUsernameAndPassword lib r = (name, pw, none) ∧ name ≠ "" ∧
          um.AuthenticateDbUser s (r.query ":db") name pw = (.ok u, s1)) ∧
        (http.tryAsDbUser um lib r yield s).2.2.countP http.Call.isYield = 0) := by
  unfold http.tryAsDbUser
  rcases hg : http.getUsernameAndPassword lib r with ⟨name, pw, err⟩
  cases err with
  | some e =>
    right
    refine ⟨?_, by simp⟩
    rintro ⟨name', pw', u, s1, h1, _⟩
    simp at h1
  | none =>
    simp only
    split
    · rename_i hempty
      right
      refine ⟨?_, by simp [List.countP_cons, http.Call.isYield]⟩
      rintro ⟨name', pw', u, s1, h1, h2, _⟩
      simp only [Prod.mk.injEq, and_true] at h1
      exact h2 (h1.1 ▸ hempty)
    · rename_i hname
      rcases ha : um.AuthenticateDbUser s (r.query ":db") name pw with ⟨res, s1⟩
      cases res with
      | error e =>
        right
        refine ⟨?_, by simp [List.countP_cons, http.Call.isYield]⟩
        rintro ⟨name', pw', u, s1', h1, _, h3⟩
        simp only [Prod.mk.injEq, and_true] at h1
        rw [← h1.1, ← h1.2, ha] at h3
        simp at h3
      | ok user =>
        left
        refine ⟨name, pw, user, s1, rfl, hname, ha, rfl, rfl, ?_⟩
        simp only [List.countP_cons, http.Call.isYield, List.countP_append]
        split <;> simp [List.countP_cons, http.Call.isYield]

/-- C19: while `tryAsDbUserAndClusterAdmin` handles a request the handler callback is
called at most twice; it is called twice exactly when the credentials are extracted with
a user name, the database user authentication succeeds, the status that `yieldUser`
makes of the first call of the callback is 401, and the cluster admin authentication with
the same credentials, made in the state the callback left, succeeds too; in every other
case it is called at most once. -/
theorem callback_at_most_twice {σ U J : Type} (um : http.UserManager σ U) (lib : http.Lib J)
    (r : http.Request) (yield : σ → U → (Int × http.Body J) × σ) (s : σ) :
    (http.tryAsDbUserAndClusterAdmin um lib r yield s).2.countP http.Call.isYield ≤ 2 ∧
      ((http.tryAsDbUserAndClusterAdmin um lib r yield s).2.countP http.Call.isYield = 2 ↔
        ∃ name pw u1 s1 u2 s3, http.getUsernameAndPassword lib r = (name, pw, none) ∧
          name ≠ "" ∧ um.AuthenticateDbUser s (r.query ":db") name pw = (.ok u1, s1) ∧
          (http.yieldUser lib u1 yield s1).1.1 = 401 ∧
          um.AuthenticateClusterAdmin (http.yieldUser lib u1 yield s1).2 name pw =
            (.ok u2, s3)) ∧
      ((¬ ∃ name pw u1 s1 u2 s3, http.getUsernameAndPassword lib r = (name, pw, none) ∧
          name ≠ "" ∧ um.AuthenticateDbUser s (r.query ":db") name pw = (.ok u1, s1) ∧
          (http.yieldUser lib u1 yield s1).1.1 = 401 ∧
          um.AuthenticateClusterAdmin (http.yieldUser lib u1 yield s1).2 name pw =
            (.ok u2, s3)) →
        (http.tryAsDbUserAndClusterAdmin um lib r yield s).2.countP http.Call.isYield ≤ 1) := by
  have key : (http.tryAsDbUserAndClusterAdmin um lib r yield s).2.countP http.Call.isYield ≤ 2 ∧
      ((http.tryAsDbUserAndClusterAdmin um lib r yield s).2.countP http.Call.isYield = 2 ↔
        ∃ name pw u1 s1 u2 s3, http.getUsernameAndPassword lib r = (name, pw, none) ∧
          name ≠ "" ∧ um.AuthenticateDbUser s (r.query ":db") name pw = (.ok u1, s1) ∧
          (http.yieldUser lib u1 yield s1).1.1 = 401 ∧
          um.AuthenticateClusterAdmin (http.yieldUser lib u1 yield s1).2 name pw =
            (.ok u2, s3)) := by
    have hdbc := http.dbUser_count um lib r yield s
    unfold http.tryAsDbUserAndClusterAdmin
    rcases hdb : http.tryAsDbUser um lib r yield s with ⟨⟨st, body⟩, s1', calls⟩
    rw [hdb] at hdbc
    simp only at hdbc ⊢
    have hadm := http.clusterAdmin_count um lib r yield s1'
    rcases hdbc with ⟨name, pw, u, s1, hg, hname, hauth, hst, hs1, hcount⟩ | ⟨hno, hcount⟩
    · by_cases h401 : st = http.StatusUnauthorized
      · simp only [h401, ↓reduceIte, List.countP_append, List.countP_cons, http.Call.isYield,
          Bool.false_eq_true, hcount]
        rcases hadm with ⟨⟨name2, pw2, u2, s3, hg2, _, hauth2⟩, hc2⟩ | ⟨hno2, hc2⟩
        · rw [hc2]
          refine ⟨by norm_num, fun _ => ?_, fun _ => by norm_num⟩
          rw [hg] at hg2
          simp only [Prod.mk.injEq, and_true] at hg2
          refine ⟨name, pw, u, s1, u2, s3, hg, hname, hauth, ?_, ?_⟩
          · rw [← hst, h401]; rfl
          · rw [← hs1, hg2.1, hg2.2]
            exact hauth2
        · rw [hc2]
          refine ⟨by norm_num, fun h => by norm_num at h, ?_⟩
          rintro ⟨name2, pw2, u1, s1b, u2, s3, hg2, hname2, hauth1, _, hauth2⟩
          exfalso
          apply hno2
          rw [hg] at hg2
          simp only [Prod.mk.injEq, and_true] at hg2
          rw [← hg2.1, ← hg2.2, hauth] at hauth1
          simp only [Prod.mk.injEq, Except.ok.injEq] at hauth1
          rw [← hauth1.1, ← hauth1.2, ← hs1, ← hg2.1, ← hg2.2] at hauth2
          exact ⟨name, pw, u2, s3, hg, hname, hauth2⟩
      · have hres : (if st = http.StatusUnauthorized then
              (match http.tryAsClusterAdmin um lib r yield s1' with
                | (s2, calls2) => (s2, calls ++ http.Call.headerDel "WWW-Authenticate" :: calls2))
            else if st < 0 then (s1', calls)
            else (s1', calls ++ http.Call.writeHeader st ::
              (if body.length > 0 then [http.Call.write body] else []))).2.countP
              http.Call.isYield = 1 := by
          simp only [h401, ↓reduceIte]
          split
          · exact hcount
          · simp only [List.countP_append, List.countP_cons, http.Call.isYield, hcount]
            split <;> simp [List.countP_cons, http.Call.isYield]
        rw [hres]
        refine ⟨by norm_num, fun h => by norm_num at h, ?_⟩
        rintro ⟨name2, pw2, u1, s1b, u2, s3, hg2, _, hauth1, h401', _⟩
        exfalso
        apply h401
        rw [hg] at hg2
        simp only [Prod.mk.injEq, and_true] at hg2
        rw [← hg2.1, ← hg2.2, hauth] at hauth1
        simp only [Prod.mk.injEq, Except.ok.injEq] at hauth1
        rw [hst, hauth1.1, hauth1.2, h401']
        rfl
    · have hcond : ¬ ∃ name pw u1 s1 u2 s3,
          http.getUsernameAndPassword lib r = (name, pw, none) ∧
          name ≠ "" ∧ um.AuthenticateDbUser s (r.query ":db") name pw = (.ok u1, s1) ∧
          (http.yieldUser lib u1 yield s1).1.1 = 401 ∧
          um.AuthenticateClusterAdmin (http.yieldUser lib u1 yield s1).2 name pw =
            (.ok u2, s3) := by
        rintro ⟨name2, pw2, u1, s1b, u2, s3, hg2, hname2, hauth1, _⟩
        exact hno ⟨name2, pw2, u1, s1b, hg2, hname2, hauth1⟩
      by_cases h401 : st = http.StatusUnauthorized
      · simp only [h401, ↓reduceIte, List.countP_append, List.countP_cons, http.Call.isYield,
          Bool.false_eq_true, hcount]
        rcases hadm with ⟨_, hc2⟩ | ⟨_, hc2⟩
        · rw [hc2]
          exact ⟨by norm_num, fun h => by norm_num at h, fun h => absurd h hcond⟩
        · rw [hc2]
          exact ⟨by norm_num, fun h => by norm_num at h, fun h => absurd h hcond⟩
      · have hres : (if st = http.StatusUnauthorized then
              (match http.tryAsClusterAdmin um lib r yield s1' with
                | (s2, calls2) => (s2, calls ++ http.Call.headerDel "WWW-Authenticate" :: calls2))
            else if st < 0 then (s1', calls)
            else (s1', calls ++ http.Call.writeHeader st ::
              (if body.length > 0 then [http.Call.write body] else []))).2.countP
              http.Call.isYield = 0 := by
          simp only [h401, ↓reduceIte]
          split
          · exact hcount
          · simp only [List.countP_append, List.countP_cons, http.Call.isYield, hcount]
            split <;> simp [List.countP_cons, http.Call.isYield]
        rw [hres]
        exact ⟨by norm_num, fun h => by norm_num at h, fun h => absurd h hcond⟩
  refine ⟨key.1, key.2, fun hnot => ?_⟩
  have h2 : (http.tryAsDbUserAndClusterAdmin um lib r yield s).2.countP http.Call.isYield ≠ 2 :=
    fun h => hnot (key.2.mp h)
  have := key.1
  omega

/-- Witness for `callback_at_most_twice`: the request with `paul`'s credentials and the
callback that answers 401 at its first call; the callback is called twice. -/
theorem callback_at_most_twice_witness :
    (http.tryAsDbUserAndClusterAdmin http.demoUsers http.demoLib http.demoRequest
        http.demoYieldRetry 0).2.countP http.Call.isYield = 2 ∧
      (http.tryAsDbUserAndClusterAdmin http.demoUsers http.demoLib http.demoRequest
        http.demoYieldOk 0).2.countP http.Call.isYield ≤ 2 :=
  ⟨(callback_at_most_twice http.demoUsers http.demoLib http.demoRequest
      http.demoYieldRetry 0).2.1.mpr
      ⟨"paul", "secret", "paul", 0, "paul", 1, by decide, by decide, rfl, by decide, rfl⟩,
    (callback_at_most_twice http.demoUsers http.demoLib http.demoRequest
      http.demoYieldOk 0).1⟩

/-! ## Credentials in the Authorization header -/

/-- Splitting gives one piece more than there are separators. -/
lemma splitChars_length (sep : Char) (l : List Char) :
    (splitChars sep l).length = l.count sep + 1 := by
  induction l with
  | nil => simp [splitChars]
  | cons c cs ih =>
    unfold splitChars
    by_cases hc : c = sep
    · subst hc
      simp [ih]
    · have hne : ¬ sep = c := fun h => hc h.symm
      simp only [hc, ↓reduceIte]
      rcases hs : splitChars sep cs with _ | ⟨w, ws⟩
      · rw [hs] at ih
        simp at ih
      · rw [hs] at ih
        simp only [List.length_cons] at ih ⊢
        rw [ih, List.count_cons_of_ne hne]

/-- A list without the separator is split into itself. -/
lemma splitChars_of_not_mem (sep : Char) (l : List Char) (h : sep ∉ l) :
    splitChars sep l = [l] := by
  induction l with
  | nil => simp [splitChars]
  | cons c cs ih =>
    have hc : ¬ c = sep := fun heq => h (by rw [heq]; simp)
    have hcs : sep ∉ cs := fun hmem => h (List.mem_cons_of_mem _ hmem)
    unfold splitChars
    simp [hc, ih hcs]

/-- Splitting at the first separator. -/
lemma splitChars_append (sep : Char) (a b : List Char) (h : sep ∉ a) :
    splitChars sep (a ++ sep :: b) = a :: splitChars sep b := by
  induction a with
  | nil => simp [splitChars]
  | cons c cs ih =>
    have hc : ¬ c = sep := fun heq => h (by rw [heq]; simp)
    have hcs : sep ∉ cs := fun hmem => h (List.mem_cons_of_mem _ hmem)
    rw [List.cons_append, splitChars]
    simp [hc, ih hcs]

/-- A list with exactly one separator is split into what precedes and what follows it. -/
lemma splitChars_one (sep : Char) (l : List Char) (h : l.count sep = 1) :
    ∃ a b, l = a ++ sep :: b ∧ sep ∉ a ∧ sep ∉ b ∧ splitChars sep l = [a, b] := by
  have hmem : sep ∈ l := List.count_pos_iff.mp (by omega)
  obtain ⟨a, b, hab, ha⟩ := List.eq_append_cons_of_mem hmem
  have hb : sep ∉ b := by
    intro hb
    have h1 : 0 < b.count sep := List.count_pos_iff.mpr hb
    rw [hab, List.count_append, List.count_cons_self] at h
    omega
  exact ⟨a, b, hab, ha, hb, by rw [hab, splitChars_append sep a b ha,
    splitChars_of_not_mem sep b hb]⟩

/-- C20: for a request whose `u` and `p` query parameters are not both non-empty and
whose Authorization header is not empty, `getUsernameAndPassword` returns no error if and
only if the header splits at single spaces into exactly two fields, the second field
decodes as standard base64, and the decoded text holds exactly one `:`; the user name and
the password returned are then the text before and the text after that colon; and
credentials whose password holds a `:` are rejected with the error "Bad auth value". -/
theorem basic_credentials {J : Type} (lib : http.Lib J) (r : http.Request)
    (hq : ¬ (r.query "u" ≠ "" ∧ r.query "p" ≠ "")) (ha : ¬ r.header "Authorization" = "") :
    ((http.getUsernameAndPassword lib r).2.2 = none ↔
        ∃ f0 f1 txt, http.Split (r.header "Authorization") ' ' = [f0, f1] ∧
          lib.decodeString f1 = .ok txt ∧ txt.data.count ':' = 1) ∧
      (∀ f0 f1 txt, http.Split (r.header "Authorization") ' ' = [f0, f1] →
        lib.decodeString f1 = .ok txt → txt.data.count ':' = 1 →
        ∃ name pw, http.getUsernameAndPassword lib r = (name, pw, none) ∧
          txt = name ++ ":" ++ pw ∧ ':' ∉ name.data ∧ ':' ∉ pw.data) ∧
      (∀ f0 f1 name pw, http.Split (r.header "Authorization") ' ' = [f0, f1] →
        lib.decodeString f1 = .ok (name ++ ":" ++ pw) → ':' ∈ pw.data →
        http.getUsernameAndPassword lib r = ("", "", some "Bad auth value")) := by
  have hlen : ∀ txt : String, (http.Split txt ':').length = txt.data.count ':' + 1 := by
    intro txt
    simp [http.Split, splitChars_length]
  have hgood : ∀ f0 f1 txt, http.Split (r.header "Authorization") ' ' = [f0, f1] →
      lib.decodeString f1 = .ok txt → txt.data.count ':' = 1 →
      ∃ name pw, http.getUsernameAndPassword lib r = (name, pw, none) ∧
        txt = name ++ ":" ++ pw ∧ ':' ∉ name.data ∧ ':' ∉ pw.data := by
    intro f0 f1 txt hsplit hdec hcount
    obtain ⟨a, b, hab, hna, hnb, hsp⟩ := splitChars_one ':' txt.data hcount
    refine ⟨⟨a⟩, ⟨b⟩, ?_, ?_, hna, hnb⟩
    · unfold http.getUsernameAndPassword
      have h2 : http.Split txt ':' = [⟨a⟩, ⟨b⟩] := by simp [http.Split, hsp]
      simp [hq, ha, hsplit, hdec, h2]
    · apply String.ext
      simp [String.data_append, hab]
  refine ⟨⟨?_, ?_⟩, hgood, ?_⟩
  · intro hnone
    unfold http.getUsernameAndPassword at hnone
    rw [if_neg hq, if_neg ha] at hnone
    split at hnone
    · simp at hnone
    · rename_i hl
      obtain ⟨f0, f1, hsplit⟩ := List.length_eq_two.mp (not_not.mp hl)
      rw [hsplit] at hnone
      simp only [List.getD_cons_succ, List.getD_cons_zero] at hnone
      rcases hdec : lib.decodeString f1 with e | txt
      · rw [hdec] at hnone
        simp at hnone
      · rw [hdec] at hnone
        simp only at hnone
        split at hnone
        · simp at hnone
        · rename_i hl2
          have := hlen txt
          exact ⟨f0, f1, txt, hsplit, hdec, by omega⟩
  · rintro ⟨f0, f1, txt, hsplit, hdec, hcount⟩
    obtain ⟨name, pw, hres, _⟩ := hgood f0 f1 txt hsplit hdec hcount
    rw [hres]
  · intro f0 f1 name pw hsplit hdec hpw
    have hcount : (name ++ ":" ++ pw).data.count ':' ≥ 2 := by
      have h1 : 0 < pw.data.count ':' := List.count_pos_iff.mpr hpw
      simp only [String.data_append, List.count_append]
      have h2 : List.count ':' [':'] = 1 := by decide
      omega
    have hl := hlen (name ++ ":" ++ pw)
    have hne : (http.Split (name ++ ":" ++ pw) ':').length ≠ 2 := by omega
    unfold http.getUsernameAndPassword
    simp [hq, ha, hsplit, hdec, hne]

/-- Witness for `basic_credentials`: the header that encodes `paul:secret` is accepted, the
header that encodes `paul:a:b` is rejected. -/
theorem basic_credentials_witness :
    ¬ (http.demoBasic.query "u" ≠ "" ∧ http.demoBasic.query "p" ≠ "") ∧
      ¬ http.demoBasic.header "Authorization" = "" ∧
      (http.getUsernameAndPassword http.demoLib http.demoBasic).2.2 = none ∧
      http.getUsernameAndPassword http.demoLib http.demoBasic = ("paul", "secret", none) ∧
      http.getUsernameAndPassword http.demoLib http.demoBasicColon =
        ("", "", some "Bad auth value") :=
  ⟨by decide, by decide,
    (basic_credentials http.demoLib http.demoBasic (by decide) (by decide)).1.mpr
      ⟨"Basic", "cGF1bDpzZWNyZXQ=", "paul:secret", by decide, rfl, by decide⟩,
    by decide,
    (basic_credentials http.demoLib http.demoBasicColon (by decide) (by decide)).2.2
      "Basic" "cGF1bDphOmI=" "paul" "a:b" (by decide) rfl (by decide)⟩

/-! ## The writer that collects all points -/

/-- Reading the cells `0, 1, ...` of a list gives the list back. -/
lemma map_range_getD {P : Type} (xs : List P) (d : Nat → P) :
    (List.range xs.length).map (fun j => xs.getD j (d j)) = xs := by
  apply List.ext_getElem
  · simp
  · intro i h1 h2
    simp [List.getElem?_eq_getElem h2]

/-- A slice reads the same from two memories that agree on its cells. -/
lemma http.elems_congr {P : Type} (m1 m2 : http.Memory P) (s : http.Slice)
    (h : ∀ i, i < s.len → m1.cells s.array (s.first + i) = m2.cells s.array (s.first + i)) :
    m1.elems s = m2.elems s := by
  unfold http.Memory.elems
  apply List.map_congr_left
  intro i hi
  exact h i (List.mem_range.mp hi)

/-- The slice returned by `append` holds the elements of its first argument followed by
the elements appended. -/
lemma http.append_elems {P : Type} (growCap : Nat → Nat → Nat) (m : http.Memory P)
    (s : http.Slice) (xs : List P) :
    (http.append growCap m s xs).2.elems (http.append growCap m s xs).1 = m.elems s ++ xs := by
  unfold http.append
  split
  · simp only [http.Memory.elems, List.range_add, List.map_append, List.map_map]
    congr 1
    · apply List.map_congr_left
      intro i hi
      have := List.mem_range.mp hi
      have hno : ¬ (s.first + s.len ≤ s.first + i) := by omega
      simp [hno]
    · conv_rhs => rw [← map_range_getD xs (fun j => m.cells s.array (s.first + (s.len + j)))]
      apply List.map_congr_left
      intro j hj
      have := List.mem_range.mp hj
      have h1 : s.first + s.len ≤ s.first + (s.len + j) := by omega
      have h2 : s.first + (s.len + j) < s.first + s.len + xs.length := by omega
      have h3 : s.first + (s.len + j) - (s.first + s.len) = j := by omega
      simp [h1, h2, h3]
  · simp only [http.Memory.elems, List.range_add, List.map_append, List.map_map]
    congr 1
    · apply List.map_congr_left
      intro i hi
      have := List.mem_range.mp hi
      simp [this]
    · conv_rhs => rw [← map_range_getD xs (fun j => m.cells m.next (0 + (s.len + j)))]
      apply List.map_congr_left
      intro j hj
      have h1 : ¬ (s.len + j < s.len) := by omega
      simp [h1]

/-- Go `append` changes no series header, and allocates at most one array. -/
lemma http.append_frame {P : Type} (growCap : Nat → Nat → Nat) (m : http.Memory P)
    (s : http.Slice) (xs : List P) :
    (http.append growCap m s xs).2.series = m.series ∧
      m.next ≤ (http.append growCap m s xs).2.next ∧
      (((http.append growCap m s xs).1.array = s.array ∧
          (http.append growCap m s xs).1.cap = s.cap ∧
          s.len ≤ (http.append growCap m s xs).1.len) ∨
        ((http.append growCap m s xs).1.array = m.next ∧
          (http.append growCap m s xs).2.next = m.next + 1)) := by
  unfold http.append
  split
  · exact ⟨rfl, le_refl _, Or.inl ⟨rfl, rfl, by simp⟩⟩
  · exact ⟨rfl, by simp, Or.inr ⟨rfl, rfl⟩⟩

/-- Go `append` leaves the elements of another slice as they were, when that slice lies in
an array in use and, should the first argument have spare capacity, not in the array of
the first argument. -/
lemma http.append_other {P : Type} (growCap : Nat → Nat → Nat) (m : http.Memory P)
    (s t : http.Slice) (xs : List P) (halloc : t.array < m.next)
    (hsep : s.cap ≤ s.len ∨ s.array ≠ t.array) :
    (http.append growCap m s xs).2.elems t = m.elems t := by
  apply http.elems_congr
  intro i _
  unfold http.append
  split
  · rename_i hfit
    simp only
    by_cases hw : t.array = s.array ∧ s.first + s.len ≤ t.first + i ∧
        t.first + i < s.first + s.len + xs.length
    · exfalso
      rcases hsep with hfull | hne
      · omega
      · exact hne hw.1.symm
    · rw [if_neg hw]
  · simp only
    have hne : t.array ≠ m.next := by omega
    rw [if_neg hne]

lemma http.lookupSeries_none (name : String) (mem : List (String × Nat)) :
    http.lookupSeries name mem = none ↔ name ∉ mem.map Prod.fst := by
  induction mem with
  | nil => simp [http.lookupSeries]
  | cons e rest ih =>
    obtain ⟨key, ptr⟩ := e
    unfold http.lookupSeries
    by_cases hk : key = name
    · simp [hk]
    · have hne : ¬ name = key := fun h => hk h.symm
      simp [hk, hne, ih]

lemma http.lookupSeries_some (name : String) (mem : List (String × Nat)) (ptr : Nat)
    (h : http.lookupSeries name mem = some ptr) : (name, ptr) ∈ mem := by
  induction mem with
  | nil => simp [http.lookupSeries] at h
  | cons e rest ih =>
    obtain ⟨key, p⟩ := e
    unfold http.lookupSeries at h
    by_cases hk : key = name
    · simp only [hk, ↓reduceIte, Option.some.injEq] at h
      simp [hk, h]
    · simp only [hk, ↓reduceIte] at h
      exact List.mem_cons_of_mem _ (ih h)

lemma http.pointsNamed_append {P : Type} (name : String) (log : List (http.SeriesValue P))
    (s : http.SeriesValue P) :
    http.pointsNamed name (log ++ [s]) =
      http.pointsNamed name log ++ (if s.Name = name then s.Points else []) := by
  unfold http.pointsNamed
  by_cases h : s.Name = name
  · simp [List.filter_append, List.filter_cons, h]
  · simp [List.filter_append, List.filter_cons, h]

lemma http.pointsNamed_cons {P : Type} (name : String) (log : List (http.SeriesValue P))
    (s : http.SeriesValue P) :
    http.pointsNamed name (s :: log) =
      (if s.Name = name then s.Points else []) ++ http.pointsNamed name log := by
  unfold http.pointsNamed
  by_cases h : s.Name = name
  · simp [List.filter_cons, h]
  · simp [List.filter_cons, h]

lemma http.pointsNamed_absent {P : Type} (name : String) (log : List (http.SeriesValue P))
    (h : ¬ ∃ s ∈ log, s.Name = name) : http.pointsNamed name log = [] := by
  unfold http.pointsNamed
  have : log.filter (fun s => s.Name = name) = [] := by
    rw [List.filter_eq_nil_iff]
    intro s hs hname
    exact h ⟨s, hs, by simpa using hname⟩
  rw [this]
  rfl

/-- Two entries of a map without repeated keys that have the same key are the same. -/
lemma http.entry_unique (mem : List (String × Nat))
    (hnd : (mem.map Prod.fst).Nodup) (e1 e2 : String × Nat) (h1 : e1 ∈ mem) (h2 : e2 ∈ mem)
    (hkey : e1.1 = e2.1) : e1 = e2 :=
  List.inj_on_of_nodup_map hnd h1 h2 hkey

/-- A call of `yield` for a name that has no entry returns no error, stores the pointer
and keeps the writer consistent. -/
lemma http.yield_inv_new {P : Type} (m0 : http.Memory P) (ptrs : List Nat) (halloc : ∀ p ∈ ptrs, (m0.series p).Points.array < m0.next)
    (hsep : ∀ p ∈ ptrs, ∀ q ∈ ptrs, p ≠ q →
      (m0.series p).Points.cap ≤ (m0.series p).Points.len ∨
        (m0.series p).Points.array ≠ (m0.series q).Points.array)
    (self : http.AllPointsWriter) (m : http.Memory P) (log : List (http.SeriesValue P))
    (series : Nat) (hin : series ∈ ptrs) (h : http.WriterInv m0 ptrs self m log)
    (hl : http.lookupSeries (m.series series).Name self.memSeries = none) :
    http.WriterInv m0 ptrs { memSeries := self.memSeries ++ [((m.series series).Name, series)] }
      m (log ++ [m.value series]) := by
  have habs : (m.series series).Name ∉ self.memSeries.map Prod.fst :=
    (http.lookupSeries_none _ _).mp hl
  have hunst : series ∉ self.memSeries.map Prod.snd := by
    intro hmem
    obtain ⟨e, he, hes⟩ := List.mem_map.mp hmem
    apply habs
    rw [← hes, (h.entry e he).2.1]
    exact List.mem_map_of_mem Prod.fst he
  have hs : m.series series = m0.series series := (h.unstored series hin hunst).2
  refine ⟨?_, ?_, ?_, h.next_le, h.alloc, ?_, ?_, ?_⟩
  · simp only [List.map_append, List.map_cons, List.map_nil]
    rw [List.nodup_append]
    refine ⟨h.keys_nodup, by simp, ?_⟩
    intro a ha hb
    simp only [List.mem_singleton] at hb
    exact habs (hb ▸ ha)
  · intro name
    simp only [List.map_append, List.map_cons, List.map_nil, List.mem_append,
      List.mem_singleton]
    constructor
    · rintro (hm | rfl)
      · obtain ⟨s, hs, hn⟩ := (h.keys_iff name).mp hm
        exact ⟨s, Or.inl hs, hn⟩
      · exact ⟨m.value series, Or.inr rfl, rfl⟩
    · rintro ⟨s, hs | rfl, hn⟩
      · exact Or.inl ((h.keys_iff name).mpr ⟨s, hs, hn⟩)
      · exact Or.inr hn.symm
  · intro e he
    simp only [List.mem_append, List.mem_singleton] at he
    rcases he with he | rfl
    · obtain ⟨h0, h1, h2⟩ := h.entry e he
      have hne : ¬ (m.value series).Name = e.1 := by
        intro heq
        apply habs
        have hname : (m.series series).Name = e.1 := heq
        rw [hname]
        exact List.mem_map_of_mem Prod.fst he
      refine ⟨h0, h1, ?_⟩
      rw [http.pointsNamed_append, if_neg hne, List.append_nil]
      exact h2
    · refine ⟨hin, rfl, ?_⟩
      simp only
      rw [http.pointsNamed_append, http.pointsNamed_absent _ log
        (fun hex => habs ((h.keys_iff _).mpr hex)), List.nil_append]
      simp [http.Memory.value]
  · intro p hp hnot
    apply h.unstored p hp
    intro hmem
    apply hnot
    simp only [List.map_append, List.mem_append]
    exact Or.inl hmem
  · intro e he
    simp only [List.mem_append, List.mem_singleton] at he
    rcases he with he | rfl
    · exact h.origin e he
    · exact Or.inl (by rw [hs])
  · intro e he p hp hne
    simp only [List.mem_append, List.mem_singleton] at he
    rcases he with he | rfl
    · exact h.sep e he p hp hne
    · simp only at hne ⊢
      rcases hsep series hin p hp (Ne.symm hne) with hfull | hne0
      · left
        rw [hs]
        exact hfull
      · right
        by_cases hst : p ∈ self.memSeries.map Prod.snd
        · obtain ⟨e2, he2, hep⟩ := List.mem_map.mp hst
          rcases h.origin e2 he2 with ho | ho
          · rw [hs, ← hep, ho, hep]
            exact hne0
          · rw [hs, ← hep]
            have := halloc series hin
            omega
        · rw [hs, (h.unstored p hp hst).2]
          exact hne0

/-- A call of `yield` for a name that has an entry keeps the writer consistent: the
points passed are appended to the series stored, and no other series of `ptrs` changes. -/
lemma http.yield_inv_old {P : Type} (growCap : Nat → Nat → Nat) (m0 : http.Memory P)
    (ptrs : List Nat) (self : http.AllPointsWriter) (m : http.Memory P)
    (log : List (http.SeriesValue P)) (series : Nat) (old : Nat)
    (h : http.WriterInv m0 ptrs self m log)
    (hl : http.lookupSeries (m.series series).Name self.memSeries = some old) :
    http.WriterInv m0 ptrs self
      ((http.append growCap m (m.series old).Points (m.elems (m.series series).Points)).2.setPoints
        old (http.append growCap m (m.series old).Points (m.elems (m.series series).Points)).1)
      (log ++ [m.value series]) := by
  have hmem : ((m.series series).Name, old) ∈ self.memSeries := http.lookupSeries_some _ _ _ hl
  obtain ⟨hoin, hon, hoe⟩ := h.entry _ hmem
  simp only at hoin hon hoe
  have hostored : old ∈ self.memSeries.map Prod.snd := List.mem_map_of_mem Prod.snd hmem
  obtain ⟨hser, hnext, hshape⟩ := http.append_frame growCap m (m.series old).Points
    (m.elems (m.series series).Points)
  have hres := http.append_elems growCap m (m.series old).Points
    (m.elems (m.series series).Points)
  have hother : ∀ p ∈ ptrs, p ≠ old →
      (http.append growCap m (m.series old).Points (m.elems (m.series series).Points)).2.elems
        (m.series p).Points = m.elems (m.series p).Points := by
    intro p hp hne
    exact http.append_other growCap m _ _ _ (h.alloc p hp) (h.sep _ hmem p hp hne)
  generalize http.append growCap m (m.series old).Points (m.elems (m.series series).Points) = r
    at hser hnext hshape hres hother ⊢
  obtain ⟨pts, m1⟩ := r
  simp only at hser hnext hshape hres hother ⊢
  have hself : (m1.setPoints old pts).series old = { m.series old with Points := pts } := by
    simp [http.Memory.setPoints, hser]
  have hoth : ∀ p, p ≠ old → (m1.setPoints old pts).series p = m.series p := by
    intro p hp
    simp [http.Memory.setPoints, hser, hp]
  have hel : ∀ t, (m1.setPoints old pts).elems t = m1.elems t := fun _ => rfl
  have hnx : (m1.setPoints old pts).next = m1.next := rfl
  have hkey : ∀ e ∈ self.memSeries, e.2 = old → e.1 = (m.series series).Name := by
    intro e he heq
    rw [← (h.entry e he).2.1, heq, hon]
  have hkey2 : ∀ e ∈ self.memSeries, e.2 ≠ old → ¬ (m.value series).Name = e.1 := by
    intro e he hne heq
    apply hne
    have := http.entry_unique _ h.keys_nodup e _ he hmem heq.symm
    rw [this]
  refine ⟨h.keys_nodup, ?_, ?_, ?_, ?_, ?_, ?_, ?_⟩
  · intro name
    rw [h.keys_iff name]
    constructor
    · rintro ⟨s, hs, hn⟩
      exact ⟨s, List.mem_append_left _ hs, hn⟩
    · rintro ⟨s, hs, hn⟩
      rcases List.mem_append.mp hs with hs | hs
      · exact ⟨s, hs, hn⟩
      · simp only [List.mem_singleton] at hs
        subst hs
        rw [← hn]
        exact (h.keys_iff _).mp (List.mem_map_of_mem Prod.fst hmem)
  · intro e he
    obtain ⟨h0, h1, h2⟩ := h.entry e he
    refine ⟨h0, ?_, ?_⟩
    · by_cases hq : e.2 = old
      · rw [hq, hself]
        simp only
        rw [← hq]
        exact h1
      · rw [hoth _ hq]
        exact h1
    · by_cases hq : e.2 = old
      · have hname := hkey e he hq
        rw [hq, hself, hel]
        simp only
        rw [hres, http.pointsNamed_append, hoe, hname]
        simp [http.Memory.value]
      · rw [hoth _ hq, hel, hother _ h0 hq, http.pointsNamed_append,
          if_neg (hkey2 e he hq), List.append_nil]
        exact h2
  · rw [hnx]
    exact le_trans h.next_le hnext
  · intro p hp
    rw [hnx]
    by_cases hq : p = old
    · rw [hq, hself]
      simp only
      have := h.alloc old hoin
      rcases hshape with ⟨ha, _, _⟩ | ⟨ha, hb⟩
      · omega
      · omega
    · rw [hoth _ hq]
      have := h.alloc p hp
      omega
  · intro p hp hnot
    have hq : p ≠ old := fun heq => hnot (heq ▸ hostored)
    obtain ⟨u1, u2⟩ := h.unstored p hp hnot
    refine ⟨?_, by rw [hoth _ hq, u2]⟩
    rw [← u1]
    simp only [http.Memory.value, hoth _ hq, hel, hother _ hp hq]
  · intro e he
    by_cases hq : e.2 = old
    · rw [hq, hself]
      simp only
      rcases hshape with ⟨ha, _, _⟩ | ⟨ha, hb⟩
      · rw [ha, ← hq]
        exact h.origin e he
      · right
        rw [ha]
        exact h.next_le
    · rw [hoth _ hq]
      exact h.origin e he
  · intro e he p hp hne
    have he0 := (h.entry e he).1
    by_cases hq : e.2 = old
    · have hp2 : p ≠ old := fun heq => hne (heq.trans hq.symm)
      rw [hq, hself, hoth _ hp2]
      simp only
      rcases hshape with ⟨ha, hb, hc⟩ | ⟨ha, hb⟩
      · rcases h.sep e he p hp hne with hfull | hne0
        · left
          rw [hq] at hfull
          omega
        · right
          rw [ha, ← hq]
          exact hne0
      · right
        rw [ha]
        have := h.alloc p hp
        omega
    · rw [hoth _ hq]
      by_cases hp2 : p = old
      · rw [hp2, hself]
        simp only
        rcases h.sep e he old hoin (hp2 ▸ hne) with hfull | hne0
        · exact Or.inl hfull
        · right
          rcases hshape with ⟨ha, _, _⟩ | ⟨ha, hb⟩
          · rw [ha]
            exact hne0
          · rw [ha]
            have := h.alloc e.2 he0
            omega
      · rw [hoth _ hp2]
        exact h.sep e he p hp hne

/-- One call of `yield` returns no error and keeps the writer consistent; the only pointer
it may store is the one passed. -/
lemma http.yield_inv {P : Type} (growCap : Nat → Nat → Nat) (m0 : http.Memory P)
    (ptrs : List Nat) (halloc : ∀ p ∈ ptrs, (m0.series p).Points.array < m0.next)
    (hsep : ∀ p ∈ ptrs, ∀ q ∈ ptrs, p ≠ q →
      (m0.series p).Points.cap ≤ (m0.series p).Points.len ∨
        (m0.series p).Points.array ≠ (m0.series q).Points.array)
    (self : http.AllPointsWriter) (m : http.Memory P) (log : List (http.SeriesValue P))
    (series : Nat) (hin : series ∈ ptrs) (h : http.WriterInv m0 ptrs self m log) :
    (self.yield growCap m series).1 = none ∧
      http.WriterInv m0 ptrs (self.yield growCap m series).2.1
        (self.yield growCap m series).2.2 (log ++ [m.value series]) ∧
      ∀ p ∈ (self.yield growCap m series).2.1.memSeries.map Prod.snd,
        p = series ∨ p ∈ self.memSeries.map Prod.snd := by
  unfold http.AllPointsWriter.yield
  rcases hl : http.lookupSeries (m.series series).Name self.memSeries with _ | old
  · refine ⟨rfl, http.yield_inv_new m0 ptrs halloc hsep self m log series hin h hl, ?_⟩
    intro p hp
    simp only [List.map_append, List.map_cons, List.map_nil, List.mem_append,
      List.mem_singleton] at hp
    rcases hp with hp | hp
    · exact Or.inr hp
    · exact Or.inl hp
  · exact ⟨rfl, http.yield_inv_old growCap m0 ptrs self m log series old h hl,
      fun p hp => Or.inr hp⟩

/-- A sequence of calls of `yield` returns no error and keeps the writer consistent with
the series passed; when the pointers passed are distinct and none is stored yet, each
series is passed as it was in the memory `m0`. -/
lemma http.yieldAll_inv {P : Type} (growCap : Nat → Nat → Nat) (m0 : http.Memory P)
    (ptrs : List Nat) (halloc : ∀ p ∈ ptrs, (m0.series p).Points.array < m0.next)
    (hsep : ∀ p ∈ ptrs, ∀ q ∈ ptrs, p ≠ q →
      (m0.series p).Points.cap ≤ (m0.series p).Points.len ∨
        (m0.series p).Points.array ≠ (m0.series q).Points.array)
    (rest : List Nat) (hrest : ∀ p ∈ rest, p ∈ ptrs) (self : http.AllPointsWriter)
    (m : http.Memory P) (log : List (http.SeriesValue P))
    (h : http.WriterInv m0 ptrs self m log) :
    http.WriterInv m0 ptrs (http.yieldAll growCap self m rest).writer
        (http.yieldAll growCap self m rest).memory
        (log ++ (http.yieldAll growCap self m rest).seen) ∧
      (http.yieldAll growCap self m rest).errors.length = rest.length ∧
      (∀ err ∈ (http.yieldAll growCap self m rest).errors, err = none) ∧
      (rest.Nodup → (∀ p ∈ rest, p ∉ self.memSeries.map Prod.snd) →
        (http.yieldAll growCap self m rest).seen = rest.map m0.value) := by
  induction rest generalizing self m log with
  | nil => simpa [http.yieldAll] using h
  | cons series tail ih =>
    have hin : series ∈ ptrs := hrest series (by simp)
    obtain ⟨h1, h2, h3⟩ := http.yield_inv growCap m0 ptrs halloc hsep self m log series hin h
    obtain ⟨i1, i2, i3, i4⟩ := ih (fun p hp => hrest p (List.mem_cons_of_mem _ hp)) _ _ _ h2
    unfold http.yieldAll
    refine ⟨?_, ?_, ?_, ?_⟩
    · simpa using i1
    · simp [i2]
    · intro err herr
      simp only [List.mem_cons] at herr
      rcases herr with rfl | herr
      · exact h1
      · exact i3 err herr
    · intro hnd hfresh
      have hnd2 := List.nodup_cons.mp hnd
      simp only [List.map_cons, List.cons.injEq]
      refine ⟨(h.unstored series hin (hfresh series (by simp))).1, ?_⟩
      apply i4 hnd2.2
      intro p hp hmem
      rcases h3 p hmem with rfl | hold
      · exact hnd2.1 hp
      · exact hfresh p (List.mem_cons_of_mem _ hp) hold

/-- Over distinct names, the sizes of an amount put under one of the names and of nothing
under the others add up to that amount. -/
lemma sum_single_name (keys : List String) (hnd : keys.Nodup) (name : String)
    (hmem : name ∈ keys) (c : Nat) :
    (keys.map (fun n => if name = n then c else 0)).sum = c := by
  induction keys with
  | nil => cases hmem
  | cons k rest ih =>
    have hnd2 := List.nodup_cons.mp hnd
    simp only [List.map_cons, List.sum_cons]
    by_cases hk : name = k
    · subst hk
      have hzero : (rest.map (fun n => if name = n then c else 0)).sum = 0 := by
        apply List.sum_eq_zero
        intro x hx
        simp only [List.mem_map] at hx
        obtain ⟨n, hn, rfl⟩ := hx
        have : ¬ name = n := fun heq => hnd2.1 (heq ▸ hn)
        simp [this]
      simp [hzero]
    · have hin : name ∈ rest := by
        rcases List.mem_cons.mp hmem with h | h
        · exact absurd h hk
        · exact h
      simp [hk, ih hnd2.2 hin]

/-- Over distinct names that cover the names of the series passed, the points kept under
the names are as many as the points passed. -/
lemma http.sum_pointsNamed {P : Type} (keys : List String) (hnd : keys.Nodup)
    (log : List (http.SeriesValue P)) (hcover : ∀ s ∈ log, s.Name ∈ keys) :
    (keys.map (fun n => (http.pointsNamed n log).length)).sum = http.totalPoints log := by
  induction log with
  | nil => simp [http.pointsNamed, http.totalPoints]
  | cons s rest ih =>
    have hrest := ih (fun x hx => hcover x (List.mem_cons_of_mem _ hx))
    have hsplit : (fun n => (http.pointsNamed n (s :: rest)).length) =
        fun n => (if s.Name = n then s.Points.length else 0) +
          (http.pointsNamed n rest).length := by
      funext n
      rw [http.pointsNamed_cons]
      by_cases h : s.Name = n <;> simp [h]
    rw [hsplit, List.sum_map_add, hrest, sum_single_name keys hnd s.Name (hcover s (by simp))]
    simp [http.totalPoints]

/-- C21 as stated fails: a points array holding 1 and 2 is shared by the series `cpu`,
which has the first point and room for one more, and the series `mem`, which has the
second. Both are stored; then a second series `cpu` with the point 9 is passed, and
`append` writes the 9 into the shared array, over the point of `mem`. The three series
were passed as they were at the start, with the points 1, 2 and 9, yet the entry of `mem`
ends with the point 9 instead of the point 2 that was yielded under that name. -/
theorem shared_points_array_is_overwritten :
    (http.yieldAll http.demoGrow { memSeries := [] } http.demoShared [0, 1, 2]).seen =
        [{ Name := "cpu", Points := [1] }, { Name := "mem", Points := [2] },
          { Name := "cpu", Points := [9] }] ∧
      (http.yieldAll http.demoGrow { memSeries := [] } http.demoShared
          [0, 1, 2]).writer.memSeries = [("cpu", 0), ("mem", 1)] ∧
      (http.yieldAll http.demoGrow { memSeries := [] } http.demoShared [0, 1, 2]).errors =
        [none, none, none] ∧
      http.pointsNamed "mem"
          (http.yieldAll http.demoGrow { memSeries := [] } http.demoShared [0, 1, 2]).seen =
        [2] ∧
      (http.yieldAll http.demoGrow { memSeries := [] } http.demoShared [0, 1, 2]).memory.value
          1 = { Name := "mem", Points := [9] } ∧
      (http.yieldAll http.demoGrow { memSeries := [] } http.demoShared [0, 1, 2]).memory.value
          0 = { Name := "cpu", Points := [1, 9] } := by
  decide

/-- C21 as amended: series are passed, one by one, to `yield` on a writer whose map was
empty; their points lie in arrays in use, and a series whose slice of points has spare
capacity shares its array with no other series passed. Then the map has exactly one entry
for each name among the series passed; the entry of a name points to a series of that
name whose points are the points of the series of that name, as they were passed, in the
order of the calls; the points held are as many as the points passed; every call
returned, with a nil error; and when the series passed are distinct objects, each was
passed as it was at the start. -/
theorem all_points_writer_collects {P : Type} (growCap : Nat → Nat → Nat) (m : http.Memory P)
    (ptrs : List Nat) (halloc : ∀ p ∈ ptrs, (m.series p).Points.array < m.next)
    (hsep : ∀ p ∈ ptrs, ∀ q ∈ ptrs, p ≠ q →
      (m.series p).Points.cap ≤ (m.series p).Points.len ∨
        (m.series p).Points.array ≠ (m.series q).Points.array) :
    ((http.yieldAll growCap { memSeries := [] } m ptrs).writer.memSeries.map Prod.fst).Nodup ∧
      (∀ name, name ∈ (http.yieldAll growCap { memSeries := [] } m ptrs).writer.memSeries.map
          Prod.fst ↔
        ∃ s ∈ (http.yieldAll growCap { memSeries := [] } m ptrs).seen, s.Name = name) ∧
      (∀ e ∈ (http.yieldAll growCap { memSeries := [] } m ptrs).writer.memSeries,
        ((http.yieldAll growCap { memSeries := [] } m ptrs).memory.value e.2).Name = e.1 ∧
          ((http.yieldAll growCap { memSeries := [] } m ptrs).memory.value e.2).Points =
            http.pointsNamed e.1 (http.yieldAll growCap { memSeries := [] } m ptrs).seen) ∧
      http.totalPoints
          (http.storedSeries (http.yieldAll growCap { memSeries := [] } m ptrs).writer
            (http.yieldAll growCap { memSeries := [] } m ptrs).memory) =
        http.totalPoints (http.yieldAll growCap { memSeries := [] } m ptrs).seen ∧
      (http.yieldAll growCap { memSeries := [] } m ptrs).errors.length = ptrs.length ∧
      (∀ err ∈ (http.yieldAll growCap { memSeries := [] } m ptrs).errors, err = none) ∧
      (ptrs.Nodup →
        (http.yieldAll growCap { memSeries := [] } m ptrs).seen = ptrs.map m.value) := by
  have h0 : http.WriterInv m ptrs { memSeries := [] } m ([] : List (http.SeriesValue P)) :=
    ⟨List.nodup_nil, fun name => (by simp), fun e he => absurd he (List.not_mem_nil e),
      le_refl _, halloc, fun _ _ _ => ⟨rfl, rfl⟩,
      fun e he => absurd he (List.not_mem_nil e), fun e he => absurd he (List.not_mem_nil e)⟩
  obtain ⟨hinv, hlen, herr, hseen⟩ :=
    http.yieldAll_inv growCap m ptrs halloc hsep ptrs (fun _ hp => hp) _ m [] h0
  have hnd := hinv.keys_nodup
  have hkeys := hinv.keys_iff
  have hent := hinv.entry
  simp only [List.nil_append] at hkeys hent
  refine ⟨hnd, hkeys, fun e he => ⟨(hent e he).2.1, (hent e he).2.2⟩, ?_, hlen, herr, ?_⟩
  · have hcover : ∀ s ∈ (http.yieldAll growCap { memSeries := [] } m ptrs).seen,
        s.Name ∈ (http.yieldAll growCap { memSeries := [] } m ptrs).writer.memSeries.map
          Prod.fst := fun s hs => (hkeys s.Name).mpr ⟨s, hs, rfl⟩
    rw [← http.sum_pointsNamed _ hnd _ hcover]
    unfold http.totalPoints http.storedSeries
    rw [List.map_map, List.map_map]
    congr 1
    apply List.map_congr_left
    intro e he
    simp only [Function.comp_apply, http.Memory.value]
    rw [(hent e he).2.2]
  · intro hdistinct
    exact hseen hdistinct (fun _ _ hmem => by simp at hmem)

/-- Witness for `all_points_writer_collects`: the three series of the example memory, two
of them called `cpu`, each with an array of its own, passed in the order of their
addresses; the point of the second `cpu` is written into the spare cell of the first. -/
theorem all_points_writer_collects_witness :
    (∀ p ∈ [0, 1, 2], (http.demoMemory.series p).Points.array < http.demoMemory.next) ∧
      [0, 1, 2].Nodup ∧
      (http.yieldAll http.demoGrow { memSeries := [] } http.demoMemory [0, 1, 2]).seen =
        [0, 1, 2].map http.demoMemory.value ∧
      (http.yieldAll http.demoGrow { memSeries := [] } http.demoMemory
          [0, 1, 2]).writer.memSeries = [("cpu", 0), ("mem", 1)] ∧
      (http.yieldAll http.demoGrow { memSeries := [] } http.demoMemory [0, 1, 2]).memory.value
          0 = { Name := "cpu", Points := [1, 2, 4] } ∧
      (http.yieldAll http.demoGrow { memSeries := [] } http.demoMemory [0, 1, 2]).memory.value
          1 = { Name := "mem", Points := [3] } :=
  ⟨by decide, by decide,
    (all_points_writer_collects http.demoGrow http.demoMemory [0, 1, 2] (by decide)
      (by decide)).2.2.2.2.2.2 (by decide),
    by decide, by decide, by decide⟩

end InfluxTsm
